import Mathlib

/-! # Network endpoints of `x_net.c`

A shallow embedding of the `netsend` / `netreceive` objects.  C structs become
Lean structures with the same field names, the calls a function makes into the
host (outlets, the poll list, the socket layer, the console) are recorded in
order as a list of `Event`s, and whatever the operating system answers (the
result of `recv`, of `send`, of the clock) is an argument of the function that
asks for it.
-/

namespace XNet

/-! ## Data model -/

/-- The numeric type of messages.  Exact rationals stand for the finite values
of the C floating point type; no claim below depends on rounding. -/
abbrev t_float := ℚ

/-- The bytes of a wire buffer, each meant to be below 256. -/
abbrev t_byte := Nat

/-- Atoms as `x_net.c` tells them apart by `a_type`: the kinds a binbuf read
from text can hold.  The declaration itself is in `m_pd.h`. -/
inductive t_atom where
  | A_FLOAT (w_float : t_float)
  | A_SYMBOL (w_symbol : String)
  | A_SEMI
  | A_COMMA
  | A_DOLLAR (w_index : Int)
  | A_DOLLSYM (w_symbol : String)
  deriving DecidableEq, Repr

/-- The outlet slots of the object header and of `t_netsend`. -/
inductive t_outlet where
  | ob_outlet
  | x_msgout
  | x_connectout
  | x_fromout
  deriving DecidableEq, Repr

/-- A pointer to a `t_socketreceiver`, as an allocation number. -/
abbrev t_socketreceiver := Nat

/-- The two socket types the objects use. -/
inductive t_socktype where
  | SOCK_STREAM
  | SOCK_DGRAM
  deriving DecidableEq, Repr

/-- The address storage kept for the peer: family, port and address bits.
All zero is what `memset` leaves. -/
structure sockaddr_storage where
  ss_family : Nat
  ss_port : Nat
  ss_addr : Nat
  deriving DecidableEq, Repr

/-- The cleared address storage. -/
def sockaddr_storage.zero : sockaddr_storage := ⟨0, 0, 0⟩

/-- The read callbacks that get registered with the poll list. -/
inductive t_fdpollfn where
  | netsend_readbin
  | socketreceiver_read (y : t_socketreceiver)
  | netreceive_connectpoll
  deriving DecidableEq, Repr

/-- What a function does to the world outside the object, in call order.
An outlet argument of `none` is a call made with a null outlet pointer. -/
inductive Event where
  | outlet_float (o : Option t_outlet) (f : t_float)
  | outlet_list (o : Option t_outlet) (argv : List t_atom)
  | outlet_anything (o : Option t_outlet) (s : String) (argv : List t_atom)
  | pd_error (msg : String)
  | error (msg : String)
  | post (msg : String)
  | postatom (argv : List t_atom)
  | post_blocked (msec : Int)
  | bug (msg : String)
  | sys_sockerror (msg : String)
  | sys_rmpollfn (fd : Int)
  | sys_closesocket (fd : Int)
  | sys_addpollfn (fd : Int) (fn : t_fdpollfn)
  | socketreceiver_free (y : t_socketreceiver)
  | send (fd : Int) (buf : List t_byte) (res : Int)
  | sendto (fd : Int) (buf : List t_byte) (dest : sockaddr_storage) (res : Int)
  deriving DecidableEq, Repr

/-- The struct `_netsend`.  `ob_outlet` is the first outlet of the object
header `x_obj`. -/
structure t_netsend where
  ob_outlet : Option t_outlet
  x_msgout : Option t_outlet
  x_connectout : Option t_outlet
  x_fromout : Option t_outlet
  x_sockfd : Int
  x_protocol : t_socktype
  x_bin : Bool
  x_receiver : Option t_socketreceiver
  x_server : sockaddr_storage
  x_timeout : t_float
  deriving DecidableEq, Repr

/-- The struct `_netreceive`: the embedded sender part, the registry of
accepted connections and the receivers created for them. -/
structure t_netreceive where
  x_ns : t_netsend
  x_nconnections : Nat
  x_sockfd : Int
  x_connections : List Int
  x_old : Bool
  x_receivers : List (Option t_socketreceiver)
  x_hostname : Option String
  deriving DecidableEq, Repr

/-! ## Memory helpers -/

/-- The C `memmove` on an array seen as a list, in elements: the `n` elements
from index `src` on are copied over those from index `dst` on. -/
def memmove {α : Type} (a : List α) (dst src n : Nat) : List α :=
  a.take dst ++ ((a.drop src).take n ++ a.drop (dst + n))

/-- The allocator call `t_resizebytes`, in elements: the block keeps its first
`newsize` elements, and what it gains beyond `oldsize` is zero filled. -/
def t_resizebytes {α : Type} (zero : α) (a : List α) (oldsize newsize : Nat) :
    List α :=
  a.take newsize ++ List.replicate (newsize - oldsize) zero

/-! ## netreceive_notify -/

/-- The body of the `if` inside the loop of `netreceive_notify`, at index `i`. -/
def netreceive_notify_remove (x : t_netreceive) (i : Nat) :
    t_netreceive × List Event :=
  let n := x.x_nconnections
  let conns := t_resizebytes (0 : Int)
    (memmove x.x_connections i (i + 1) (n - (i + 1))) n (n - 1)
  let recvs := memmove x.x_receivers i (i + 1) (n - (i + 1))
  let freed : List Event :=
    match recvs.getD i none with
    | some y => [Event.socketreceiver_free y]
    | none => []
  let recvs := t_resizebytes none (recvs.set i none) n (n - 1)
  ({ x with x_connections := conns, x_receivers := recvs,
            x_nconnections := n - 1 }, freed)

/-- The `for` loop of `netreceive_notify` from index `i` on.  The bound
`x_nconnections` is read again at every test, as in the source.  `none` means
the fuel ran out before the loop test failed. -/
def netreceive_notify_loop (fd : Int) :
    Nat → Nat → t_netreceive → Option (t_netreceive × List Event)
  | fuel, i, x =>
    if i < x.x_nconnections then
      match fuel with
      | 0 => none
      | fuel + 1 =>
        if x.x_connections.getD i 0 = fd then
          let r := netreceive_notify_remove x i
          match netreceive_notify_loop fd fuel (i + 1) r.1 with
          | some (x2, ev) => some (x2, r.2 ++ ev)
          | none => none
        else netreceive_notify_loop fd fuel (i + 1) x
    else some (x, [])

/-- The function `netreceive_notify`: drop `fd` from the registry and report
the connection count. -/
def netreceive_notify (x : t_netreceive) (fd : Int) :
    Option (t_netreceive × List Event) :=
  match netreceive_notify_loop fd x.x_nconnections 0 x with
  | some (x2, ev) =>
    some (x2, ev ++ [Event.outlet_float x2.x_ns.x_connectout x2.x_nconnections])
  | none => none

/-! ## netsend_read -/

/-- The test `a_type == A_COMMA || a_type == A_SEMI` that ends the scan. -/
def t_atom.is_terminator : t_atom → Bool
  | .A_COMMA => true
  | .A_SEMI => true
  | _ => false

/-- The test `a_type == A_DOLLAR || a_type == A_DOLLSYM`. -/
def t_atom.is_dollar : t_atom → Bool
  | .A_DOLLAR _ => true
  | .A_DOLLSYM _ => true
  | _ => false

/-- The inner `for` of `netsend_read`: advance `emsg` while it is below
`natom` and `vec[emsg]` is neither a comma nor a semicolon. -/
def netsend_read_scan (vec : List t_atom) (natom : Nat) : Nat → Nat → Option Nat
  | fuel, emsg =>
    if emsg < natom ∧ (vec.getD emsg t_atom.A_SEMI).is_terminator = false then
      match fuel with
      | 0 => none
      | fuel + 1 => netsend_read_scan vec natom fuel (emsg + 1)
    else some emsg

/-- The block `if (emsg > msg) ...` of `netsend_read`, given the atoms
`vec[msg .. emsg)` as `run`: a dollar atom anywhere reports the error and
jumps to `nodice`; otherwise the first atom decides between `outlet_list`,
`outlet_float` and `outlet_anything`. -/
def netsend_read_msg (x : t_netsend) (run : List t_atom) : List Event :=
  if run.length > 0 then
    if run.any t_atom.is_dollar then
      [Event.pd_error "netreceive: got dollar sign in message"]
    else
      match run with
      | t_atom.A_FLOAT f :: _ =>
        if run.length > 1 then [Event.outlet_list x.x_msgout run]
        else [Event.outlet_float x.x_msgout f]
      | t_atom.A_SYMBOL s :: args => [Event.outlet_anything x.x_msgout s args]
      | _ => []
  else []

/-- The outer `for (msg = 0; msg < natom;)` of `netsend_read`, from `msg` on. -/
def netsend_read_loop (x : t_netsend) (vec : List t_atom) :
    Nat → Nat → Option (List Event)
  | fuel, msg =>
    if msg < vec.length then
      match fuel with
      | 0 => none
      | fuel + 1 =>
        match netsend_read_scan vec vec.length (vec.length - msg) msg with
        | none => none
        | some emsg =>
          match netsend_read_loop x vec fuel (emsg + 1) with
          | none => none
          | some ev =>
            some (netsend_read_msg x ((vec.drop msg).take (emsg - msg)) ++ ev)
    else some []

/-- The function `netsend_read` on the atoms of the binbuf `b`. -/
def netsend_read (x : t_netsend) (b : List t_atom) : Option (List Event) :=
  netsend_read_loop x b b.length 0

/-! ## netsend_readbin -/

/-- An object whose method is running: `x->x_obj.ob_pd` tells whether the
`t_netsend *` handed to a callback is the head of a `t_netreceive`. -/
inductive t_pd where
  | netsend_class (x : t_netsend)
  | netreceive_class (x : t_netreceive)
  deriving DecidableEq, Repr

/-- The `t_netsend` part of either object (the pointer cast of the source). -/
def t_pd.ns : t_pd → t_netsend
  | .netsend_class x => x
  | .netreceive_class x => x.x_ns

/-- What one call of `recv` or `recvfrom` hands back: the return value, the
contents of `inbuf` afterwards, and the sender address `recvfrom` fills in. -/
structure t_recv where
  ret : Int
  inbuf : List t_byte
  fromaddr : sockaddr_storage
  deriving DecidableEq, Repr

/-- The helper `outlet_sockaddr`: the address string and the port as a two
element list, when the address can be printed.  `sockaddr_get_addrstr` belongs
to `s_net.c` and is passed in. -/
def outlet_sockaddr (sockaddr_get_addrstr : sockaddr_storage → Option String)
    (o : Option t_outlet) (sa : sockaddr_storage) : List Event :=
  match sockaddr_get_addrstr sa with
  | some addrstr =>
    [Event.outlet_list o [t_atom.A_SYMBOL addrstr, t_atom.A_FLOAT sa.ss_port]]
  | none => []

/-- The element `inbuf[i]` of the `unsigned char` buffer, as a number. -/
def inbuf_get (inbuf : List t_byte) (i : Nat) : t_float :=
  ((inbuf.getD i 0 % 256 : Nat) : t_float)

/-- The function `netsend_readbin`.  `r` is what the one `recv`/`recvfrom`
call returns and `getpeername` the address that call yields when it succeeds. -/
def netsend_readbin (sockaddr_get_addrstr : sockaddr_storage → Option String)
    (x : t_pd) (fd : Int) (r : t_recv) (getpeername : Option sockaddr_storage) :
    Option (t_pd × List Event) :=
  if x.ns.x_msgout = none then some (x, [Event.bug "netsend_readbin"])
  else if r.ret ≤ 0 then
    let ev := (if r.ret < 0 then [Event.sys_sockerror "recv (bin)"] else []) ++
      [Event.sys_rmpollfn fd, Event.sys_closesocket fd]
    match x with
    | .netreceive_class xr =>
      match netreceive_notify xr fd with
      | some (xr2, ev2) => some (.netreceive_class xr2, ev ++ ev2)
      | none => none
    | .netsend_class _ => some (x, ev)
  else if x.ns.x_protocol = t_socktype.SOCK_DGRAM then
    let addr := if x.ns.x_fromout ≠ none then
        outlet_sockaddr sockaddr_get_addrstr x.ns.x_fromout r.fromaddr
      else []
    let ap := (List.range r.ret.toNat).map
      (fun i => t_atom.A_FLOAT (inbuf_get r.inbuf i))
    some (x, addr ++ [Event.outlet_list x.ns.x_msgout ap])
  else
    let addr := if x.ns.x_fromout ≠ none then
        match getpeername with
        | some sa => outlet_sockaddr sockaddr_get_addrstr x.ns.x_fromout sa
        | none => []
      else []
    some (x, addr ++ (List.range r.ret.toNat).map
      (fun i => Event.outlet_float x.ns.x_msgout (inbuf_get r.inbuf i)))

/-! ## netsend_disconnect, netsend_dosend, netsend_send -/

/-- The function `netsend_disconnect`. -/
def netsend_disconnect (x : t_netsend) : t_netsend × List Event :=
  if x.x_sockfd ≥ 0 then
    ({ x with x_sockfd := -1, x_receiver := none,
              x_server := sockaddr_storage.zero },
     [Event.sys_rmpollfn x.x_sockfd, Event.sys_closesocket x.x_sockfd] ++
     (match x.x_receiver with
      | some y => [Event.socketreceiver_free y]
      | none => []) ++
     [Event.outlet_float x.ob_outlet 0])
  else (x, [])

/-- Conversion of a floating point value to a C `int` (32 bits): the fraction
is dropped (rounding toward zero).  For a value whose whole part is outside
the range of `int` C leaves the conversion undefined; the model takes what the
conversion instruction of the usual processors gives then, `INT_MIN`. -/
def float_to_int (f : t_float) : Int :=
  let whole := f.num.tdiv f.den
  if -2147483648 ≤ whole ∧ whole ≤ 2147483647 then whole else -2147483648

/-- Modelled from the spec: the helper `atom_getfloatarg` is in `m_atom.c`,
which is not among the sources.  A message element is read as its numeric
value; an element that is not numeric, or is missing, reads as zero. -/
def atom_getfloatarg (which : Nat) (argv : List t_atom) : t_float :=
  match argv[which]? with
  | some (t_atom.A_FLOAT f) => f
  | _ => 0

/-- The binary branch of `netsend_dosend`: byte `i` of the buffer is
`atom_getfloatarg(i, argc, argv)` stored into an `unsigned char`, that is, cut
to a whole number and reduced modulo 256. -/
def netsend_dosend_bytes (argv : List t_atom) : List t_byte :=
  (List.range argv.length).map
    (fun i => (float_to_int (atom_getfloatarg i argv) % 256).toNat)

/-- The textual branch of `netsend_dosend` up to `binbuf_gettext`: a new
binbuf gets the message atoms and then one semicolon atom. -/
def netsend_dosend_binbuf (argv : List t_atom) : List t_atom :=
  argv ++ [t_atom.A_SEMI]

/-- The two function statics of `netsend_dosend`. -/
structure t_warn where
  lastwarntime : t_float
  pleasewarn : t_float
  deriving DecidableEq, Repr

/-- What the system answers around one write: the clock before the call, the
return value of `send`/`sendto`, the clock after it. -/
structure t_write where
  timebefore : t_float
  res : Int
  timeafter : t_float
  deriving DecidableEq, Repr

/-- The blocked-time bookkeeping done after each write in `netsend_dosend`.
The clock readings, the constants 0.005 and 2 and the arithmetic on them are
exact rationals here, where the code computes in doubles. -/
def netsend_dosend_warn (w : t_warn) (o : t_write) : t_warn × List Event :=
  let late : Bool := decide (o.timeafter - o.timebefore > 5 / 1000)
  if late ∨ w.pleasewarn ≠ 0 then
    if o.timeafter > w.lastwarntime + 2 then
      ({ lastwarntime := o.timeafter, pleasewarn := 0 },
       [Event.post_blocked
         (float_to_int (1000 * ((o.timeafter - o.timebefore) + w.pleasewarn)))])
    else if late then
      ({ w with pleasewarn := w.pleasewarn + (o.timeafter - o.timebefore) }, [])
    else (w, [])
  else (w, [])

/-- The send loop of `netsend_dosend`.  `io k bytes` is what the system
answers to write number `k` when offered `bytes`; `bp` is `buf + sent`.  The
result is the flag `fail`, the statics and the calls made. -/
def netsend_dosend_loop (x : t_netsend) (sockfd : Int)
    (io : Nat → List t_byte → t_write) (buf : List t_byte) (length : Nat) :
    Nat → Nat → Nat → t_warn → Option (Bool × t_warn × List Event)
  | fuel, k, sent, w =>
    if sent < length then
      match fuel with
      | 0 => none
      | fuel + 1 =>
        let offered := (buf.drop sent).take (length - sent)
        let o := io k offered
        let call :=
          if x.x_protocol = t_socktype.SOCK_DGRAM then
            Event.sendto sockfd offered x.x_server o.res
          else Event.send sockfd offered o.res
        let ws := netsend_dosend_warn w o
        if o.res ≤ 0 then
          some (true, ws.1, call :: ws.2 ++ [Event.sys_sockerror "send"])
        else
          match netsend_dosend_loop x sockfd io buf length fuel (k + 1)
              (sent + o.res.toNat) ws.1 with
          | some (fail, w2, ev) => some (fail, w2, call :: ws.2 ++ ev)
          | none => none
    else some (false, w, [])

/-- The function `netsend_dosend`: build the buffer, then run the send loop.
`binbuf_gettext` belongs to `m_binbuf.c` and is passed in. -/
def netsend_dosend (binbuf_gettext : List t_atom → List t_byte)
    (io : Nat → List t_byte → t_write) (x : t_netsend) (sockfd : Int)
    (_s : String) (argv : List t_atom) (w : t_warn) :
    Option (Bool × t_warn × List Event) :=
  let buf := if x.x_bin then netsend_dosend_bytes argv
    else binbuf_gettext (netsend_dosend_binbuf argv)
  netsend_dosend_loop x sockfd io buf buf.length buf.length 0 0 w

/-- The function `netsend_send`. -/
def netsend_send (binbuf_gettext : List t_atom → List t_byte)
    (io : Nat → List t_byte → t_write) (x : t_netsend)
    (s : String) (argv : List t_atom) (w : t_warn) :
    Option (t_netsend × t_warn × List Event) :=
  if x.x_sockfd ≥ 0 then
    match netsend_dosend binbuf_gettext io x x.x_sockfd s argv w with
    | some (fail, w2, ev) =>
      if fail then
        let d := netsend_disconnect x
        some (d.1, w2, ev ++ d.2)
      else some (x, w2, ev)
    | none => none
  else some (x, w, [])

/-! ## netreceive_connectpoll, netreceive_send -/

/-- The function `netreceive_connectpoll`.  `fd` is what `accept` returns and
`y` the receiver `socketreceiver_new` hands out in textual mode. -/
def netreceive_connectpoll (x : t_netreceive) (fd : Int) (y : t_socketreceiver) :
    t_netreceive × List Event :=
  if fd < 0 then (x, [Event.post "netreceive: accept failed"])
  else
    let nconnections := x.x_nconnections + 1
    let conns := (t_resizebytes (0 : Int) x.x_connections x.x_nconnections
      nconnections).set x.x_nconnections fd
    let recvs := (t_resizebytes none x.x_receivers x.x_nconnections
      nconnections).set x.x_nconnections none
    if x.x_ns.x_bin then
      ({ x with x_connections := conns, x_receivers := recvs,
                x_nconnections := nconnections },
       [Event.sys_addpollfn fd t_fdpollfn.netsend_readbin,
        Event.outlet_float x.x_ns.x_connectout nconnections])
    else
      ({ x with x_connections := conns,
                x_receivers := recvs.set x.x_nconnections (some y),
                x_nconnections := nconnections },
       [Event.sys_addpollfn fd (t_fdpollfn.socketreceiver_read y),
        Event.outlet_float x.x_ns.x_connectout nconnections])

/-- The `for` loop of `netreceive_send` with `n` rounds left, at index `i`.
`io i` is the transport that answers the writes of round `i`. -/
def netreceive_send_loop (binbuf_gettext : List t_atom → List t_byte)
    (io : Nat → Nat → List t_byte → t_write) (x : t_netreceive) (s : String)
    (argv : List t_atom) : Nat → Nat → t_warn → Option (t_warn × List Event)
  | 0, _, w => some (w, [])
  | n + 1, i, w =>
    match netsend_dosend binbuf_gettext (io i) x.x_ns (x.x_connections.getD i 0)
        s argv w with
    | some (fail, w2, ev) =>
      match netreceive_send_loop binbuf_gettext io x s argv n (i + 1) w2 with
      | some (w3, ev2) =>
        some (w3, ev ++
          (if fail then [Event.pd_error "netreceive: send message failed"] else [])
          ++ ev2)
      | none => none
    | none => none

/-- The function `netreceive_send`.  Nothing in it writes to the object, which
is returned as it came. -/
def netreceive_send (binbuf_gettext : List t_atom → List t_byte)
    (io : Nat → Nat → List t_byte → t_write) (x : t_netreceive) (s : String)
    (argv : List t_atom) (w : t_warn) : Option (t_netreceive × t_warn × List Event) :=
  match netreceive_send_loop binbuf_gettext io x s argv x.x_nconnections 0 w with
  | some (w2, ev) => some (x, w2, ev)
  | none => none

/-! ## netreceive_closeall, netreceive_listen -/

/-- The `for` loop of `netreceive_closeall` with `n` rounds left, at index `i`:
the connection is taken off the poll list and closed, and its receiver, if
any, is freed and the slot nulled.  The result is the receiver array and the
calls made. -/
def netreceive_closeall_loop (conns : List Int) :
    Nat → Nat → List (Option t_socketreceiver) →
      List (Option t_socketreceiver) × List Event
  | 0, _, recvs => (recvs, [])
  | n + 1, i, recvs =>
    let ev := [Event.sys_rmpollfn (conns.getD i 0),
      Event.sys_closesocket (conns.getD i 0)]
    match recvs.getD i none with
    | some y =>
      let r := netreceive_closeall_loop conns n (i + 1) (recvs.set i none)
      (r.1, ev ++ [Event.socketreceiver_free y] ++ r.2)
    | none =>
      let r := netreceive_closeall_loop conns n (i + 1) recvs
      (r.1, ev ++ r.2)

/-- The function `netreceive_closeall`. -/
def netreceive_closeall (x : t_netreceive) : t_netreceive × List Event :=
  let l := netreceive_closeall_loop x.x_connections x.x_nconnections 0 x.x_receivers
  let conns := t_resizebytes (0 : Int) x.x_connections x.x_nconnections 0
  let recvs := t_resizebytes none l.1 x.x_nconnections 0
  let ev_sock := if x.x_ns.x_sockfd ≥ 0 then
      [Event.sys_rmpollfn x.x_ns.x_sockfd, Event.sys_closesocket x.x_ns.x_sockfd]
    else []
  let ev_recv := match x.x_ns.x_receiver with
    | some y => [Event.socketreceiver_free y]
    | none => []
  let ev_out := if x.x_ns.x_connectout ≠ none then
      [Event.outlet_float x.x_ns.x_connectout ((0 : Nat) : t_float)]
    else []
  ({ x with
      x_ns := { x.x_ns with x_sockfd := -1, x_receiver := none },
      x_nconnections := 0, x_connections := conns, x_receivers := recvs },
   l.2 ++ ev_sock ++ ev_recv ++ ev_out)

/-- One entry of the list `addrinfo_get_list` returns: the fields the code
reads. -/
structure addrinfo where
  ai_family : Int
  ai_socktype : Int
  ai_protocol : Int
  ai_addr : sockaddr_storage
  deriving DecidableEq, Repr

/-- The number the system headers give a socket type (the Linux values). -/
def t_socktype.code : t_socktype → Int
  | .SOCK_STREAM => 1
  | .SOCK_DGRAM => 2

/-- The address family constant `AF_INET` (the Linux value). -/
def AF_INET : Int := 2

/-- The return value of `socket`: the new descriptor, or -1 when it fails. -/
def socket_result : Option Nat → Int
  | some fd => (fd : Int)
  | none => -1

/-- A candidate address of `netreceive_listen` together with what the system
answers when it is tried: the result of `socket`, of the two
`socket_set_boolopt` calls and of `bind`. -/
structure t_bind_try where
  ai : addrinfo
  socket : Option Nat
  reuseaddr : Int
  boolopt : Int
  bind : Int
  deriving DecidableEq, Repr

/-- What the system answers during one `netreceive_listen`: the status and
list of `addrinfo_get_list`, whether the bound address is a multicast group,
the result of joining it, the result of `listen`, and the receiver
`socketreceiver_new` hands out. -/
structure t_listen_env where
  status : Int
  ailist : List t_bind_try
  is_multicast : Bool
  join : Int
  listen : Int
  y : t_socketreceiver
  deriving DecidableEq, Repr

/-- The socket options `netreceive_listen` sets on a new socket; a call that
fails is only reported. -/
def netreceive_listen_sockopt (c : t_bind_try) : List Event :=
  (if c.reuseaddr < 0 then
    [Event.post "netreceive: setsockopt (SO_REUSEADDR) failed"] else []) ++
  (if c.ai.ai_protocol = t_socktype.SOCK_STREAM.code then
    (if c.boolopt < 0 then
      [Event.post "netreceive: setsockopt (TCP_NODELAY) failed"] else [])
  else if c.ai.ai_protocol = t_socktype.SOCK_DGRAM.code ∧ c.ai.ai_family = AF_INET
    then
    (if c.boolopt < 0 then
      [Event.post "netreceive: setsockopt (SO_BROADCAST) failed"] else [])
  else [])

/-- The candidate loop of `netreceive_listen`.  The first argument is
`x_sockfd` on entry; the result is `x_sockfd` and `server` on exit and the
calls made. -/
def netreceive_listen_bind : Int → List t_bind_try → Int × sockaddr_storage × List Event
  | sockfd, [] => (sockfd, sockaddr_storage.zero, [])
  | _, c :: rest =>
    if socket_result c.socket < 0 then
      netreceive_listen_bind (socket_result c.socket) rest
    else if c.bind < 0 then
      let r := netreceive_listen_bind (-1) rest
      (r.1, r.2.1, netreceive_listen_sockopt c
        ++ [Event.sys_closesocket (socket_result c.socket)] ++ r.2.2)
    else (socket_result c.socket, c.ai.ai_addr, netreceive_listen_sockopt c)

/-- The function `netreceive_listen`. -/
def netreceive_listen (x : t_netreceive) (fportno : t_float) (env : t_listen_env) :
    t_netreceive × List Event :=
  let c := netreceive_closeall x
  if float_to_int fportno ≤ 0 then c
  else if env.status ≠ 0 then
    (c.1, c.2 ++ [Event.pd_error "netreceive: bad host or port?"])
  else
    let b := netreceive_listen_bind c.1.x_ns.x_sockfd env.ailist
    let x1 : t_netreceive := { c.1 with x_ns := { c.1.x_ns with x_sockfd := b.1 } }
    if b.1 = -1 then
      (x1, c.2 ++ b.2.2 ++ [Event.pd_error "netreceive: listen failed"])
    else if x1.x_ns.x_protocol = t_socktype.SOCK_DGRAM then
      let ev_join :=
        if env.is_multicast then
          (if env.join < 0 then
            [Event.pd_error "netreceive: joining multicast group failed"]
          else [Event.post "netreceive: joined multicast group"])
        else []
      if x1.x_ns.x_bin then
        (x1, c.2 ++ b.2.2 ++ ev_join ++
          [Event.sys_addpollfn b.1 t_fdpollfn.netsend_readbin])
      else
        ({ x1 with
            x_ns := { x1.x_ns with x_connectout := none, x_receiver := some env.y } },
         c.2 ++ b.2.2 ++ ev_join ++
          [Event.sys_addpollfn b.1 (t_fdpollfn.socketreceiver_read env.y)])
    else
      if env.listen < 0 then
        ({ x1 with x_ns := { x1.x_ns with x_sockfd := -1 } },
         c.2 ++ b.2.2 ++ [Event.sys_sockerror "listen", Event.sys_closesocket b.1])
      else
        (x1, c.2 ++ b.2.2 ++
          [Event.sys_addpollfn b.1 t_fdpollfn.netreceive_connectpoll])

/-- A run of accept callbacks: each entry is what `accept` returns and the
receiver handed out for it. -/
def netreceive_accepts (x : t_netreceive) :
    List (Int × t_socketreceiver) → t_netreceive × List Event
  | [] => (x, [])
  | a :: rest =>
    let r := netreceive_connectpoll x a.1 a.2
    let r2 := netreceive_accepts r.1 rest
    (r2.1, r.2 ++ r2.2)

/-! ## netsend_connect -/

/-- A candidate address of `netsend_connect` together with what the system
answers when it is tried: the result of `socket`, of `socket_set_boolopt`, of
the multicast test on the address, of resolving the source port, of the
`bind` calls on the source candidates in order, and of `socket_connect`. -/
structure t_connect_try where
  ai : addrinfo
  socket : Option Nat
  boolopt : Int
  is_multicast : Bool
  sstatus : Int
  sbind : List Int
  connect : Int
  deriving DecidableEq, Repr

/-- What the system answers during one `netsend_connect`: the status and list
of `addrinfo_get_list`, the receiver `socketreceiver_new` hands out, and the
value the local `sockfd`, which is declared without initial value, holds
before the candidate loop assigns it. -/
structure t_connect_env where
  status : Int
  ailist : List t_connect_try
  sockfd : Int
  y : t_socketreceiver
  deriving DecidableEq, Repr

/-- How the candidate loop of `netsend_connect` ends: by a `return` inside
it, or by leaving it (break or end of list) with the local `sockfd` and, after
a break, the address copied to `x_server`. -/
inductive t_connect_loop where
  | returned (ev : List Event)
  | left (sockfd : Int) (server : Option sockaddr_storage) (ev : List Event)
  deriving DecidableEq, Repr

/-- The part of one round of the candidate loop after the socket exists:
socket option, optional source port, stream connect.  The flag is true when
the round ends with the `break` that keeps this candidate, and false when it
ends with a `return`. -/
def netsend_connect_round (x : t_netsend) (portno sportno : Int) (multicast : Bool)
    (c : t_connect_try) : List Event × Bool :=
  let sockfd := socket_result c.socket
  let ev_opt :=
    if x.x_protocol = t_socktype.SOCK_STREAM then
      (if c.boolopt < 0 then [Event.post "netsend: setsockopt (TCP_NODELAY) failed"]
        else [])
    else
      (if c.boolopt < 0 then [Event.post "netsend: setsockopt (SO_BROADCAST) failed"]
        else [])
  let multicast := if x.x_protocol = t_socktype.SOCK_STREAM then multicast
    else c.is_multicast
  let ev_port :=
    if sportno ≠ 0 then
      [Event.post ("connecting to dest port " ++ toString portno ++ ", src port "
        ++ toString sportno)]
    else if multicast then
      [Event.post ("connecting to port " ++ toString portno ++ ", multicast")]
    else [Event.post ("connecting to port " ++ toString portno)]
  if sportno ≠ 0 ∧ c.sstatus ≠ 0 then
    (ev_opt ++ ev_port ++ [Event.pd_error "netsend: could not set src port"], false)
  else if sportno ≠ 0 ∧ c.sbind.all (fun r => decide (r < 0)) then
    (ev_opt ++ ev_port ++
      [Event.sys_sockerror "setting source port", Event.sys_closesocket sockfd], false)
  else if x.x_protocol = t_socktype.SOCK_STREAM ∧ c.connect < 0 then
    (ev_opt ++ ev_port ++
      [Event.sys_sockerror "connecting stream socket", Event.sys_closesocket sockfd],
     false)
  else (ev_opt ++ ev_port, true)

/-- The candidate loop of `netsend_connect`.  The first argument is the local
`sockfd` on entry to the round. -/
def netsend_connect_try (x : t_netsend) (portno sportno : Int) :
    Int → Bool → List t_connect_try → t_connect_loop
  | sockfd, _, [] => t_connect_loop.left sockfd none []
  | _, multicast, c :: rest =>
    if socket_result c.socket < 0 then
      netsend_connect_try x portno sportno (socket_result c.socket) multicast rest
    else
      let r := netsend_connect_round x portno sportno multicast c
      if r.2 then t_connect_loop.left (socket_result c.socket) (some c.ai.ai_addr) r.1
      else t_connect_loop.returned r.1

/-- The end of `netsend_connect`, after the candidate loop was left with the
local `sockfd`. -/
def netsend_connect_finish (x : t_netsend) (sockfd : Int) (y : t_socketreceiver) :
    t_netsend × List Event :=
  if sockfd = -1 then (x, [Event.pd_error "netsend: connect failed"])
  else if x.x_msgout ≠ none then
    if x.x_bin then
      ({ x with x_sockfd := sockfd },
       [Event.sys_addpollfn sockfd t_fdpollfn.netsend_readbin,
        Event.outlet_float x.ob_outlet 1])
    else
      ({ x with x_sockfd := sockfd, x_receiver := some y },
       [Event.sys_addpollfn sockfd (t_fdpollfn.socketreceiver_read y),
        Event.outlet_float x.ob_outlet 1])
  else ({ x with x_sockfd := sockfd }, [Event.outlet_float x.ob_outlet 1])

/-- The function `netsend_connect` on the arguments `argv` of the `connect`
message. -/
def netsend_connect (x : t_netsend) (argv : List t_atom) (env : t_connect_env) :
    t_netsend × List Event :=
  match argv with
  | t_atom.A_SYMBOL _ :: t_atom.A_FLOAT fport :: rest =>
    let bad_third : Bool := match rest with
      | [] => false
      | t_atom.A_FLOAT _ :: _ => false
      | _ => true
    if bad_third then (x, [Event.error "netsend: bad connect arguments"])
    else
      let portno := float_to_int fport
      let sportno := match rest with
        | t_atom.A_FLOAT f :: _ => float_to_int f
        | _ => 0
      if x.x_sockfd ≥ 0 then (x, [Event.error "netsend: already connected"])
      else if env.status ≠ 0 then
        (x, [Event.pd_error "netsend: bad host or port?"])
      else
        match netsend_connect_try x portno sportno env.sockfd false env.ailist with
        | t_connect_loop.returned ev => (x, ev)
        | t_connect_loop.left sockfd server ev =>
          let x1 : t_netsend := match server with
            | some sa => { x with x_server := sa }
            | none => x
          let r := netsend_connect_finish x1 sockfd env.y
          (r.1, ev ++ r.2)
  | _ => (x, [Event.error "netsend: bad connect arguments"])

/-! ## netsend_new, netreceive_new -/

/-- The test `*s_name == '-'` on a symbol name. -/
def is_dash (s : String) : Bool := decide (s.data.head? = some '-')

/-- The loop condition of the flag loops: a symbol whose name starts with a
dash. -/
def t_atom.is_flag : t_atom → Bool
  | .A_SYMBOL s => is_dash s
  | _ => false

/-- Modelled from the spec: the helper `atom_getsymbolarg` is in `m_atom.c`,
which is not among the sources.  A symbolic argument is read as its name; an
argument that is not symbolic, or is missing, reads as the empty name. -/
def atom_getsymbolarg (which : Nat) (argv : List t_atom) : String :=
  match argv[which]? with
  | some (t_atom.A_SYMBOL s) => s
  | _ => ""

/-- The flag loop of `netsend_new`: `x_bin`, `x_protocol`, the arguments left
and the calls made. -/
def netsend_new_flags :
    Bool → t_socktype → List t_atom → Bool × t_socktype × List t_atom × List Event
  | bin, proto, t_atom.A_SYMBOL s :: rest =>
    if is_dash s then
      if s = "-b" then netsend_new_flags true proto rest
      else if s = "-u" then netsend_new_flags bin t_socktype.SOCK_DGRAM rest
      else
        let r := netsend_new_flags bin proto rest
        (r.1, r.2.1, r.2.2.1,
          [Event.pd_error "netsend: unknown flag ...",
           Event.postatom (t_atom.A_SYMBOL s :: rest)] ++ r.2.2.2)
    else (bin, proto, t_atom.A_SYMBOL s :: rest, [])
  | bin, proto, argv => (bin, proto, argv, [])

/-- The function `netsend_new` on the creation arguments. -/
def netsend_new (argv : List t_atom) : t_netsend × List Event :=
  let r : Bool × t_socktype × List t_atom × List Event :=
    match argv with
    | t_atom.A_FLOAT f :: _ =>
      (false, if f ≠ 0 then t_socktype.SOCK_DGRAM else t_socktype.SOCK_STREAM, [], [])
    | _ => netsend_new_flags false t_socktype.SOCK_STREAM argv
  let ev_extra :=
    if r.2.2.1 ≠ [] then
      [Event.pd_error "netsend: extra arguments ignored:", Event.postatom r.2.2.1]
    else []
  ({ ob_outlet := some t_outlet.ob_outlet, x_msgout := some t_outlet.x_msgout,
     x_connectout := none, x_fromout := none, x_sockfd := -1,
     x_protocol := r.2.1, x_bin := r.1, x_receiver := none,
     x_server := sockaddr_storage.zero, x_timeout := 10 },
   r.2.2.2 ++ ev_extra)

/-- The locals and flags `netreceive_new` has set when its first `if` is
over, the arguments left, and the calls made. -/
structure t_newargs where
  portno : Int
  protocol : t_socktype
  old : Bool
  bin : Bool
  from_flag : Bool
  argv : List t_atom
  ev : List Event
  deriving DecidableEq, Repr

/-- The flag loop of `netreceive_new`. -/
def netreceive_new_flags : t_newargs → List t_atom → t_newargs
  | a, t_atom.A_SYMBOL s :: rest =>
    if is_dash s then
      if s = "-b" then netreceive_new_flags { a with bin := true } rest
      else if s = "-u" then
        netreceive_new_flags { a with protocol := t_socktype.SOCK_DGRAM } rest
      else if s = "-f" then netreceive_new_flags { a with from_flag := true } rest
      else
        netreceive_new_flags
          { a with ev := a.ev ++
              [Event.pd_error "netreceive: unknown flag ...",
               Event.postatom (t_atom.A_SYMBOL s :: rest)] } rest
    else { a with argv := t_atom.A_SYMBOL s :: rest }
  | a, argv => { a with argv := argv }

/-- The first `if` of `netreceive_new`: the legacy form that starts with a
number, or else the flag loop. -/
def netreceive_new_parse (argv : List t_atom) : t_newargs :=
  match argv with
  | t_atom.A_FLOAT _ :: _ =>
    { portno := float_to_int (atom_getfloatarg 0 argv),
      protocol := if atom_getfloatarg 1 argv ≠ 0 then t_socktype.SOCK_DGRAM
        else t_socktype.SOCK_STREAM,
      old := decide (atom_getsymbolarg 2 argv = "old"),
      bin := false, from_flag := false, argv := [], ev := [] }
  | _ =>
    netreceive_new_flags
      { portno := 0, protocol := t_socktype.SOCK_STREAM, old := false, bin := false,
        from_flag := false, argv := [], ev := [] } argv

/-- The rest of `netreceive_new`: port and host name arguments, the outlets,
and the first `netreceive_listen` when a port is given. -/
def netreceive_new_finish (a : t_newargs) (env : t_listen_env) :
    t_netreceive × List Event :=
  let portno := match a.argv with
    | t_atom.A_FLOAT f :: _ => float_to_int f
    | _ => a.portno
  let argv1 := match a.argv with
    | t_atom.A_FLOAT _ :: rest => rest
    | _ => a.argv
  let hostname : Option String := match argv1 with
    | t_atom.A_SYMBOL s :: _ =>
      if a.protocol = t_socktype.SOCK_DGRAM then some s else none
    | _ => none
  let ev_host := match argv1 with
    | t_atom.A_SYMBOL _ :: _ =>
      if a.protocol = t_socktype.SOCK_DGRAM then []
      else [Event.pd_error "netreceive: hostname argument ignored:",
            Event.postatom argv1]
    | _ => []
  let argv2 := match argv1 with
    | t_atom.A_SYMBOL _ :: rest => rest
    | _ => argv1
  let ev_extra :=
    if argv2 ≠ [] then
      [Event.pd_error "netreceive: extra arguments ignored:", Event.postatom argv2]
    else []
  let msgout := if a.old then none else some t_outlet.x_msgout
  let connectout := if a.protocol = t_socktype.SOCK_STREAM
    then some t_outlet.x_connectout else none
  let fromout := if a.from_flag then some t_outlet.x_fromout else none
  let x : t_netreceive :=
    { x_ns :=
        { ob_outlet := (msgout.orElse (fun _ => connectout)).orElse (fun _ => fromout),
          x_msgout := msgout, x_connectout := connectout, x_fromout := fromout,
          x_sockfd := -1, x_protocol := a.protocol, x_bin := a.bin,
          x_receiver := none, x_server := sockaddr_storage.zero, x_timeout := 0 },
      x_nconnections := 0, x_sockfd := 0, x_connections := [], x_old := a.old,
      x_receivers := [], x_hostname := hostname }
  if portno > 0 then
    let r := netreceive_listen x (portno : t_float) env
    (r.1, a.ev ++ ev_host ++ ev_extra ++ r.2)
  else (x, a.ev ++ ev_host ++ ev_extra)

/-- The function `netreceive_new` on the creation arguments; `env` is what
the system answers to the `netreceive_listen` it may end with. -/
def netreceive_new (argv : List t_atom) (env : t_listen_env) :
    t_netreceive × List Event :=
  netreceive_new_finish (netreceive_new_parse argv) env

/-! ## Reading a trace -/

/-- Whether an event is an outlet call on the outlet `o`. -/
def Event.on (o : t_outlet) : Event → Bool
  | .outlet_float p _ => decide (p = some o)
  | .outlet_list p _ => decide (p = some o)
  | .outlet_anything p _ _ => decide (p = some o)
  | _ => false

/-- Whether an event is an outlet call at all. -/
def Event.is_output : Event → Bool
  | .outlet_float _ _ => true
  | .outlet_list _ _ => true
  | .outlet_anything _ _ _ => true
  | _ => false

/-- The message an outlet call through the pointer `o` carries, as atoms: a
float is the one element message, a selector comes first. -/
def Event.message_on (o : Option t_outlet) : Event → Option (List t_atom)
  | .outlet_float p f => if p = o then some [t_atom.A_FLOAT f] else none
  | .outlet_list p argv => if p = o then some argv else none
  | .outlet_anything p s argv =>
    if p = o then some (t_atom.A_SYMBOL s :: argv) else none
  | _ => none

/-- The write calls of a trace in call order: the bytes offered and the value
the call returned. -/
def writes : List Event → List (List t_byte × Int)
  | [] => []
  | .send _ buf res :: ev => (buf, res) :: writes ev
  | .sendto _ buf _ res :: ev => (buf, res) :: writes ev
  | _ :: ev => writes ev

/-- Whether every write of `ws` is offered exactly the bytes still unsent,
`unsent` being those before the first write, and nothing is left at the end. -/
def offers_unsent : List t_byte → List (List t_byte × Int) → Bool
  | unsent, [] => decide (unsent = [])
  | unsent, (buf, res) :: ws =>
    decide (buf = unsent) && offers_unsent (unsent.drop res.toNat) ws

/-- The chunks the transport accepted: of each write, the first `res` bytes
of what it was offered. -/
def accepted (ws : List (List t_byte × Int)) : List (List t_byte) :=
  ws.map (fun c => c.1.take c.2.toNat)

/-- The runs of a buffer that the textual rule turns into messages: the
maximal runs between terminators that are not empty and hold no placeholder. -/
def message_runs (b : List t_atom) : List (List t_atom) :=
  (b.splitOnP t_atom.is_terminator).filter
    (fun run => !run.isEmpty && !run.any t_atom.is_dollar)

/-- The output the textual rule gives a run: a single number is a scalar, a
longer run that starts with a number is a list of the whole run, a run that
starts with a symbol is that selector with the rest as arguments. -/
def run_output (o : Option t_outlet) : List t_atom → Option Event
  | [t_atom.A_FLOAT f] => some (Event.outlet_float o f)
  | t_atom.A_FLOAT f :: a :: run =>
    some (Event.outlet_list o (t_atom.A_FLOAT f :: a :: run))
  | t_atom.A_SYMBOL s :: args => some (Event.outlet_anything o s args)
  | _ => none

/-- The write calls of a trace with the descriptor written to and the bytes
offered. -/
def writes_to : List Event → List (Int × List t_byte)
  | [] => []
  | .send fd buf _ :: ev => (fd, buf) :: writes_to ev
  | .sendto fd buf _ _ :: ev => (fd, buf) :: writes_to ev
  | _ :: ev => writes_to ev

/-- The descriptors to which a transmission of `buf` is begun, in trace order:
those of the writes that are offered the whole of `buf`. -/
def transmissions (buf : List t_byte) (ev : List Event) : List Int :=
  ((writes_to ev).filter (fun c => decide (c.2 = buf))).map Prod.fst

/-- The buffer `netsend_dosend` builds for a message. -/
def serialized (binbuf_gettext : List t_atom → List t_byte) (x : t_netsend)
    (argv : List t_atom) : List t_byte :=
  if x.x_bin then netsend_dosend_bytes argv
  else binbuf_gettext (netsend_dosend_binbuf argv)

/-- The descriptors a receiver holds: the listening or bound socket, if there
is one, and the accepted connections. -/
def registered (x : t_netreceive) : List Int :=
  (if x.x_ns.x_sockfd ≥ 0 then [x.x_ns.x_sockfd] else []) ++ x.x_connections

/-- Modelled from the spec: the poll list is kept by `s_inter.c`, which is not
among the sources; its contract is `register(fd, onReadable)` and
`unregister(fd)`.  Starting from the descriptors `reg`, a trace leaves
registered what it added and did not remove afterwards. -/
def reactor : List Int → List Event → List Int
  | reg, [] => reg
  | reg, .sys_addpollfn fd _ :: ev => reactor (reg ++ [fd]) ev
  | reg, .sys_rmpollfn fd :: ev => reactor (reg.filter (fun r => decide (r ≠ fd))) ev
  | reg, _ :: ev => reactor reg ev

/-- Whether an event adds a descriptor to the poll list or removes one. -/
def Event.is_poll : Event → Bool
  | .sys_addpollfn _ _ => true
  | .sys_rmpollfn _ => true
  | _ => false

/-- Whether an event adds a descriptor to the poll list. -/
def Event.is_addpoll : Event → Bool
  | .sys_addpollfn _ _ => true
  | _ => false

/-! ## Sequences of writes -/

/-- The time a write took by the clock readings around it. -/
def t_write.duration (o : t_write) : t_float := o.timeafter - o.timebefore

/-- Whether a write took more than 5 ms. -/
def t_write.late (o : t_write) : Bool := decide (o.duration > 5 / 1000)

/-- The statics after the bookkeeping of a sequence of writes, in the order
in which `netsend_dosend` makes them. -/
def warn_state (w : t_warn) : List t_write → t_warn
  | [] => w
  | o :: os => warn_state (netsend_dosend_warn w o).1 os

/-- The durations, in msec, that the diagnostics of a trace report, in trace
order. -/
def blocked : List Event → List Int
  | [] => []
  | .post_blocked msec :: ev => msec :: blocked ev
  | _ :: ev => blocked ev

/-- The diagnostics the bookkeeping of a sequence of writes posts, in order:
for each the clock reading after the write that posts it and the duration it
reports. -/
def warn_posts (w : t_warn) : List t_write → List (t_float × Int)
  | [] => []
  | o :: os =>
    (blocked (netsend_dosend_warn w o).2).map (fun msec => (o.timeafter, msec))
      ++ warn_posts (netsend_dosend_warn w o).1 os

/-- Whether an event is a write call. -/
def Event.is_write : Event → Bool
  | .send _ _ _ => true
  | .sendto _ _ _ _ => true
  | _ => false

/-- The diagnostics of a trace grouped by the write call they follow: one
entry per write, in call order, with the durations reported between that
write and the next. -/
def blocked_rounds : List Event → List (List Int)
  | [] => []
  | e :: ev =>
    if e.is_write then
      blocked (ev.takeWhile (fun e2 => !e2.is_write)) :: blocked_rounds ev
    else blocked_rounds ev

/-- The durations the bookkeeping reports after each write of a sequence: one
entry per write, in order. -/
def warn_rounds (w : t_warn) : List t_write → List (List Int)
  | [] => []
  | o :: os =>
    blocked (netsend_dosend_warn w o).2 :: warn_rounds (netsend_dosend_warn w o).1 os

/-- The answers the transport `io` gave to the writes of a trace, in call
order, the first write of the trace being write number `k`: each write is
answered on the bytes the trace shows it was offered. -/
def answers (io : Nat → List t_byte → t_write) (k : Nat) (ev : List Event) :
    List t_write :=
  ((writes ev).enumFrom k).map (fun c => io c.1 c.2.1)

/-- Three writes: a slow one that is reported, a slow one inside the two
second window, and a fast one after the window. -/
def writes_sample : List t_write :=
  [{ timebefore := 10, res := 1, timeafter := 11 },
   { timebefore := 11, res := 1, timeafter := 12 },
   { timebefore := 14, res := 1, timeafter := 14 }]

/-! ## Sample objects -/

/-- A connected textual stream sender on descriptor 5 with receiver 7. -/
def sender_sample : t_netsend :=
  { ob_outlet := some t_outlet.ob_outlet, x_msgout := some t_outlet.x_msgout,
    x_connectout := none, x_fromout := none, x_sockfd := 5,
    x_protocol := t_socktype.SOCK_STREAM, x_bin := false, x_receiver := some 7,
    x_server := ⟨2, 3000, 2130706433⟩, x_timeout := 10 }

/-- The embedded sender part of a listening textual stream receiver. -/
def listener_sample : t_netsend :=
  { ob_outlet := some t_outlet.x_msgout, x_msgout := some t_outlet.x_msgout,
    x_connectout := some t_outlet.x_connectout, x_fromout := none, x_sockfd := 4,
    x_protocol := t_socktype.SOCK_STREAM, x_bin := false, x_receiver := none,
    x_server := sockaddr_storage.zero, x_timeout := 0 }

/-- A textual stream receiver that accepted descriptors 10, 11 and 12, with
the receivers 1, 2 and 3 created for them in that order. -/
def registry_sample : t_netreceive :=
  { x_ns := listener_sample, x_nconnections := 3, x_sockfd := 0,
    x_connections := [10, 11, 12], x_old := false,
    x_receivers := [some 1, some 2, some 3], x_hostname := none }

/-- A connected binary datagram sender on descriptor 4. -/
def datagram_sample : t_netsend :=
  { ob_outlet := some t_outlet.ob_outlet, x_msgout := some t_outlet.x_msgout,
    x_connectout := none, x_fromout := none, x_sockfd := 4,
    x_protocol := t_socktype.SOCK_DGRAM, x_bin := true, x_receiver := none,
    x_server := ⟨2, 3000, 2130706433⟩, x_timeout := 10 }

/-- A binary stream receiver that accepted descriptors 10 and 11. -/
def binary_registry_sample : t_netreceive :=
  { x_ns := { listener_sample with x_bin := true }, x_nconnections := 2,
    x_sockfd := 0, x_connections := [10, 11], x_old := false,
    x_receivers := [none, none], x_hostname := none }

/-- A datagram that carries the two bytes 1 and 2. -/
def recv_sample : t_recv :=
  { ret := 2, inbuf := [1, 2], fromaddr := ⟨2, 3000, 2130706433⟩ }

/-- A transport that takes one byte per write and never blocks. -/
def one_byte_io : Nat → List t_byte → t_write :=
  fun _ _ => { timebefore := 0, res := 1, timeafter := 0 }

/-- A transport that takes one byte per write and answers write number `k`
with the clock readings of entry `k` of `writes_sample`. -/
def slow_io : Nat → List t_byte → t_write :=
  fun k _ => writes_sample.getD k { timebefore := 0, res := 1, timeafter := 0 }

/-- A transport whose first write takes one byte and whose second fails. -/
def failing_io : Nat → List t_byte → t_write :=
  fun k _ => { timebefore := 0, res := if k = 0 then 1 else -1, timeafter := 0 }

/-- A sender as `netsend_new` leaves it: no socket, no receiver, no address. -/
def idle_sender_sample : t_netsend :=
  { ob_outlet := some t_outlet.ob_outlet, x_msgout := some t_outlet.x_msgout,
    x_connectout := none, x_fromout := none, x_sockfd := -1,
    x_protocol := t_socktype.SOCK_STREAM, x_bin := false, x_receiver := none,
    x_server := sockaddr_storage.zero, x_timeout := 10 }

/-- A stand-in for `binbuf_gettext`: whatever the atoms, the text `1;`
followed by a newline. -/
def gettext_sample : List t_atom → List t_byte :=
  fun _ => [49, 59, 10]

/-- A connected binary stream sender on descriptor 5. -/
def binary_sender_sample : t_netsend :=
  { ob_outlet := some t_outlet.ob_outlet, x_msgout := some t_outlet.x_msgout,
    x_connectout := none, x_fromout := none, x_sockfd := 5,
    x_protocol := t_socktype.SOCK_STREAM, x_bin := true, x_receiver := none,
    x_server := ⟨2, 3000, 2130706433⟩, x_timeout := 10 }

/-- A read that returns 0: the peer closed, or an empty datagram came in. -/
def recv_zero_sample : t_recv :=
  { ret := 0, inbuf := [], fromaddr := sockaddr_storage.zero }

/-- A binary datagram receiver bound on descriptor 4, as `netreceive_new` and
`netreceive_listen` leave it: no connection-status outlet, empty registry. -/
def datagram_receiver_sample : t_netreceive :=
  { x_ns :=
      { ob_outlet := some t_outlet.x_msgout, x_msgout := some t_outlet.x_msgout,
        x_connectout := none, x_fromout := none, x_sockfd := 4,
        x_protocol := t_socktype.SOCK_DGRAM, x_bin := true, x_receiver := none,
        x_server := sockaddr_storage.zero, x_timeout := 0 },
    x_nconnections := 0, x_sockfd := 0, x_connections := [], x_old := false,
    x_receivers := [], x_hostname := none }

/-- Transports for a broadcast: the first connection refuses the write, the
others take everything they are offered. -/
def first_fails_io : Nat → Nat → List t_byte → t_write :=
  fun i _ bytes =>
    { timebefore := 0, res := if i = 0 then -1 else bytes.length, timeafter := 0 }

/-- An IPv4 stream candidate for port 3000. -/
def addrinfo_sample : addrinfo :=
  { ai_family := 2, ai_socktype := 1, ai_protocol := 6,
    ai_addr := ⟨2, 3000, 0⟩ }

/-- A listen in which the one candidate gets descriptor 7 and binds, and
`listen` succeeds. -/
def listen_ok_sample : t_listen_env :=
  { status := 0,
    ailist := [{ ai := addrinfo_sample, socket := some 7, reuseaddr := 0,
                 boolopt := 0, bind := 0 }],
    is_multicast := false, join := 0, listen := 0, y := 9 }

/-- The same, but `listen` fails after the bind has succeeded (as it does
when another socket already listens on the port). -/
def listen_refused_sample : t_listen_env :=
  { listen_ok_sample with listen := -1 }

/-- A listen for datagrams in which the one candidate gets descriptor 4 and
binds. -/
def listen_datagram_sample : t_listen_env :=
  { status := 0,
    ailist := [{ ai := { ai_family := 2, ai_socktype := 2, ai_protocol := 17,
                         ai_addr := ⟨2, 3000, 0⟩ },
                 socket := some 4, reuseaddr := 0, boolopt := 0, bind := 0 }],
    is_multicast := false, join := 0, listen := 0, y := 9 }

/-- A textual stream receiver as `netreceive_new` leaves it when it is given
no port: no socket, an empty registry. -/
def idle_receiver_sample : t_netreceive :=
  { x_ns :=
      { ob_outlet := some t_outlet.x_msgout, x_msgout := some t_outlet.x_msgout,
        x_connectout := some t_outlet.x_connectout, x_fromout := none,
        x_sockfd := -1, x_protocol := t_socktype.SOCK_STREAM, x_bin := false,
        x_receiver := none, x_server := sockaddr_storage.zero, x_timeout := 0 },
    x_nconnections := 0, x_sockfd := 0, x_connections := [], x_old := false,
    x_receivers := [], x_hostname := none }

/-- The arguments of `connect localhost 3000`. -/
def connect_args_sample : List t_atom :=
  [t_atom.A_SYMBOL "localhost", t_atom.A_FLOAT 3000]

/-- A resolution with two candidates: the connect to the first is refused
(descriptor 7), the connect to the second would succeed (descriptor 8). -/
def connect_second_sample : t_connect_env :=
  { status := 0,
    ailist :=
      [{ ai := { ai_family := 10, ai_socktype := 1, ai_protocol := 6,
                 ai_addr := ⟨10, 3000, 1⟩ },
         socket := some 7, boolopt := 0, is_multicast := false, sstatus := 0,
         sbind := [], connect := -1 },
       { ai := { ai_family := 2, ai_socktype := 1, ai_protocol := 6,
                 ai_addr := ⟨2, 3000, 2130706433⟩ },
         socket := some 8, boolopt := 0, is_multicast := false, sstatus := 0,
         sbind := [], connect := 0 }],
    sockfd := -1, y := 9 }

/-- A resolution with two candidates that both fail: no socket can be
created for the first, and the connect to the second (descriptor 7) is
refused. -/
def connect_failing_sample : t_connect_env :=
  { status := 0,
    ailist :=
      [{ ai := { ai_family := 10, ai_socktype := 1, ai_protocol := 6,
                 ai_addr := ⟨10, 3000, 1⟩ },
         socket := none, boolopt := 0, is_multicast := false, sstatus := 0,
         sbind := [], connect := 0 },
       { ai := { ai_family := 2, ai_socktype := 1, ai_protocol := 6,
                 ai_addr := ⟨2, 3000, 2130706433⟩ },
         socket := some 7, boolopt := 0, is_multicast := false, sstatus := 0,
         sbind := [], connect := -1 }],
    sockfd := 0, y := 9 }

end XNet

/-! # The undo queue of `g_undo.c`

The queue is a doubly linked chain of `t_undo_action` cells in memory.  Memory
is a table of cells indexed by address; a pointer is an `Option Nat` (`none`
is `NULL`), and a function that reads or writes through `NULL` or through the
address of a released cell has no result (`none`).  The handlers of the single
action types, the editor and the GUI are outside `g_undo.c`: calls to them are
recorded in a trace, and they are taken to leave the queue alone (the flag
`we_are_undoing` is there to keep them from adding actions while an action is
undone or redone). -/

namespace GUndo

/-- Modelled from the spec: the header `g_undo.h` with the declaration of
`t_undo_action` is not among the sources.  The fields are those `g_undo.c`
reads and writes: the canvas, the type of the action, its data, its name, and
the two links. -/
structure t_undo_action where
  x : Nat
  type : Int
  data : Nat
  name : Option String
  prev : Option Nat
  next : Option Nat
  deriving DecidableEq, Repr

/-- Modelled from the spec: the record `canvas_undo_get(x)` points to (its
declaration is not among the sources), with the two fields the macros
`XUQUEUE` and `XULAST` select: the head of the queue and the cursor. -/
structure t_undo where
  u_queue : Option Nat
  u_last : Option Nat
  deriving DecidableEq, Repr

/-- Memory and globals: the cells that hold actions (`none` is a cell that is
not allocated), the undo record of the canvas, and the globals
`we_are_undoing` and `canvas_undo_name`. -/
structure t_mem where
  cells : List (Option t_undo_action)
  undo : t_undo
  we_are_undoing : Int
  canvas_undo_name : Option String
  deriving DecidableEq, Repr

/-- Modelled from the spec: the third argument of the handlers, whose
constants are declared in `g_undo.h`. -/
inductive t_undo_mode where
  | UNDO_FREE
  | UNDO_UNDO
  | UNDO_REDO
  deriving DecidableEq, Repr

/-- The handlers the `switch` statements of `g_undo.c` call. -/
inductive t_undo_fn where
  | canvas_undo_connect
  | canvas_undo_disconnect
  | canvas_undo_cut
  | canvas_undo_move
  | canvas_undo_paste
  | canvas_undo_apply
  | canvas_undo_arrange
  | canvas_undo_canvas_apply
  | canvas_undo_create
  | canvas_undo_recreate
  | canvas_undo_font
  deriving DecidableEq, Repr

/-- The calls `g_undo.c` makes out of the queue. -/
inductive Event where
  | canvas_suspend_dsp
  | canvas_resume_dsp (dspwas : Int)
  | canvas_editmode (x : Nat) (state : Int)
  | glist_noselect (x : Nat)
  | handler (f : t_undo_fn) (x : Nat) (data : Nat) (mode : t_undo_mode)
  | error (msg : String) (type : Int)
  | pdtk_undomenu (x : Nat) (undo_action redo_action : Option String)
  | canvas_dirty (x : Nat) (n : Int)
  | getbytes (a : Nat)
  | freebytes (a : Nat)
  deriving DecidableEq, Repr

/-- Reading through the pointer `p`: the cell at that address, if it is
allocated. -/
def load (h : List (Option t_undo_action)) (p : Nat) : Option t_undo_action :=
  match h[p]? with
  | some c => c
  | none => none

/-- Writing the cell at address `p`. -/
def store (h : List (Option t_undo_action)) (p : Nat) (n : t_undo_action) :
    List (Option t_undo_action) :=
  if p < h.length then h.set p (some n)
  else h ++ List.replicate (p - h.length) none ++ [some n]

/-- Modelled from the spec: the allocator is in `m_memory.c`, which is not
among the sources.  The memory after `freebytes(p, ...)`: the cell is no
longer allocated. -/
def freebytes (h : List (Option t_undo_action)) (p : Nat) :
    List (Option t_undo_action) :=
  h.set p none

/-- Modelled from the spec: the allocator is in `m_memory.c`, which is not
among the sources.  The memory after `getbytes` has handed out the address
`a`: a zero-filled cell. -/
def getbytes (h : List (Option t_undo_action)) (a : Nat) :
    List (Option t_undo_action) :=
  store h a { x := 0, type := 0, data := 0, name := none, prev := none, next := none }

/-- The table of the `switch` statements: the handler for an action type. -/
def undo_handler (type : Int) : Option t_undo_fn :=
  if type = 1 then some t_undo_fn.canvas_undo_connect
  else if type = 2 then some t_undo_fn.canvas_undo_disconnect
  else if type = 3 then some t_undo_fn.canvas_undo_cut
  else if type = 4 then some t_undo_fn.canvas_undo_move
  else if type = 5 then some t_undo_fn.canvas_undo_paste
  else if type = 6 then some t_undo_fn.canvas_undo_apply
  else if type = 7 then some t_undo_fn.canvas_undo_arrange
  else if type = 8 then some t_undo_fn.canvas_undo_canvas_apply
  else if type = 9 then some t_undo_fn.canvas_undo_create
  else if type = 10 then some t_undo_fn.canvas_undo_recreate
  else if type = 11 then some t_undo_fn.canvas_undo_font
  else none

/-- One `switch` statement: the handler of the action's type is called on its
data, and a type without handler is reported with the message `msg`. -/
def undo_switch (msg : String) (x : Nat) (n : t_undo_action) (mode : t_undo_mode) :
    List Event :=
  match undo_handler n.type with
  | some f => [Event.handler f x n.data mode]
  | none => [Event.error msg n.type]

/-- The function `canvas_undo_undo`.  `vis` is the answer of
`glist_isvisible(x) && glist_istoplevel(x)`, `dspwas` that of
`canvas_suspend_dsp`. -/
def canvas_undo_undo (vis : Bool) (dspwas : Int) (x : Nat) (s : t_mem) :
    Option (t_mem × List Event) :=
  if s.undo.u_queue ≠ none ∧ s.undo.u_last ≠ s.undo.u_queue then
    match s.undo.u_last with
    | none => none
    | some c =>
      match load s.cells c with
      | none => none
      | some n =>
        match n.prev with
        | none => none
        | some p =>
          match load s.cells p with
          | none => none
          | some pn =>
            match pn.next with
            | none => none
            | some q =>
              match load s.cells q with
              | none => none
              | some qn =>
                some ({ s with
                        undo := { s.undo with u_last := some p },
                        we_are_undoing := 0,
                        canvas_undo_name := n.name },
                  [Event.canvas_suspend_dsp, Event.canvas_editmode x 1,
                   Event.glist_noselect x] ++
                  undo_switch "canvas_undo_undo: unsupported undo command" x n
                    t_undo_mode.UNDO_UNDO ++
                  (if vis then [Event.pdtk_undomenu x pn.name qn.name] else []) ++
                  [Event.canvas_dirty x 1, Event.canvas_resume_dsp dspwas])
  else some (s, [Event.canvas_suspend_dsp, Event.canvas_resume_dsp dspwas])

/-- The function `canvas_undo_redo`. -/
def canvas_undo_redo (vis : Bool) (dspwas : Int) (x : Nat) (s : t_mem) :
    Option (t_mem × List Event) :=
  match s.undo.u_queue with
  | none => some (s, [Event.canvas_suspend_dsp, Event.canvas_resume_dsp dspwas])
  | some _ =>
    match s.undo.u_last with
    | none => none
    | some c =>
      match load s.cells c with
      | none => none
      | some n =>
        match n.next with
        | none => some (s, [Event.canvas_suspend_dsp, Event.canvas_resume_dsp dspwas])
        | some q =>
          match load s.cells q with
          | none => none
          | some qn =>
            let redo_action : Option (Option String) :=
              match qn.next with
              | none => some (some "no")
              | some r => (load s.cells r).map (fun rn => rn.name)
            match redo_action with
            | none => none
            | some redo_name =>
              some ({ s with
                      undo := { s.undo with u_last := some q },
                      we_are_undoing := 0,
                      canvas_undo_name := qn.name },
                [Event.canvas_suspend_dsp, Event.canvas_editmode x 1,
                 Event.glist_noselect x] ++
                undo_switch "canvas_undo_redo: unsupported redo command" x qn
                  t_undo_mode.UNDO_REDO ++
                (if vis then [Event.pdtk_undomenu x qn.name redo_name] else []) ++
                [Event.canvas_dirty x 1, Event.canvas_resume_dsp dspwas])

/-- The loop of `canvas_undo_rebranch` from the action `a1` on: each action is
handed to its handler with `UNDO_FREE` and released.  The first argument
bounds the number of rounds; every round releases an allocated cell, so the
number of cells is enough. -/
def canvas_undo_rebranch_loop (x : Nat) :
    Nat → List (Option t_undo_action) → Option Nat →
      Option (List (Option t_undo_action) × List Event)
  | _, h, none => some (h, [])
  | 0, _, some _ => none
  | fuel + 1, h, some a1 =>
    match load h a1 with
    | none => none
    | some n =>
      match canvas_undo_rebranch_loop x fuel (freebytes h a1) n.next with
      | none => none
      | some r =>
        some (r.1,
          undo_switch "canvas_undo_rebranch: unsupported undo command" x n
            t_undo_mode.UNDO_FREE ++ [Event.freebytes a1] ++ r.2)

/-- The function `canvas_undo_rebranch`. -/
def canvas_undo_rebranch (dspwas : Int) (x : Nat) (s : t_mem) :
    Option (t_mem × List Event) :=
  match s.undo.u_last with
  | none => none
  | some c =>
    match load s.cells c with
    | none => none
    | some n =>
      match n.next with
      | none => some (s, [Event.canvas_suspend_dsp, Event.canvas_resume_dsp dspwas])
      | some a1 =>
        match canvas_undo_rebranch_loop x s.cells.length s.cells (some a1) with
        | none => none
        | some r =>
          some ({ s with cells := r.1 },
            [Event.canvas_suspend_dsp] ++ r.2 ++ [Event.canvas_resume_dsp dspwas])

/-- The function `canvas_undo_init`; `a` is the address `getbytes` hands out.
The result holds the new memory, the returned pointer and the calls made. -/
def canvas_undo_init (vis : Bool) (dspwas : Int) (a : Nat) (x : Nat) (s : t_mem) :
    Option (t_mem × Nat × List Event) :=
  let h0 := getbytes s.cells a
  match load h0 a with
  | none => none
  | some a0 =>
    let h1 := store h0 a { a0 with type := 0, x := x, next := none }
    match s.undo.u_queue with
    | none =>
      match load h1 a with
      | none => none
      | some a1 =>
        some ({ s with
                cells := store h1 a { a1 with prev := none, name := some "no" },
                undo := { u_queue := some a, u_last := some a } },
          a,
          [Event.getbytes a] ++
          (if vis then [Event.pdtk_undomenu x (some "no") (some "no")] else []))
    | some _ =>
      match s.undo.u_last with
      | none => none
      | some c =>
        match load h1 c with
        | none => none
        | some n =>
          let branch : Option (t_mem × List Event) :=
            if n.next ≠ none then canvas_undo_rebranch dspwas x { s with cells := h1 }
            else some ({ s with cells := h1 }, [])
          match branch with
          | none => none
          | some r =>
            match load r.1.cells c with
            | none => none
            | some n2 =>
              let h2 := store r.1.cells c { n2 with next := some a }
              match load h2 a with
              | none => none
              | some a2 =>
                some ({ r.1 with
                        cells := store h2 a { a2 with prev := some c },
                        undo := { r.1.undo with u_last := some a } },
                  a, [Event.getbytes a] ++ r.2)

/-- The function `canvas_undo_add`. -/
def canvas_undo_add (vis : Bool) (dspwas : Int) (a : Nat) (x : Nat) (type : Int)
    (name : Option String) (data : Nat) (s : t_mem) :
    Option (t_mem × Nat × List Event) :=
  match canvas_undo_init vis dspwas a x s with
  | none => none
  | some r =>
    match load r.1.cells r.2.1 with
    | none => none
    | some n =>
      some ({ r.1 with
              cells := store r.1.cells r.2.1
                { n with type := type, data := data, name := name },
              canvas_undo_name := name },
        r.2.1,
        r.2.2 ++ (if vis then [Event.pdtk_undomenu x name (some "no")] else []))

/-! ## Reading the queue -/

/-- The first address of `l`, or the pointer `d` when `l` is empty. -/
def first_or (l : List Nat) (d : Option Nat) : Option Nat :=
  match l with
  | [] => d
  | q :: _ => some q

/-- The last address of `l`, or the pointer `d` when `l` is empty. -/
def last_or (l : List Nat) (d : Option Nat) : Option Nat :=
  match l.getLast? with
  | none => d
  | some q => some q

/-- The cells `l` are allocated and linked in this order: the `prev` of each
is the cell before it (`before` for the first) and the `next` of each is the
cell after it (`after` for the last).  A queue is a chain from `NULL` to
`NULL`. -/
def linked (h : List (Option t_undo_action)) :
    Option Nat → List Nat → Option Nat → Bool
  | _, [], _ => true
  | before, p :: rest, after =>
    match load h p with
    | none => false
    | some n =>
      decide (n.prev = before) && decide (n.next = first_or rest after) &&
        linked h (some p) rest after

/-- The address an event releases, if it is a call of `freebytes`. -/
def Event.freed : Event → Option Nat
  | .freebytes a => some a
  | _ => none

/-- The addresses released in a trace, in order. -/
def released (ev : List Event) : List Nat :=
  ev.filterMap Event.freed

/-- The sequence of actions reached from the pointer `p` along `next`, if the
chain ends within `fuel` steps in allocated cells. -/
def undo_chain (h : List (Option t_undo_action)) : Nat → Option Nat → Option (List Nat)
  | _, none => some []
  | 0, some _ => none
  | fuel + 1, some p =>
    match load h p with
    | none => none
    | some n => (undo_chain h fuel n.next).map (fun l => p :: l)

/-- The sequence of actions of the queue, from its head. -/
def queue_actions (s : t_mem) : Option (List Nat) :=
  undo_chain s.cells s.cells.length s.undo.u_queue

/-! ## Sample queues -/

/-- No memory, no queue. -/
def empty_sample : t_mem :=
  { cells := [], undo := { u_queue := none, u_last := none },
    we_are_undoing := 0, canvas_undo_name := none }

/-- The queue of canvas 1 after `canvas_undo_init` and three actions
(a move, a connect and a font change, at the addresses 1, 2 and 3). -/
def queue_sample : t_mem :=
  { cells :=
      [some { x := 1, type := 0, data := 0, name := some "no", prev := none,
              next := some 1 },
       some { x := 1, type := 4, data := 40, name := some "motion", prev := some 0,
              next := some 2 },
       some { x := 1, type := 1, data := 41, name := some "connect", prev := some 1,
              next := some 3 },
       some { x := 1, type := 11, data := 42, name := some "font", prev := some 2,
              next := none }],
    undo := { u_queue := some 0, u_last := some 3 },
    we_are_undoing := 0, canvas_undo_name := some "font" }

/-- The queue `queue_sample` after one undo: the cursor is on the connect
action at address 2, the font change at address 3 can be redone. -/
def undone_sample : t_mem :=
  { queue_sample with undo := { u_queue := some 0, u_last := some 2 } }

end GUndo

/-! # Theorems -/

namespace XNet

/-! ## The connection registry (`netreceive_notify`) -/

/-- Shrinking by one after moving the tail down one place erases index `i`. -/
theorem resize_memmove_eq_eraseIdx {α : Type} (zero : α) (a : List α) (i n : Nat)
    (hlen : a.length = n) (hi : i < n) :
    t_resizebytes zero (memmove a i (i + 1) (n - (i + 1))) n (n - 1)
      = a.eraseIdx i := by
  unfold t_resizebytes memmove
  have h1 : (a.drop (i + 1)).take (n - (i + 1)) = a.drop (i + 1) := by
    apply List.take_of_length_le
    simp [hlen]
  have h2 : (a.take i ++ a.drop (i + 1)).length = n - 1 := by
    simp [hlen]; omega
  rw [h1, ← List.append_assoc, List.take_append_of_le_length (by omega),
    List.take_of_length_le (by omega)]
  simp [List.eraseIdx_eq_take_drop_succ]

/-- The registry after the removal step at a valid index. -/
theorem remove_connections (x : t_netreceive) (i : Nat)
    (hlen : x.x_connections.length = x.x_nconnections)
    (hi : i < x.x_nconnections) :
    (netreceive_notify_remove x i).1.x_connections
      = x.x_connections.eraseIdx i := by
  simp only [netreceive_notify_remove]
  exact resize_memmove_eq_eraseIdx 0 _ _ _ hlen hi

/-- A loop that meets no entry equal to `fd` changes nothing. -/
theorem notify_loop_nomatch (fd : Int) : ∀ (fuel i : Nat) (x : t_netreceive),
    (∀ j, i ≤ j → j < x.x_nconnections → x.x_connections.getD j 0 ≠ fd) →
    x.x_nconnections - i ≤ fuel →
    netreceive_notify_loop fd fuel i x = some (x, []) := by
  intro fuel
  induction fuel with
  | zero =>
    intro i x _ hf
    unfold netreceive_notify_loop
    rw [if_neg (by omega)]
  | succ fuel ih =>
    intro i x hno hf
    unfold netreceive_notify_loop
    by_cases hi : i < x.x_nconnections
    · rw [if_pos hi]
      simp only
      rw [if_neg (hno i (le_refl _) hi)]
      exact ih (i + 1) x (fun j hj hjn => hno j (by omega) hjn) (by omega)
    · rw [if_neg hi]

/-- A loop that meets `fd` once, at index `k`, performs the removal step
there and nothing else. -/
theorem notify_loop_match (fd : Int) :
    ∀ (fuel i : Nat) (x : t_netreceive) (k : Nat),
    i ≤ k → k < x.x_nconnections →
    x.x_connections.length = x.x_nconnections →
    x.x_connections.getD k 0 = fd →
    (∀ j, i ≤ j → j < k → x.x_connections.getD j 0 ≠ fd) →
    fd ∉ x.x_connections.eraseIdx k →
    x.x_nconnections - i ≤ fuel →
    netreceive_notify_loop fd fuel i x = some (netreceive_notify_remove x k) := by
  intro fuel
  induction fuel with
  | zero =>
    intro i x k hik hk _ _ _ _ hf
    omega
  | succ fuel ih =>
    intro i x k hik hk hlen hfd hbefore hafter hf
    unfold netreceive_notify_loop
    rw [if_pos (by omega)]
    simp only
    by_cases hie : i = k
    · subst hie
      rw [if_pos hfd]
      have hconn := remove_connections x i hlen hk
      have hn : (netreceive_notify_remove x i).1.x_nconnections
          = x.x_nconnections - 1 := rfl
      rw [notify_loop_nomatch fd fuel (i + 1) (netreceive_notify_remove x i).1 _
        (by rw [hn]; omega)]
      · simp
      · intro j _ hj heq
        apply hafter
        rw [← hconn, ← heq]
        rw [hn] at hj
        have hl : j < (netreceive_notify_remove x i).1.x_connections.length := by
          rw [hconn, List.length_eraseIdx, hlen]
          simp [hk]; omega
        rw [List.getD_eq_getElem _ _ hl]
        exact List.getElem_mem _
    · rw [if_neg (hbefore i (le_refl _) (by omega))]
      exact ih (i + 1) x k (by omega) hk hlen hfd
        (fun j hj hjk => hbefore j (by omega) hjk) hafter (by omega)

/-- C1: in a registry of pairwise distinct descriptors (so of N >= 1 entries)
that holds `fd` at any index, `netreceive_notify` returns, leaves
`x_connections` equal to the old sequence without `fd`, the others in their
old order, makes `x_nconnections` N-1, and the one thing it sends to the
connection-status outlet is the number N-1. -/
theorem netreceive_notify_removes_fd (x : t_netreceive) (fd : Int)
    (hlen : x.x_connections.length = x.x_nconnections)
    (hnodup : x.x_connections.Nodup)
    (hmem : fd ∈ x.x_connections)
    (hout : x.x_ns.x_connectout = some t_outlet.x_connectout) :
    ∃ x2 ev, netreceive_notify x fd = some (x2, ev) ∧
      x2.x_connections = x.x_connections.filter (fun c => decide (c ≠ fd)) ∧
      x2.x_nconnections = x.x_nconnections - 1 ∧
      ev.filter (Event.on t_outlet.x_connectout)
        = [Event.outlet_float (some t_outlet.x_connectout)
            ((x.x_nconnections - 1 : Nat) : t_float)] := by
  obtain ⟨k, hk, hget⟩ := List.getElem_of_mem hmem
  have hkn : k < x.x_nconnections := hlen ▸ hk
  have herase : x.x_connections.eraseIdx k = x.x_connections.erase fd := by
    rw [← hget]
    exact (hnodup.erase_getElem k hk).symm
  have hD : x.x_connections.getD k 0 = fd := by
    rw [List.getD_eq_getElem _ _ hk, hget]
  have hbefore : ∀ j, 0 ≤ j → j < k → x.x_connections.getD j 0 ≠ fd := by
    intro j _ hjk hj
    have hjl : j < x.x_connections.length := by omega
    rw [List.getD_eq_getElem _ _ hjl, ← hget] at hj
    have := (List.Nodup.getElem_inj_iff hnodup).mp hj
    omega
  have hafter : fd ∉ x.x_connections.eraseIdx k := by
    rw [herase]
    intro h
    exact (hnodup.mem_erase_iff.mp h).1 rfl
  have hloop := notify_loop_match fd x.x_nconnections 0 x k (Nat.zero_le _) hkn
    hlen hD hbefore hafter (by omega)
  refine ⟨(netreceive_notify_remove x k).1,
    (netreceive_notify_remove x k).2 ++
      [Event.outlet_float (netreceive_notify_remove x k).1.x_ns.x_connectout
        (netreceive_notify_remove x k).1.x_nconnections], ?_, ?_, rfl, ?_⟩
  · unfold netreceive_notify
    rw [hloop]
  · rw [remove_connections x k hlen hkn, herase, hnodup.erase_eq_filter]
    apply List.filter_congr
    intro c _
    by_cases hc : c = fd <;> simp [hc]
  · have hns : (netreceive_notify_remove x k).1.x_ns = x.x_ns := rfl
    have hnn : (netreceive_notify_remove x k).1.x_nconnections
        = x.x_nconnections - 1 := rfl
    rw [hns, hnn, hout, List.filter_append]
    have hfree : (netreceive_notify_remove x k).2.filter
        (Event.on t_outlet.x_connectout) = [] := by
      simp only [netreceive_notify_remove]
      split <;> simp [Event.on]
    rw [hfree]
    simp [Event.on]

/-- The witness for C1: descriptor 11 fails in the middle of the registry
10, 11, 12. -/
theorem netreceive_notify_removes_fd_witness :
    ∃ x2 ev, netreceive_notify registry_sample 11 = some (x2, ev) ∧
      x2.x_connections
        = registry_sample.x_connections.filter (fun c => decide (c ≠ 11)) ∧
      x2.x_nconnections = registry_sample.x_nconnections - 1 ∧
      ev.filter (Event.on t_outlet.x_connectout)
        = [Event.outlet_float (some t_outlet.x_connectout)
            ((registry_sample.x_nconnections - 1 : Nat) : t_float)] :=
  netreceive_notify_removes_fd registry_sample 11 (by decide) (by decide)
    (by decide) (by decide)

/-- C2: when descriptor 11 fails in the middle of the registry 10, 11, 12 the
receiver that `netreceive_notify` frees is number 3, the one created for
descriptor 12, which stays registered and is left paired with a null receiver;
receiver 2, created for descriptor 11, is not freed. -/
theorem netreceive_notify_frees_next_receiver :
    netreceive_notify registry_sample 11
      = some ({ registry_sample with
                  x_nconnections := 2, x_connections := [10, 12],
                  x_receivers := [some 1, none] },
              [Event.socketreceiver_free 3,
               Event.outlet_float (some t_outlet.x_connectout) 2]) := by
  decide

/-! ## The textual decoder (`netsend_read`) -/

/-- The scan stops where it stands when it is at the end of the buffer or on
a terminator. -/
theorem scan_stop (pre tail : List t_atom)
    (htail : ∀ a ∈ tail.head?, a.is_terminator = true) (fuel : Nat) :
    netsend_read_scan (pre ++ tail) (pre ++ tail).length fuel pre.length
      = some pre.length := by
  unfold netsend_read_scan
  rw [if_neg]
  intro ⟨hlt, hterm⟩
  cases tail with
  | nil => simp at hlt
  | cons t tl =>
    have ht := htail t (by simp)
    rw [List.getD_eq_getElem _ _ hlt, List.getElem_append_right (le_refl _)] at hterm
    simp at hterm
    rw [ht] at hterm
    exact absurd hterm (by simp)

/-- From inside a run without terminators the scan reaches the end of it. -/
theorem scan_run (pre run tail : List t_atom)
    (hrun : ∀ a ∈ run, a.is_terminator = false)
    (htail : ∀ a ∈ tail.head?, a.is_terminator = true) :
    ∀ (fuel emsg : Nat), pre.length ≤ emsg → emsg ≤ pre.length + run.length →
      pre.length + run.length - emsg ≤ fuel →
      netsend_read_scan (pre ++ (run ++ tail)) (pre ++ (run ++ tail)).length
        fuel emsg = some (pre.length + run.length) := by
  have hstop : ∀ fuel, netsend_read_scan (pre ++ (run ++ tail))
      (pre ++ (run ++ tail)).length fuel (pre.length + run.length)
        = some (pre.length + run.length) := by
    intro fuel
    have h := scan_stop (pre ++ run) tail htail fuel
    simpa [List.append_assoc] using h
  intro fuel
  induction fuel with
  | zero =>
    intro emsg h1 h2 hf
    have he : emsg = pre.length + run.length := by omega
    rw [he]
    exact hstop 0
  | succ fuel ih =>
    intro emsg h1 h2 hf
    by_cases he : emsg = pre.length + run.length
    · rw [he]
      exact hstop _
    · have hl : emsg < (pre ++ (run ++ tail)).length := by
        simp only [List.length_append]; omega
      unfold netsend_read_scan
      rw [if_pos]
      · exact ih (emsg + 1) (by omega) (by omega) (by omega)
      · refine ⟨hl, ?_⟩
        rw [List.getD_eq_getElem _ _ hl]
        rw [List.getElem_append_right (by omega)]
        rw [List.getElem_append_left (by omega)]
        exact hrun _ (List.getElem_mem _)

/-- Past the end of the buffer the outer loop is over. -/
theorem read_loop_done (x : t_netsend) (vec : List t_atom) (fuel msg : Nat)
    (h : vec.length ≤ msg) : netsend_read_loop x vec fuel msg = some [] := by
  unfold netsend_read_loop
  rw [if_neg (by omega)]

/-- An empty run sends nothing. -/
theorem read_msg_nil (x : t_netsend) : netsend_read_msg x [] = [] := by
  simp [netsend_read_msg]

/-- Every list is a run without terminators followed by nothing or by a rest
that starts with a terminator. -/
theorem exists_run_tail (l : List t_atom) :
    ∃ run tail, l = run ++ tail ∧ (∀ a ∈ run, a.is_terminator = false) ∧
      (∀ a ∈ tail.head?, a.is_terminator = true) := by
  refine ⟨l.takeWhile (fun a => !a.is_terminator),
    l.dropWhile (fun a => !a.is_terminator), by simp, ?_, ?_⟩
  · intro a ha
    have := List.mem_takeWhile_imp ha
    simpa using this
  · intro a ha
    have := List.head?_dropWhile_not (fun a => !a.is_terminator) l
    rw [Option.mem_def] at ha
    rw [ha] at this
    simpa using this

/-- With fuel for every remaining atom, the outer loop started behind `pre`
handles the runs of the rest one after the other. -/
theorem read_loop_spec (x : t_netsend) : ∀ (fuel : Nat) (pre l : List t_atom),
    l.length ≤ fuel →
    netsend_read_loop x (pre ++ l) fuel pre.length
      = some ((l.splitOnP t_atom.is_terminator).flatMap (netsend_read_msg x)) := by
  intro fuel
  induction fuel with
  | zero =>
    intro pre l hl
    have : l = [] := List.length_eq_zero.mp (by omega)
    subst this
    rw [read_loop_done x _ _ _ (by simp)]
    simp [List.splitOnP_nil, read_msg_nil]
  | succ fuel ih =>
    intro pre l hl
    by_cases hnil : l = []
    · subst hnil
      rw [read_loop_done x _ _ _ (by simp)]
      simp [List.splitOnP_nil, read_msg_nil]
    · obtain ⟨run, tail, hl_eq, hrun, htail⟩ := exists_run_tail l
      subst hl_eq
      have hlen : 0 < (run ++ tail).length := List.length_pos.mpr hnil
      unfold netsend_read_loop
      rw [if_pos (by simp only [List.length_append] at hlen ⊢; omega)]
      simp only
      rw [scan_run pre run tail hrun htail _ _ (le_refl _) (by omega)
        (by simp only [List.length_append]; omega)]
      simp only
      have hslice : ((pre ++ (run ++ tail)).drop pre.length).take
          (pre.length + run.length - pre.length) = run := by
        rw [List.drop_left, Nat.add_sub_cancel_left, List.take_left]
      rw [hslice]
      cases tail with
      | nil =>
        rw [read_loop_done x _ _ _ (by simp)]
        rw [List.append_nil,
          List.splitOnP_eq_single t_atom.is_terminator run (by simpa using hrun)]
        simp
      | cons t rest =>
        have ht : t.is_terminator = true := htail t (by simp)
        have hre : pre ++ (run ++ t :: rest) = (pre ++ (run ++ [t])) ++ rest := by
          simp
        have hidx : pre.length + run.length + 1 = (pre ++ (run ++ [t])).length := by
          simp; omega
        rw [hre, hidx, ih _ rest (by simp at hl; omega)]
        rw [List.splitOnP_first t_atom.is_terminator run (by simpa using hrun) t ht]
        simp

/-- The decoder always returns: it handles the runs between terminators in
buffer order. -/
theorem netsend_read_eq (x : t_netsend) (b : List t_atom) :
    netsend_read x b
      = some ((b.splitOnP t_atom.is_terminator).flatMap (netsend_read_msg x)) := by
  have h := read_loop_spec x b.length [] b (le_refl _)
  simpa [netsend_read] using h

/-- Splitting behind a first run without terminators. -/
theorem runs_first (x : t_netsend) (run rest : List t_atom) (t : t_atom)
    (hrun : ∀ a ∈ run, a.is_terminator = false) (ht : t.is_terminator = true) :
    ((run ++ t :: rest).splitOnP t_atom.is_terminator).flatMap (netsend_read_msg x)
      = netsend_read_msg x run
        ++ (rest.splitOnP t_atom.is_terminator).flatMap (netsend_read_msg x) := by
  rw [List.splitOnP_first t_atom.is_terminator run (by simpa using hrun) t ht]
  simp

/-- A buffer without terminators is one run. -/
theorem runs_single (x : t_netsend) (run : List t_atom)
    (hrun : ∀ a ∈ run, a.is_terminator = false) :
    (run.splitOnP t_atom.is_terminator).flatMap (netsend_read_msg x)
      = netsend_read_msg x run := by
  rw [List.splitOnP_eq_single t_atom.is_terminator run (by simpa using hrun)]
  simp

/-- Splitting at any terminator: what comes before it and what comes after it
are handled independently. -/
theorem runs_split (x : t_netsend) (t : t_atom) (ht : t.is_terminator = true)
    (rest : List t_atom) : ∀ (n : Nat) (pre : List t_atom), pre.length ≤ n →
    ((pre ++ t :: rest).splitOnP t_atom.is_terminator).flatMap (netsend_read_msg x)
      = (pre.splitOnP t_atom.is_terminator).flatMap (netsend_read_msg x)
        ++ (rest.splitOnP t_atom.is_terminator).flatMap (netsend_read_msg x) := by
  intro n
  induction n with
  | zero =>
    intro pre hp
    have : pre = [] := List.length_eq_zero.mp (by omega)
    subst this
    have h := runs_first x [] rest t (by simp) ht
    simpa [List.splitOnP_nil, read_msg_nil] using h
  | succ n ih =>
    intro pre hp
    obtain ⟨run, tail, hpre, hrun, htail⟩ := exists_run_tail pre
    subst hpre
    cases tail with
    | nil =>
      rw [List.append_nil, runs_first x run rest t hrun ht, runs_single x run hrun]
    | cons t2 rest2 =>
      have ht2 : t2.is_terminator = true := htail t2 (by simp)
      have hshape : run ++ t2 :: rest2 ++ t :: rest
          = run ++ t2 :: (rest2 ++ t :: rest) := by simp
      rw [hshape, runs_first x run _ t2 hrun ht2, runs_first x run rest2 t2 hrun ht2,
        ih rest2 (by simp at hp; omega), List.append_assoc]

/-- What the decoder makes of one run that has neither terminators nor
placeholders and is not empty: a single outlet call carrying the run. -/
theorem read_msg_value (x : t_netsend) (run : List t_atom) (hne : run ≠ [])
    (hterm : ∀ a ∈ run, a.is_terminator = false)
    (hdollar : run.any t_atom.is_dollar = false) :
    ∃ e, netsend_read_msg x run = [e] ∧ run_output x.x_msgout run = some e ∧
      e.message_on x.x_msgout = some run := by
  cases run with
  | nil => exact absurd rfl hne
  | cons a rest =>
    cases a with
    | A_FLOAT f =>
      cases rest with
      | nil =>
        exact ⟨Event.outlet_float x.x_msgout f,
          by simp [netsend_read_msg, t_atom.is_dollar], rfl,
          by simp [Event.message_on]⟩
      | cons b rest2 =>
        refine ⟨Event.outlet_list x.x_msgout (t_atom.A_FLOAT f :: b :: rest2),
          ?_, rfl, by simp [Event.message_on]⟩
        simp only [netsend_read_msg, hdollar]
        simp
    | A_SYMBOL s =>
      refine ⟨Event.outlet_anything x.x_msgout s rest, ?_, rfl,
        by simp [Event.message_on]⟩
      simp only [netsend_read_msg, hdollar]
      simp
    | A_SEMI => exact absurd (hterm _ (List.mem_cons_self _ _)) (by decide)
    | A_COMMA => exact absurd (hterm _ (List.mem_cons_self _ _)) (by decide)
    | A_DOLLAR n => simp [t_atom.is_dollar] at hdollar
    | A_DOLLSYM s => simp [t_atom.is_dollar] at hdollar

/-- What the decoder makes of a run that holds a placeholder: the error and
no outlet call. -/
theorem read_msg_dollar (x : t_netsend) (run : List t_atom)
    (hdollar : run.any t_atom.is_dollar = true) :
    netsend_read_msg x run
      = [Event.pd_error "netreceive: got dollar sign in message"] := by
  have hne : run.length > 0 := by
    cases run with
    | nil => simp at hdollar
    | cons a rest => simp
  simp only [netsend_read_msg, hne, hdollar]
  simp

/-- C3 (the empty message does not come back): the encoder turns the message
without atoms into the buffer holding one semicolon, and from it the decoder
emits nothing, so no single emitted message equals the original. -/
theorem textual_roundtrip_empty_message :
    ¬ ∃ e, netsend_read sender_sample (netsend_dosend_binbuf []) = some [e] ∧
        e.message_on sender_sample.x_msgout = some [] := by
  intro ⟨e, h, _⟩
  have h0 : netsend_read sender_sample (netsend_dosend_binbuf []) = some [] := by
    decide
  rw [h0] at h
  exact absurd h (by simp)

/-- C3 (amended): for every message that is not empty and has no terminator
atom, the decoder run on the atom stream of the encoder (the atoms, then one
semicolon) returns; if the message holds no placeholder (so that it consists
of numbers and symbols) exactly one message is emitted, on the data outlet,
and it carries the atoms of the original; if it holds a placeholder nothing
is emitted and the error is reported once. -/
theorem textual_roundtrip (x : t_netsend) (argv : List t_atom)
    (hne : argv ≠ []) (hterm : ∀ a ∈ argv, a.is_terminator = false) :
    if argv.any t_atom.is_dollar then
      netsend_read x (netsend_dosend_binbuf argv)
        = some [Event.pd_error "netreceive: got dollar sign in message"]
    else
      ∃ e, netsend_read x (netsend_dosend_binbuf argv) = some [e] ∧
        e.message_on x.x_msgout = some argv := by
  have hread : netsend_read x (netsend_dosend_binbuf argv)
      = some (netsend_read_msg x argv) := by
    rw [netsend_read_eq, netsend_dosend_binbuf,
      runs_first x argv [] t_atom.A_SEMI hterm rfl]
    simp [List.splitOnP_nil, read_msg_nil]
  by_cases hd : argv.any t_atom.is_dollar = true
  · rw [if_pos hd, hread, read_msg_dollar x argv hd]
  · rw [if_neg hd]
    obtain ⟨e, he, _, hmsg⟩ := read_msg_value x argv hne hterm (by simpa using hd)
    exact ⟨e, by rw [hread, he], hmsg⟩

/-- The witness for C3: the message `foo 1 2` comes back as the selector
`foo` with two arguments. -/
theorem textual_roundtrip_witness :
    if [t_atom.A_SYMBOL "foo", t_atom.A_FLOAT 1, t_atom.A_FLOAT 2].any
        t_atom.is_dollar then
      netsend_read sender_sample (netsend_dosend_binbuf
          [t_atom.A_SYMBOL "foo", t_atom.A_FLOAT 1, t_atom.A_FLOAT 2])
        = some [Event.pd_error "netreceive: got dollar sign in message"]
    else
      ∃ e, netsend_read sender_sample (netsend_dosend_binbuf
          [t_atom.A_SYMBOL "foo", t_atom.A_FLOAT 1, t_atom.A_FLOAT 2]) = some [e] ∧
        e.message_on sender_sample.x_msgout
          = some [t_atom.A_SYMBOL "foo", t_atom.A_FLOAT 1, t_atom.A_FLOAT 2] :=
  textual_roundtrip sender_sample
    [t_atom.A_SYMBOL "foo", t_atom.A_FLOAT 1, t_atom.A_FLOAT 2]
    (by decide) (by decide)

/-- C4: let a buffer be `pre ++ m ++ post` where `m` is a message between
terminators (`pre` is empty or ends with one, `post` is empty or starts with
one, `m` holds none) and `m` holds a placeholder.  Then the decoder returns,
`m` gives the error report and no outlet call, and the events of the messages
before and after it are those of `pre` and of `post`, which are also exactly
what the buffer without `m` gives. -/
theorem netsend_read_skips_placeholder_message (x : t_netsend)
    (pre m post : List t_atom)
    (hpre : ∀ a ∈ pre.getLast?, a.is_terminator = true)
    (hm : ∀ a ∈ m, a.is_terminator = false)
    (hdollar : m.any t_atom.is_dollar = true)
    (hpost : ∀ a ∈ post.head?, a.is_terminator = true) :
    ∃ ev1 ev2, netsend_read x pre = some ev1 ∧ netsend_read x post = some ev2 ∧
      netsend_read x (pre ++ m ++ post)
        = some (ev1 ++ [Event.pd_error "netreceive: got dollar sign in message"]
            ++ ev2) ∧
      netsend_read x (pre ++ post) = some (ev1 ++ ev2) := by
  refine ⟨_, _, netsend_read_eq x pre, netsend_read_eq x post, ?_, ?_⟩
  all_goals rw [netsend_read_eq]
  all_goals congr 1
  · -- the buffer with the message
    have hmid : ((m ++ post).splitOnP t_atom.is_terminator).flatMap
          (netsend_read_msg x)
        = [Event.pd_error "netreceive: got dollar sign in message"]
          ++ (post.splitOnP t_atom.is_terminator).flatMap (netsend_read_msg x) := by
      cases post with
      | nil =>
        rw [List.append_nil, runs_single x m hm, read_msg_dollar x m hdollar]
        simp [List.splitOnP_nil, read_msg_nil]
      | cons t rest =>
        have ht : t.is_terminator = true := hpost t (by simp)
        rw [runs_first x m rest t hm ht, read_msg_dollar x m hdollar]
        have h := runs_first x [] rest t (by simp) ht
        rw [read_msg_nil] at h
        simp only [List.nil_append] at h
        rw [h]
    rcases List.eq_nil_or_concat pre with hnil | ⟨p, t, hp⟩
    · subst hnil
      simp only [List.nil_append]
      rw [hmid]
      simp [List.splitOnP_nil, read_msg_nil]
    · rw [List.concat_eq_append] at hp
      subst hp
      have ht : t.is_terminator = true := hpre t (by simp)
      have hshape : p ++ [t] ++ m ++ post = p ++ t :: (m ++ post) := by simp
      rw [hshape, runs_split x t ht (m ++ post) p.length p (le_refl _), hmid,
        runs_split x t ht [] p.length p (le_refl _)]
      simp [List.splitOnP_nil, read_msg_nil]
  · -- the buffer without the message
    rcases List.eq_nil_or_concat pre with hnil | ⟨p, t, hp⟩
    · subst hnil
      simp [List.splitOnP_nil, read_msg_nil]
    · rw [List.concat_eq_append] at hp
      subst hp
      have ht : t.is_terminator = true := hpre t (by simp)
      have hshape : p ++ [t] ++ post = p ++ t :: post := by simp
      rw [hshape, runs_split x t ht post p.length p (le_refl _),
        runs_split x t ht [] p.length p (le_refl _)]
      simp [List.splitOnP_nil, read_msg_nil]

/-- The witness for C4: in `1 2; a $1, foo 2;` the middle message is
dropped. -/
theorem netsend_read_skips_placeholder_message_witness :
    ∃ ev1 ev2,
      netsend_read sender_sample [t_atom.A_FLOAT 1, t_atom.A_FLOAT 2, t_atom.A_SEMI]
        = some ev1 ∧
      netsend_read sender_sample
        [t_atom.A_COMMA, t_atom.A_SYMBOL "foo", t_atom.A_FLOAT 2, t_atom.A_SEMI]
        = some ev2 ∧
      netsend_read sender_sample
        ([t_atom.A_FLOAT 1, t_atom.A_FLOAT 2, t_atom.A_SEMI]
          ++ [t_atom.A_SYMBOL "a", t_atom.A_DOLLAR 1]
          ++ [t_atom.A_COMMA, t_atom.A_SYMBOL "foo", t_atom.A_FLOAT 2, t_atom.A_SEMI])
        = some (ev1 ++ [Event.pd_error "netreceive: got dollar sign in message"]
            ++ ev2) ∧
      netsend_read sender_sample
        ([t_atom.A_FLOAT 1, t_atom.A_FLOAT 2, t_atom.A_SEMI]
          ++ [t_atom.A_COMMA, t_atom.A_SYMBOL "foo", t_atom.A_FLOAT 2, t_atom.A_SEMI])
        = some (ev1 ++ ev2) :=
  netsend_read_skips_placeholder_message sender_sample
    [t_atom.A_FLOAT 1, t_atom.A_FLOAT 2, t_atom.A_SEMI]
    [t_atom.A_SYMBOL "a", t_atom.A_DOLLAR 1]
    [t_atom.A_COMMA, t_atom.A_SYMBOL "foo", t_atom.A_FLOAT 2, t_atom.A_SEMI]
    (by decide) (by decide) (by decide) (by decide)

/-- No run between terminators holds a terminator. -/
theorem split_runs_no_terminator : ∀ (n : Nat) (l : List t_atom), l.length ≤ n →
    ∀ r ∈ l.splitOnP t_atom.is_terminator, ∀ a ∈ r, a.is_terminator = false := by
  intro n
  induction n with
  | zero =>
    intro l hl r hr a ha
    have : l = [] := List.length_eq_zero.mp (by omega)
    subst this
    simp [List.splitOnP_nil] at hr
    subst hr
    simp at ha
  | succ n ih =>
    intro l hl r hr a ha
    obtain ⟨run, tail, hl_eq, hrun, htail⟩ := exists_run_tail l
    subst hl_eq
    cases tail with
    | nil =>
      rw [List.append_nil,
        List.splitOnP_eq_single t_atom.is_terminator run (by simpa using hrun)] at hr
      simp at hr
      subst hr
      exact hrun a ha
    | cons t rest =>
      have ht : t.is_terminator = true := htail t (by simp)
      rw [List.splitOnP_first t_atom.is_terminator run (by simpa using hrun) t ht] at hr
      rcases List.mem_cons.mp hr with h | h
      · subst h
        exact hrun a ha
      · exact ih rest (by simp at hl; omega) r h a ha

/-- The outlet calls of one run: one call, the output of the textual rule,
when the run is not empty and holds no placeholder, and none otherwise. -/
theorem read_msg_outputs (x : t_netsend) (run : List t_atom)
    (hterm : ∀ a ∈ run, a.is_terminator = false) :
    ((netsend_read_msg x run).filter Event.is_output).map some
      = if (!run.isEmpty && !run.any t_atom.is_dollar) = true
        then [run_output x.x_msgout run] else [] := by
  by_cases hnil : run = []
  · subst hnil
    simp [read_msg_nil]
  · by_cases hd : run.any t_atom.is_dollar = true
    · rw [read_msg_dollar x run hd, hd]
      simp [Event.is_output]
    · have hd2 : run.any t_atom.is_dollar = false := by simpa using hd
      obtain ⟨e, he, hout, hmsg⟩ := read_msg_value x run hnil hterm hd2
      have hempty : run.isEmpty = false := by
        cases run with
        | nil => exact absurd rfl hnil
        | cons a rest => rfl
      have hisout : e.is_output = true := by
        cases e <;> simp [Event.message_on] at hmsg <;> rfl
      rw [he, hd2, hempty, hout]
      simp [hisout]

/-- The outlet calls of a sequence of runs. -/
theorem read_runs_outputs (x : t_netsend) : ∀ (runs : List (List t_atom)),
    (∀ r ∈ runs, ∀ a ∈ r, a.is_terminator = false) →
    ((runs.flatMap (netsend_read_msg x)).filter Event.is_output).map some
      = (runs.filter (fun run => !run.isEmpty && !run.any t_atom.is_dollar)).map
          (run_output x.x_msgout) := by
  intro runs
  induction runs with
  | nil => intro _; rfl
  | cons r rs ih =>
    intro h
    rw [List.flatMap_cons, List.filter_append, List.map_append,
      read_msg_outputs x r (h r (List.mem_cons_self _ _)),
      ih (fun r2 hr2 => h r2 (List.mem_cons_of_mem _ hr2))]
    by_cases hq : (!r.isEmpty && !r.any t_atom.is_dollar) = true
    · rw [if_pos hq]
      simp [List.filter_cons, hq]
    · rw [if_neg hq]
      simp [List.filter_cons, hq]

/-- C5: for every buffer the decoder returns, and its outlet calls are, in
buffer order, exactly one per maximal run between terminators that is not
empty and holds no placeholder, each the output of the textual rule: a single
number as a scalar, a longer run starting with a number as a list of the whole
run, a run starting with a symbol as that selector with the rest as
arguments.  Empty runs and runs with a placeholder give no outlet call. -/
theorem netsend_read_emits_runs (x : t_netsend) (b : List t_atom) :
    ∃ ev, netsend_read x b = some ev ∧
      (ev.filter Event.is_output).map some
        = (message_runs b).map (run_output x.x_msgout) := by
  refine ⟨_, netsend_read_eq x b, ?_⟩
  exact read_runs_outputs x _ (split_runs_no_terminator b.length b (le_refl _))

/-! ## The binary codec (`netsend_readbin`, `netsend_dosend`) -/

/-- The first bytes of `inbuf`, read one by one. -/
theorem inbuf_get_range (inbuf b : List t_byte) (hbytes : ∀ v ∈ b, v < 256)
    (hbuf : inbuf.take b.length = b) :
    (List.range b.length).map (inbuf_get inbuf)
      = b.map (fun (v : t_byte) => (v : t_float)) := by
  apply List.ext_getElem
  · simp
  · intro i h1 h2
    have hi : i < b.length := by simpa using h1
    have hlen : b.length ≤ inbuf.length := by
      have := congrArg List.length hbuf
      rw [List.length_take] at this
      omega
    have hget : inbuf.getD i 0 = b[i] := by
      rw [List.getD_eq_getElem _ _ (by omega)]
      have : (inbuf.take b.length)[i]? = b[i]? := by rw [hbuf]
      rw [List.getElem?_take_of_lt hi, List.getElem?_eq_getElem (by omega),
        List.getElem?_eq_getElem hi] at this
      exact Option.some.inj this
    simp only [List.getElem_map, List.getElem_range, inbuf_get, hget]
    rw [Nat.mod_eq_of_lt (hbytes _ (List.getElem_mem _))]

/-- The address report goes to the outlet it is given. -/
theorem outlet_sockaddr_filter (f : sockaddr_storage → Option String)
    (o : Option t_outlet) (sa : sockaddr_storage) (o2 : t_outlet)
    (h : o ≠ some o2) : (outlet_sockaddr f o sa).filter (Event.on o2) = [] := by
  unfold outlet_sockaddr
  split <;> simp [Event.on, h]

/-- A successful binary read on a datagram socket: the address report, if
any, then one list of the bytes. -/
theorem readbin_datagram (addrstr : sockaddr_storage → Option String)
    (x : t_pd) (fd : Int) (r : t_recv) (getpeername : Option sockaddr_storage)
    (b : List t_byte) (hb : b ≠ []) (hbytes : ∀ v ∈ b, v < 256)
    (hret : r.ret = b.length) (hbuf : r.inbuf.take b.length = b)
    (hmsg : x.ns.x_msgout ≠ none)
    (hp : x.ns.x_protocol = t_socktype.SOCK_DGRAM) :
    netsend_readbin addrstr x fd r getpeername
      = some (x, (if x.ns.x_fromout ≠ none then
            outlet_sockaddr addrstr x.ns.x_fromout r.fromaddr else []) ++
          [Event.outlet_list x.ns.x_msgout
            (b.map (fun (v : t_byte) => t_atom.A_FLOAT (v : t_float)))]) := by
  have hpos : ¬ r.ret ≤ 0 := by
    have : 0 < b.length := List.length_pos.mpr hb
    omega
  have hn : r.ret.toNat = b.length := by omega
  have hmap : (List.range b.length).map (fun i => t_atom.A_FLOAT (inbuf_get r.inbuf i))
      = b.map (fun (v : t_byte) => t_atom.A_FLOAT (v : t_float)) := by
    have := congrArg (List.map t_atom.A_FLOAT) (inbuf_get_range r.inbuf b hbytes hbuf)
    simpa [List.map_map, Function.comp] using this
  unfold netsend_readbin
  rw [if_neg hmsg, if_neg hpos, hn, if_pos hp, hmap]

/-- A successful binary read on a stream socket: the address report, if any,
then one number per byte. -/
theorem readbin_stream (addrstr : sockaddr_storage → Option String)
    (x : t_pd) (fd : Int) (r : t_recv) (getpeername : Option sockaddr_storage)
    (b : List t_byte) (hb : b ≠ []) (hbytes : ∀ v ∈ b, v < 256)
    (hret : r.ret = b.length) (hbuf : r.inbuf.take b.length = b)
    (hmsg : x.ns.x_msgout ≠ none)
    (hp : x.ns.x_protocol ≠ t_socktype.SOCK_DGRAM) :
    netsend_readbin addrstr x fd r getpeername
      = some (x, (if x.ns.x_fromout ≠ none then
            (match getpeername with
              | some sa => outlet_sockaddr addrstr x.ns.x_fromout sa
              | none => [])
            else []) ++
          b.map (fun (v : t_byte) => Event.outlet_float x.ns.x_msgout (v : t_float))) := by
  have hpos : ¬ r.ret ≤ 0 := by
    have : 0 < b.length := List.length_pos.mpr hb
    omega
  have hn : r.ret.toNat = b.length := by omega
  have hmap : (List.range b.length).map
        (fun i => Event.outlet_float x.ns.x_msgout (inbuf_get r.inbuf i))
      = b.map (fun (v : t_byte) => Event.outlet_float x.ns.x_msgout (v : t_float)) := by
    have := congrArg (List.map (Event.outlet_float x.ns.x_msgout))
      (inbuf_get_range r.inbuf b hbytes hbuf)
    simpa [List.map_map, Function.comp] using this
  unfold netsend_readbin
  rw [if_neg hmsg, if_neg hpos, hn, if_neg hp, hmap]

/-- The address report of a stream read is not on another outlet. -/
theorem stream_addr_filter (addrstr : sockaddr_storage → Option String)
    (o : Option t_outlet) (getpeername : Option sockaddr_storage) (o2 : t_outlet)
    (h : o ≠ some o2) :
    (if o ≠ none then
        (match getpeername with
          | some sa => outlet_sockaddr addrstr o sa
          | none => [])
        else []).filter (Event.on o2) = [] := by
  split
  · split
    · exact outlet_sockaddr_filter _ _ _ _ h
    · rfl
  · rfl

/-- Numbers sent to an outlet are all on that outlet. -/
theorem floats_filter (o : t_outlet) (b : List t_byte) :
    (b.map (fun (v : t_byte) => Event.outlet_float (some o) (v : t_float))).filter
        (Event.on o)
      = b.map (fun (v : t_byte) => Event.outlet_float (some o) (v : t_float)) := by
  rw [List.filter_eq_self]
  intro e he
  obtain ⟨v, _, hv⟩ := List.mem_map.mp he
  subst hv
  simp [Event.on]

/-- C6 (a datagram is emitted as one list): a binary datagram object that
reads the two bytes 1 and 2 does not emit the two numeric messages 1 and 2 on
its data outlet. -/
theorem netsend_readbin_datagram_not_scalars :
    ¬ ∃ x2 ev, netsend_readbin (fun _ => none) (t_pd.netsend_class datagram_sample)
          4 recv_sample none = some (x2, ev) ∧
        ev.filter (Event.on t_outlet.x_msgout)
          = [Event.outlet_float (some t_outlet.x_msgout) 1,
             Event.outlet_float (some t_outlet.x_msgout) 2] := by
  intro ⟨x2, ev, h, hev⟩
  have h0 : netsend_readbin (fun _ => none) (t_pd.netsend_class datagram_sample)
      4 recv_sample none
      = some (t_pd.netsend_class datagram_sample,
          [Event.outlet_list (some t_outlet.x_msgout)
            [t_atom.A_FLOAT 1, t_atom.A_FLOAT 2]]) := by
    decide
  rw [h0] at h
  have hevs := (Prod.mk.inj (Option.some.inj h)).2
  rw [← hevs] at hev
  revert hev
  decide

/-- C6 (amended): a binary read that succeeds with the bytes `b`, at least
one, each below 256, returns and leaves the object as it was; on a stream
socket the data outlet gets one numeric message per byte, equal to the byte,
in arrival order, and on a datagram socket it gets one list message holding
those numbers in arrival order. -/
theorem netsend_readbin_emits_bytes (addrstr : sockaddr_storage → Option String)
    (x : t_pd) (fd : Int) (r : t_recv) (getpeername : Option sockaddr_storage)
    (b : List t_byte) (hb : b ≠ []) (hbytes : ∀ v ∈ b, v < 256)
    (hret : r.ret = b.length) (hbuf : r.inbuf.take b.length = b)
    (hmsg : x.ns.x_msgout = some t_outlet.x_msgout)
    (hfrom : x.ns.x_fromout ≠ some t_outlet.x_msgout) :
    ∃ ev, netsend_readbin addrstr x fd r getpeername = some (x, ev) ∧
      ev.filter (Event.on t_outlet.x_msgout)
        = if x.ns.x_protocol = t_socktype.SOCK_DGRAM then
            [Event.outlet_list (some t_outlet.x_msgout)
              (b.map (fun (v : t_byte) => t_atom.A_FLOAT (v : t_float)))]
          else b.map (fun (v : t_byte) => Event.outlet_float
              (some t_outlet.x_msgout) (v : t_float)) := by
  have hmsg2 : x.ns.x_msgout ≠ none := by rw [hmsg]; simp
  by_cases hp : x.ns.x_protocol = t_socktype.SOCK_DGRAM
  · refine ⟨_, readbin_datagram addrstr x fd r getpeername b hb hbytes hret hbuf
      hmsg2 hp, ?_⟩
    rw [if_pos hp, List.filter_append, hmsg]
    have haddr : (if x.ns.x_fromout ≠ none then
        outlet_sockaddr addrstr x.ns.x_fromout r.fromaddr else []).filter
          (Event.on t_outlet.x_msgout) = [] := by
      split
      · exact outlet_sockaddr_filter _ _ _ _ hfrom
      · rfl
    rw [haddr]
    simp [Event.on]
  · refine ⟨_, readbin_stream addrstr x fd r getpeername b hb hbytes hret hbuf
      hmsg2 hp, ?_⟩
    rw [if_neg hp, List.filter_append, hmsg,
      stream_addr_filter addrstr _ getpeername _ hfrom, floats_filter, List.nil_append]

/-- The witness for C6: the datagram with the bytes 1 and 2. -/
theorem netsend_readbin_emits_bytes_witness :
    ∃ ev, netsend_readbin (fun _ => none) (t_pd.netsend_class datagram_sample) 4
        recv_sample none = some (t_pd.netsend_class datagram_sample, ev) ∧
      ev.filter (Event.on t_outlet.x_msgout)
        = if (t_pd.netsend_class datagram_sample).ns.x_protocol
              = t_socktype.SOCK_DGRAM then
            [Event.outlet_list (some t_outlet.x_msgout)
              ([1, 2].map (fun (v : t_byte) => t_atom.A_FLOAT (v : t_float)))]
          else [1, 2].map (fun (v : t_byte) => Event.outlet_float
              (some t_outlet.x_msgout) (v : t_float)) :=
  netsend_readbin_emits_bytes (fun _ => none) (t_pd.netsend_class datagram_sample)
    4 recv_sample none [1, 2] (by decide) (by decide) (by decide) (by decide)
    (by decide) (by decide)

/-- The removal step frees receivers and does nothing else to the world. -/
theorem remove_events (x : t_netreceive) (i : Nat) :
    ∀ e ∈ (netreceive_notify_remove x i).2, ∃ y, e = Event.socketreceiver_free y := by
  intro e he
  simp only [netreceive_notify_remove] at he
  split at he
  · rename_i y _
    exact ⟨y, by simpa using he⟩
  · simp at he

/-- The loop of `netreceive_notify` returns whenever it has fuel for every
index left, keeps the sender part, and only frees receivers. -/
theorem notify_loop_total (fd : Int) : ∀ (fuel i : Nat) (x : t_netreceive),
    x.x_nconnections - i ≤ fuel →
    ∃ x2 ev, netreceive_notify_loop fd fuel i x = some (x2, ev) ∧
      x2.x_ns = x.x_ns ∧ ∀ e ∈ ev, ∃ y, e = Event.socketreceiver_free y := by
  intro fuel
  induction fuel with
  | zero =>
    intro i x hf
    refine ⟨x, [], ?_, rfl, by simp⟩
    unfold netreceive_notify_loop
    rw [if_neg (by omega)]
  | succ fuel ih =>
    intro i x hf
    unfold netreceive_notify_loop
    by_cases hi : i < x.x_nconnections
    · rw [if_pos hi]
      simp only
      by_cases hfd : x.x_connections.getD i 0 = fd
      · rw [if_pos hfd]
        have hn : (netreceive_notify_remove x i).1.x_nconnections
            = x.x_nconnections - 1 := rfl
        obtain ⟨x2, ev, hloop, hns, hev⟩ :=
          ih (i + 1) (netreceive_notify_remove x i).1 (by rw [hn]; omega)
        rw [hloop]
        refine ⟨x2, (netreceive_notify_remove x i).2 ++ ev, rfl, hns, ?_⟩
        intro e he
        rcases List.mem_append.mp he with h | h
        · exact remove_events x i e h
        · exact hev e h
      · rw [if_neg hfd]
        exact ih (i + 1) x (by omega)
    · rw [if_neg hi]
      exact ⟨x, [], rfl, rfl, by simp⟩

/-- The function `netreceive_notify` returns on every registry, and what it
sends to outlets goes to the connection-status outlet. -/
theorem netreceive_notify_total (x : t_netreceive) (fd : Int) (o : t_outlet)
    (ho : x.x_ns.x_connectout ≠ some o) :
    ∃ x2 ev, netreceive_notify x fd = some (x2, ev) ∧ ev.filter (Event.on o) = [] := by
  obtain ⟨x2, ev, hloop, hns, hev⟩ :=
    notify_loop_total fd x.x_nconnections 0 x (by omega)
  unfold netreceive_notify
  rw [hloop]
  refine ⟨_, _, rfl, ?_⟩
  rw [List.filter_append, hns]
  have h1 : ev.filter (Event.on o) = [] := by
    rw [List.filter_eq_nil_iff]
    intro e he
    obtain ⟨y, hy⟩ := hev e he
    subst hy
    simp [Event.on]
  rw [h1]
  simp [Event.on, ho]

/-- A whole number below 256 is stored into the byte unchanged. -/
theorem float_to_byte_cast (v : Nat) (hv : v < 256) :
    (float_to_int (v : t_float) % 256).toNat = v := by
  have h : float_to_int (v : t_float) = (v : Int) := by
    simp only [float_to_int, Rat.num_natCast, Rat.den_natCast, Nat.cast_one,
      Int.tdiv_one]
    rw [if_pos (by omega)]
  rw [h]
  omega

/-- The binary buffer built from a list of whole numbers below 256 holds
those numbers. -/
theorem dosend_bytes_cast (vals : List t_byte) (hvals : ∀ v ∈ vals, v < 256) :
    netsend_dosend_bytes (vals.map (fun (v : t_byte) => t_atom.A_FLOAT (v : t_float)))
      = vals := by
  unfold netsend_dosend_bytes
  apply List.ext_getElem
  · simp
  · intro i h1 h2
    simp only [List.getElem_map, List.getElem_range, atom_getfloatarg,
      List.getElem?_map, List.getElem?_eq_getElem h2, Option.map_some']
    exact float_to_byte_cast _ (hvals _ (List.getElem_mem _))

/-- C7: for every list `vals` of whole numbers below 256, sent as a message
of numbers, the binary buffer of `netsend_dosend` is `vals` itself (one byte
per element, byte `i` equal to element `i`), and a stream object that reads
those bytes with `netsend_readbin` returns and emits on its data outlet the
same numbers as scalar messages in the same order. -/
theorem binary_roundtrip (addrstr : sockaddr_storage → Option String)
    (x : t_pd) (fd : Int) (fromaddr : sockaddr_storage)
    (getpeername : Option sockaddr_storage) (vals : List t_byte)
    (hvals : ∀ v ∈ vals, v < 256)
    (hstream : x.ns.x_protocol = t_socktype.SOCK_STREAM)
    (hmsg : x.ns.x_msgout = some t_outlet.x_msgout)
    (hfrom : x.ns.x_fromout ≠ some t_outlet.x_msgout)
    (hconn : x.ns.x_connectout ≠ some t_outlet.x_msgout) :
    netsend_dosend_bytes (vals.map (fun (v : t_byte) => t_atom.A_FLOAT (v : t_float)))
      = vals ∧
    ∃ x2 ev, netsend_readbin addrstr x fd
        { ret := vals.length,
          inbuf := netsend_dosend_bytes
            (vals.map (fun (v : t_byte) => t_atom.A_FLOAT (v : t_float))),
          fromaddr := fromaddr } getpeername = some (x2, ev) ∧
      ev.filter (Event.on t_outlet.x_msgout)
        = vals.map (fun (v : t_byte) => Event.outlet_float (some t_outlet.x_msgout)
            (v : t_float)) := by
  refine ⟨dosend_bytes_cast vals hvals, ?_⟩
  rw [dosend_bytes_cast vals hvals]
  by_cases hnil : vals = []
  · subst hnil
    unfold netsend_readbin
    rw [if_neg (by rw [hmsg]; simp), if_pos (by simp)]
    cases x with
    | netsend_class xs =>
      exact ⟨_, _, rfl, by simp [Event.on]⟩
    | netreceive_class xr =>
      obtain ⟨x2, ev2, hnot, hev2⟩ :=
        netreceive_notify_total xr fd t_outlet.x_msgout hconn
      simp only [hnot]
      refine ⟨_, _, rfl, ?_⟩
      rw [List.filter_append, hev2]
      simp [Event.on]
  · have hread := readbin_stream addrstr x fd
      { ret := vals.length, inbuf := vals, fromaddr := fromaddr } getpeername vals
      hnil hvals rfl (by simp) (by rw [hmsg]; simp) (by rw [hstream]; decide)
    refine ⟨x, _, hread, ?_⟩
    rw [List.filter_append, hmsg, stream_addr_filter addrstr _ getpeername _ hfrom,
      floats_filter, List.nil_append]

/-- The witness for C7: the list 1, 2, 3 read by a binary stream receiver. -/
theorem binary_roundtrip_witness :
    netsend_dosend_bytes ([1, 2, 3].map (fun (v : t_byte) => t_atom.A_FLOAT (v : t_float)))
      = [1, 2, 3] ∧
    ∃ x2 ev, netsend_readbin (fun _ => none)
        (t_pd.netreceive_class binary_registry_sample) 10
        { ret := ([1, 2, 3] : List t_byte).length,
          inbuf := netsend_dosend_bytes
            ([1, 2, 3].map (fun (v : t_byte) => t_atom.A_FLOAT (v : t_float))),
          fromaddr := sockaddr_storage.zero } none = some (x2, ev) ∧
      ev.filter (Event.on t_outlet.x_msgout)
        = [1, 2, 3].map (fun (v : t_byte) => Event.outlet_float
            (some t_outlet.x_msgout) (v : t_float)) :=
  binary_roundtrip (fun _ => none) (t_pd.netreceive_class binary_registry_sample) 10
    sockaddr_storage.zero none [1, 2, 3] (by decide) (by decide) (by decide)
    (by decide) (by decide)

/-! ## The send loop (`netsend_dosend`, `netsend_send`, `netsend_disconnect`) -/

/-- The write calls of two traces put together. -/
theorem writes_append : ∀ (a b : List Event), writes (a ++ b) = writes a ++ writes b := by
  intro a b
  induction a with
  | nil => rfl
  | cons e a ih =>
    cases e <;> simp [writes, ih]

/-- The blocked-time bookkeeping makes no write call. -/
theorem writes_warn (w : t_warn) (o : t_write) :
    writes (netsend_dosend_warn w o).2 = [] := by
  unfold netsend_dosend_warn
  simp only
  split
  · split
    · rfl
    · split <;> rfl
  · rfl

/-- Disconnecting makes no write call. -/
theorem writes_disconnect (x : t_netsend) : writes (netsend_disconnect x).2 = [] := by
  unfold netsend_disconnect
  split
  · cases x.x_receiver <;> rfl
  · rfl

/-- The write calls of one round of the loop followed by the rest. -/
theorem writes_round (x : t_netsend) (sockfd : Int) (offered : List t_byte)
    (res : Int) (warn rest : List Event) (hwarn : writes warn = []) :
    writes ((if x.x_protocol = t_socktype.SOCK_DGRAM then
        Event.sendto sockfd offered x.x_server res
      else Event.send sockfd offered res) :: warn ++ rest)
      = (offered, res) :: writes rest := by
  split <;> simp [writes, writes_append, hwarn]

/-- The accepted chunks of writes that are each offered the unsent bytes make
up those bytes. -/
theorem accepted_flatten : ∀ (ws : List (List t_byte × Int)) (unsent : List t_byte),
    offers_unsent unsent ws = true → (accepted ws).flatten = unsent := by
  intro ws
  induction ws with
  | nil =>
    intro unsent h
    simp [offers_unsent] at h
    simp [accepted, h]
  | cons c ws ih =>
    intro unsent h
    obtain ⟨buf, res⟩ := c
    simp only [offers_unsent, Bool.and_eq_true, decide_eq_true_eq] at h
    have hrest := ih _ h.2
    simp only [accepted, List.map_cons, List.flatten_cons] at hrest ⊢
    rw [hrest, h.1, List.take_append_drop]

/-- With a transport that takes at least one byte of what it is offered and
never more than that, the send loop runs to the end of the buffer. -/
theorem dosend_loop_flushes (x : t_netsend) (sockfd : Int)
    (io : Nat → List t_byte → t_write) (buf : List t_byte)
    (hio : ∀ k bytes, bytes ≠ [] →
      1 ≤ (io k bytes).res ∧ (io k bytes).res ≤ bytes.length) :
    ∀ (fuel k sent : Nat) (w : t_warn), sent ≤ buf.length →
      buf.length - sent ≤ fuel →
      ∃ w2 ev, netsend_dosend_loop x sockfd io buf buf.length fuel k sent w
          = some (false, w2, ev) ∧
        offers_unsent (buf.drop sent) (writes ev) = true ∧
        ((writes ev).map Prod.snd).sum = ((buf.length - sent : Nat) : Int) := by
  intro fuel
  induction fuel with
  | zero =>
    intro k sent w hs hf
    have he : sent = buf.length := by omega
    subst he
    unfold netsend_dosend_loop
    rw [if_neg (by omega)]
    exact ⟨w, [], rfl, by simp [writes, offers_unsent], by simp [writes]⟩
  | succ fuel ih =>
    intro k sent w hs hf
    unfold netsend_dosend_loop
    by_cases hlt : sent < buf.length
    · rw [if_pos hlt]
      simp only
      have hoff : (buf.drop sent).take (buf.length - sent) = buf.drop sent := by
        apply List.take_of_length_le
        simp
      rw [hoff]
      have hne : buf.drop sent ≠ [] := by
        intro h
        have := congrArg List.length h
        simp at this
        omega
      obtain ⟨h1, h2⟩ := hio k (buf.drop sent) hne
      have h2b : (io k (buf.drop sent)).res ≤ (buf.length - sent : Nat) := by
        simpa using h2
      rw [if_neg (by omega)]
      obtain ⟨w2, ev, hloop, hoffers, hsum⟩ := ih (k + 1)
        (sent + (io k (buf.drop sent)).res.toNat)
        (netsend_dosend_warn w (io k (buf.drop sent))).1 (by omega) (by omega)
      rw [hloop]
      refine ⟨w2, _, rfl, ?_, ?_⟩
      · rw [writes_round x sockfd _ _ _ _ (writes_warn _ _)]
        simp only [offers_unsent, Bool.and_eq_true, decide_eq_true_eq]
        refine ⟨trivial, ?_⟩
        rw [List.drop_drop]
        exact hoffers
      · rw [writes_round x sockfd _ _ _ _ (writes_warn _ _)]
        simp only [List.map_cons, List.sum_cons, hsum]
        omega
    · rw [if_neg hlt]
      have he : sent = buf.length := by omega
      subst he
      exact ⟨w, [], rfl, by simp [writes, offers_unsent], by simp [writes]⟩

/-- C8: for every buffer and every transport that at each write takes at
least one and at most all of the bytes it is offered, the send loop of
`netsend_dosend` returns with `fail = 0`, each write was offered exactly the
bytes still unsent and none is left, the accepted chunks in call order make up
the buffer, and the return values add up to its length. -/
theorem netsend_dosend_flushes (x : t_netsend) (sockfd : Int)
    (io : Nat → List t_byte → t_write) (buf : List t_byte) (w : t_warn)
    (hio : ∀ k bytes, bytes ≠ [] →
      1 ≤ (io k bytes).res ∧ (io k bytes).res ≤ bytes.length) :
    ∃ w2 ev, netsend_dosend_loop x sockfd io buf buf.length buf.length 0 0 w
        = some (false, w2, ev) ∧
      offers_unsent buf (writes ev) = true ∧
      (accepted (writes ev)).flatten = buf ∧
      ((writes ev).map Prod.snd).sum = (buf.length : Int) := by
  obtain ⟨w2, ev, hloop, hoffers, hsum⟩ :=
    dosend_loop_flushes x sockfd io buf hio buf.length 0 0 w (Nat.zero_le _) (by omega)
  rw [List.drop_zero] at hoffers
  exact ⟨w2, ev, hloop, hoffers, accepted_flatten _ _ hoffers, by simpa using hsum⟩

/-- The witness for C8: three bytes through a transport that takes one byte
per write. -/
theorem netsend_dosend_flushes_witness :
    ∃ w2 ev, netsend_dosend_loop sender_sample 5 one_byte_io [49, 59, 10]
        ([49, 59, 10] : List t_byte).length ([49, 59, 10] : List t_byte).length 0 0
        ⟨0, 0⟩ = some (false, w2, ev) ∧
      offers_unsent [49, 59, 10] (writes ev) = true ∧
      (accepted (writes ev)).flatten = [49, 59, 10] ∧
      ((writes ev).map Prod.snd).sum = (([49, 59, 10] : List t_byte).length : Int) :=
  netsend_dosend_flushes sender_sample 5 one_byte_io [49, 59, 10] ⟨0, 0⟩
    (fun _ bytes hne => ⟨le_refl _, by
      have : 0 < bytes.length := List.length_pos.mpr hne
      simp only [one_byte_io]
      omega⟩)

/-- The send loop returns for every transport once it has fuel for every
unsent byte; it fails exactly when a write returned a value that is not
positive, and such a write is the last one made. -/
theorem dosend_loop_total (x : t_netsend) (sockfd : Int)
    (io : Nat → List t_byte → t_write) (buf : List t_byte) (length : Nat) :
    ∀ (fuel k sent : Nat) (w : t_warn), length - sent ≤ fuel →
      ∃ fail w2 ev, netsend_dosend_loop x sockfd io buf length fuel k sent w
          = some (fail, w2, ev) ∧
        (fail = true ↔ ∃ c ∈ writes ev, c.2 ≤ 0) ∧
        (∀ pre c post, writes ev = pre ++ c :: post → c.2 ≤ 0 → post = []) := by
  intro fuel
  induction fuel with
  | zero =>
    intro k sent w hf
    unfold netsend_dosend_loop
    rw [if_neg (by omega)]
    exact ⟨false, w, [], rfl, by simp [writes], by simp [writes]⟩
  | succ fuel ih =>
    intro k sent w hf
    unfold netsend_dosend_loop
    by_cases hlt : sent < length
    · rw [if_pos hlt]
      simp only
      by_cases hres : (io k ((buf.drop sent).take (length - sent))).res ≤ 0
      · rw [if_pos hres]
        refine ⟨true, _, _, rfl, ?_, ?_⟩
        · rw [writes_round x sockfd _ _ _ _ (writes_warn _ _)]
          simp [writes, hres]
        · rw [writes_round x sockfd _ _ _ _ (writes_warn _ _)]
          intro pre c post h _
          have hl := congrArg List.length h
          simp [writes] at hl
          exact List.length_eq_zero.mp (by omega)
      · rw [if_neg hres]
        obtain ⟨fail, w2, ev, hloop, hfail, hlast⟩ := ih (k + 1)
          (sent + (io k ((buf.drop sent).take (length - sent))).res.toNat)
          (netsend_dosend_warn w (io k ((buf.drop sent).take (length - sent)))).1
          (by omega)
        rw [hloop]
        refine ⟨fail, w2, _, rfl, ?_, ?_⟩
        · rw [writes_round x sockfd _ _ _ _ (writes_warn _ _), hfail]
          constructor
          · intro ⟨c, hc, hle⟩
            exact ⟨c, List.mem_cons_of_mem _ hc, hle⟩
          · intro ⟨c, hc, hle⟩
            rcases List.mem_cons.mp hc with h | h
            · subst h
              exact absurd hle hres
            · exact ⟨c, h, hle⟩
        · rw [writes_round x sockfd _ _ _ _ (writes_warn _ _)]
          intro pre c post h hle
          cases pre with
          | nil =>
            simp only [List.nil_append, List.cons.injEq] at h
            rw [← h.1] at hle
            exact absurd hle hres
          | cons p pre2 =>
            simp only [List.cons_append, List.cons.injEq] at h
            exact hlast pre2 c post h.2 hle
    · rw [if_neg hlt]
      exact ⟨false, w, [], rfl, by simp [writes], by simp [writes]⟩

/-- A transport that accepts `rs` bytes write by write, less than the whole
buffer, and then refuses a write: the send loop makes exactly those writes,
each offered the bytes still unsent, reports the error and fails. -/
theorem dosend_loop_fails (x : t_netsend) (sockfd : Int)
    (io : Nat → List t_byte → t_write) (buf : List t_byte) :
    ∀ (rs : List Nat) (fuel k sent : Nat) (w : t_warn),
      sent + rs.sum < buf.length → buf.length - sent ≤ fuel →
      (∀ j, j < rs.length →
        (io (k + j) (buf.drop (sent + (rs.take j).sum))).res = ((rs.getD j 0 : Nat) : Int)
          ∧ 0 < rs.getD j 0) →
      (io (k + rs.length) (buf.drop (sent + rs.sum))).res ≤ 0 →
      ∃ w2 ev, netsend_dosend_loop x sockfd io buf buf.length fuel k sent w
          = some (true, w2, ev ++ [Event.sys_sockerror "send"]) ∧
        writes ev = (List.range (rs.length + 1)).map (fun j =>
          (buf.drop (sent + (rs.take j).sum),
           (io (k + j) (buf.drop (sent + (rs.take j).sum))).res)) := by
  intro rs
  induction rs with
  | nil =>
    intro fuel k sent w hin hfuel _ hfail
    simp only [List.sum_nil, Nat.add_zero, List.length_nil] at hin hfail
    have hoff : (buf.drop sent).take (buf.length - sent) = buf.drop sent := by
      apply List.take_of_length_le
      simp
    cases fuel with
    | zero => omega
    | succ f =>
      unfold netsend_dosend_loop
      rw [if_pos hin]
      simp only [hoff]
      rw [if_pos hfail]
      refine ⟨_, _ :: (netsend_dosend_warn w (io k (buf.drop sent))).2, rfl, ?_⟩
      have := writes_round x sockfd (buf.drop sent) (io k (buf.drop sent)).res
        (netsend_dosend_warn w (io k (buf.drop sent))).2 [] (writes_warn _ _)
      rw [List.append_nil] at this
      rw [this]
      simp [writes, List.range_succ]
  | cons r rs ih =>
    intro fuel k sent w hin hfuel hok hfail
    simp only [List.sum_cons, List.length_cons] at hin hfail
    have hlt : sent < buf.length := by omega
    have hoff : (buf.drop sent).take (buf.length - sent) = buf.drop sent := by
      apply List.take_of_length_le
      simp
    obtain ⟨h0, hr⟩ := hok 0 (by simp)
    simp only [Nat.add_zero, List.take_zero, List.sum_nil, List.getD_cons_zero] at h0 hr
    cases fuel with
    | zero => omega
    | succ f =>
      obtain ⟨w2, ev, hloop, hwrites⟩ := ih f (k + 1) (sent + r)
        (netsend_dosend_warn w (io k (buf.drop sent))).1 (by omega) (by omega)
        (by
          intro j hj
          have := hok (j + 1) (by simp only [List.length_cons]; omega)
          simp only [List.take_succ_cons, List.sum_cons, List.getD_cons_succ] at this
          have e1 : k + 1 + j = k + (j + 1) := by omega
          have e2 : sent + r + (rs.take j).sum = sent + (r + (rs.take j).sum) := by omega
          rw [e1, e2]
          exact this)
        (by
          have e1 : k + 1 + rs.length = k + (rs.length + 1) := by omega
          have e2 : sent + r + rs.sum = sent + (r + rs.sum) := by omega
          rw [e1, e2]
          exact hfail)
      unfold netsend_dosend_loop
      rw [if_pos hlt]
      simp only [hoff]
      rw [if_neg (by rw [h0]; omega)]
      have htonat : (io k (buf.drop sent)).res.toNat = r := by rw [h0]; simp
      rw [htonat, hloop]
      refine ⟨w2,
        (if x.x_protocol = t_socktype.SOCK_DGRAM then
          Event.sendto sockfd (buf.drop sent) x.x_server (io k (buf.drop sent)).res
        else Event.send sockfd (buf.drop sent) (io k (buf.drop sent)).res) ::
          (netsend_dosend_warn w (io k (buf.drop sent))).2 ++ ev,
        by simp, ?_⟩
      have := writes_round x sockfd (buf.drop sent) (io k (buf.drop sent)).res
        (netsend_dosend_warn w (io k (buf.drop sent))).2 ev (writes_warn _ _)
      rw [this, hwrites]
      simp only [List.length_cons]
      rw [List.range_succ_eq_map (rs.length + 1)]
      simp only [List.map_cons, List.map_map, List.take_zero, List.sum_nil, Nat.add_zero]
      congr 1
      apply List.map_congr_left
      intro j _
      simp only [Function.comp, List.take_succ_cons, List.sum_cons]
      have e1 : k + 1 + j = k + (j + 1) := by omega
      have e2 : sent + r + (rs.take j).sum = sent + (r + (rs.take j).sum) := by omega
      rw [e1, e2]

/-- The function `netsend_send` on a connected sender returns for every
message and every transport, and if some write of it returned a value that is not
positive, then that write is the last one made, the sender ends with
`x_sockfd = -1`, no receiver and the address cleared, and the trace ends with
the descriptor taken off the poll list and closed, the receiver (if there was
one) freed, and 0 sent to the connection-status outlet. -/
theorem send_returns (binbuf_gettext : List t_atom → List t_byte)
    (io : Nat → List t_byte → t_write) (x : t_netsend) (s : String)
    (argv : List t_atom) (w : t_warn) (hconn : 0 ≤ x.x_sockfd) :
    ∃ x2 w2 ev, netsend_send binbuf_gettext io x s argv w = some (x2, w2, ev) ∧
      ((∃ c ∈ writes ev, c.2 ≤ 0) →
        (∀ pre c post, writes ev = pre ++ c :: post → c.2 ≤ 0 → post = []) ∧
        x2.x_sockfd = -1 ∧ x2.x_receiver = none ∧
        x2.x_server = sockaddr_storage.zero ∧
        ∃ ev1, ev = ev1 ++
          ([Event.sys_rmpollfn x.x_sockfd, Event.sys_closesocket x.x_sockfd] ++
           (match x.x_receiver with
            | some y => [Event.socketreceiver_free y]
            | none => []) ++
           [Event.outlet_float x.ob_outlet 0])) := by
  obtain ⟨fail, w2, ev, hdo, hfail, hlast⟩ := dosend_loop_total x x.x_sockfd io
    (if x.x_bin then netsend_dosend_bytes argv
      else binbuf_gettext (netsend_dosend_binbuf argv))
    (if x.x_bin then netsend_dosend_bytes argv
      else binbuf_gettext (netsend_dosend_binbuf argv)).length
    (if x.x_bin then netsend_dosend_bytes argv
      else binbuf_gettext (netsend_dosend_binbuf argv)).length 0 0 w (by omega)
  have hsend : netsend_dosend binbuf_gettext io x x.x_sockfd s argv w
      = some (fail, w2, ev) := hdo
  have hdis : netsend_disconnect x
      = ({ x with x_sockfd := -1, x_receiver := none,
                  x_server := sockaddr_storage.zero },
         [Event.sys_rmpollfn x.x_sockfd, Event.sys_closesocket x.x_sockfd] ++
         (match x.x_receiver with
          | some y => [Event.socketreceiver_free y]
          | none => []) ++
         [Event.outlet_float x.ob_outlet 0]) := by
    unfold netsend_disconnect
    rw [if_pos hconn]
  unfold netsend_send
  rw [if_pos hconn, hsend]
  simp only
  cases fail with
  | true =>
    simp only [if_true]
    refine ⟨_, _, _, rfl, ?_⟩
    intro _
    rw [writes_append, writes_disconnect, List.append_nil, hdis]
    exact ⟨hlast, rfl, rfl, rfl, ev, rfl⟩
  | false =>
    refine ⟨x, w2, ev, by simp, ?_⟩
    intro h
    have := hfail.mpr h
    exact absurd this (by simp)

/-- C9: take a connected sender, a message, and a transport that accepts
`rs` bytes write by write, less than the whole serialized message, and then
returns a value `<= 0`.  Then `netsend_send` returns; the writes of its trace
are exactly those `rs.length + 1` writes, each offered the bytes still unsent,
so none follows the failed one; the sender ends with `x_sockfd = -1`, no
receiver and the address cleared; and after the error report the trace ends
with the descriptor taken off the poll list and closed, the receiver (if there
was one) freed, and 0 sent to the connection-status outlet. -/
theorem netsend_send_write_failure (binbuf_gettext : List t_atom → List t_byte)
    (io : Nat → List t_byte → t_write) (x : t_netsend) (s : String)
    (argv : List t_atom) (w : t_warn) (rs : List Nat)
    (hconn : 0 ≤ x.x_sockfd)
    (hin : rs.sum < (serialized binbuf_gettext x argv).length)
    (hok : ∀ j, j < rs.length →
      (io j ((serialized binbuf_gettext x argv).drop (rs.take j).sum)).res
          = ((rs.getD j 0 : Nat) : Int) ∧ 0 < rs.getD j 0)
    (hfail : (io rs.length ((serialized binbuf_gettext x argv).drop rs.sum)).res ≤ 0) :
    ∃ w2 ev ev1, netsend_send binbuf_gettext io x s argv w
        = some ({ x with x_sockfd := -1, x_receiver := none,
                         x_server := sockaddr_storage.zero }, w2, ev) ∧
      writes ev = (List.range (rs.length + 1)).map (fun j =>
        ((serialized binbuf_gettext x argv).drop (rs.take j).sum,
         (io j ((serialized binbuf_gettext x argv).drop (rs.take j).sum)).res)) ∧
      ev = ev1 ++ [Event.sys_sockerror "send"] ++
        ([Event.sys_rmpollfn x.x_sockfd, Event.sys_closesocket x.x_sockfd] ++
         (match x.x_receiver with
          | some y => [Event.socketreceiver_free y]
          | none => []) ++
         [Event.outlet_float x.ob_outlet 0]) := by
  obtain ⟨w2, ev1, hloop, hwrites⟩ := dosend_loop_fails x x.x_sockfd io
    (serialized binbuf_gettext x argv) rs (serialized binbuf_gettext x argv).length 0 0 w
    (by omega) (by omega)
    (by
      intro j hj
      simp only [Nat.zero_add]
      exact hok j hj)
    (by
      simp only [Nat.zero_add]
      exact hfail)
  simp only [Nat.zero_add] at hwrites
  have hsend : netsend_dosend binbuf_gettext io x x.x_sockfd s argv w
      = some (true, w2, ev1 ++ [Event.sys_sockerror "send"]) := hloop
  have hdis : netsend_disconnect x
      = ({ x with x_sockfd := -1, x_receiver := none,
                  x_server := sockaddr_storage.zero },
         [Event.sys_rmpollfn x.x_sockfd, Event.sys_closesocket x.x_sockfd] ++
         (match x.x_receiver with
          | some y => [Event.socketreceiver_free y]
          | none => []) ++
         [Event.outlet_float x.ob_outlet 0]) := by
    unfold netsend_disconnect
    rw [if_pos hconn]
  refine ⟨w2, _, ev1, ?_, ?_, rfl⟩
  · unfold netsend_send
    rw [if_pos hconn, hsend]
    simp only [if_true]
    rw [hdis]
  · rw [writes_append, writes_append, hwrites]
    have h1 : writes [Event.sys_sockerror "send"] = [] := rfl
    have h2 := writes_disconnect x
    rw [hdis] at h2
    rw [h1, h2, List.append_nil, List.append_nil]

/-- The witness for C9: the second write of the text `1;` fails. -/
theorem netsend_send_write_failure_witness :
    ∃ w2 ev ev1, netsend_send gettext_sample failing_io sender_sample "send"
        [t_atom.A_FLOAT 1] ⟨0, 0⟩
        = some ({ sender_sample with x_sockfd := -1, x_receiver := none,
                                     x_server := sockaddr_storage.zero }, w2, ev) ∧
      writes ev = (List.range (([1] : List Nat).length + 1)).map (fun j =>
        ((serialized gettext_sample sender_sample [t_atom.A_FLOAT 1]).drop
            (([1] : List Nat).take j).sum,
         (failing_io j ((serialized gettext_sample sender_sample
            [t_atom.A_FLOAT 1]).drop (([1] : List Nat).take j).sum)).res)) ∧
      ev = ev1 ++ [Event.sys_sockerror "send"] ++
        ([Event.sys_rmpollfn sender_sample.x_sockfd,
          Event.sys_closesocket sender_sample.x_sockfd] ++
         (match sender_sample.x_receiver with
          | some y => [Event.socketreceiver_free y]
          | none => []) ++
         [Event.outlet_float sender_sample.ob_outlet 0]) :=
  netsend_send_write_failure gettext_sample failing_io sender_sample "send"
    [t_atom.A_FLOAT 1] ⟨0, 0⟩ [1] (by decide) (by decide) (by decide) (by decide)

/-- C10: `netsend_disconnect` on a sender without socket (`x_sockfd < 0`)
returns the sender unchanged and does nothing to the world; hence, from any
state, a second disconnect right after a first leaves the state of the first
and adds nothing to its trace. -/
theorem netsend_disconnect_idempotent (x : t_netsend) :
    (x.x_sockfd < 0 → netsend_disconnect x = (x, [])) ∧
    (netsend_disconnect (netsend_disconnect x).1).1 = (netsend_disconnect x).1 ∧
    (netsend_disconnect x).2 ++ (netsend_disconnect (netsend_disconnect x).1).2
      = (netsend_disconnect x).2 := by
  have hidle : ∀ y : t_netsend, y.x_sockfd < 0 → netsend_disconnect y = (y, []) := by
    intro y hy
    unfold netsend_disconnect
    rw [if_neg (by omega)]
  have hafter : (netsend_disconnect x).1.x_sockfd < 0 := by
    unfold netsend_disconnect
    split
    · show (-1 : Int) < 0
      omega
    · simp only
      omega
  refine ⟨hidle x, ?_, ?_⟩
  · rw [hidle _ hafter]
  · rw [hidle _ hafter, List.append_nil]

/-- The witness for C10: a sender that was never connected. -/
theorem netsend_disconnect_idempotent_witness :
    idle_sender_sample.x_sockfd < 0 ∧
    netsend_disconnect idle_sender_sample = (idle_sender_sample, []) :=
  ⟨by decide, (netsend_disconnect_idempotent idle_sender_sample).1 (by decide)⟩

/-! ## Read failure (`netsend_readbin`) and accept (`netreceive_connectpoll`) -/

/-- C11: a binary stream sender connected on descriptor 5 whose read returns
0 has the descriptor taken off the poll list and closed, but the sender itself
is left untouched: `x_sockfd` is still 5 and the address is still stored.  A
later disconnect therefore takes descriptor 5 off the poll list and closes it
a second time. -/
theorem netsend_readbin_leaves_sender_connected :
    netsend_readbin (fun _ => none) (t_pd.netsend_class binary_sender_sample) 5
        recv_zero_sample none
      = some (t_pd.netsend_class binary_sender_sample,
          [Event.sys_rmpollfn 5, Event.sys_closesocket 5]) ∧
    binary_sender_sample.x_sockfd = 5 ∧
    binary_sender_sample.x_server ≠ sockaddr_storage.zero ∧
    (netsend_disconnect binary_sender_sample).2
      = [Event.sys_rmpollfn 5, Event.sys_closesocket 5,
         Event.outlet_float (some t_outlet.ob_outlet) 0] := by
  decide

/-- C20: a binary datagram receiver, as `netreceive_new` builds it from
`-u -b 3000`, has no connection-status outlet; when its read returns 0,
`netsend_readbin` ends with `netreceive_notify` calling `outlet_float` on the
null outlet pointer. -/
theorem netreceive_notify_emits_on_null_outlet :
    (netreceive_new [t_atom.A_SYMBOL "-u", t_atom.A_SYMBOL "-b", t_atom.A_FLOAT 3000]
        listen_datagram_sample).1 = datagram_receiver_sample ∧
    datagram_receiver_sample.x_ns.x_connectout = none ∧
    netsend_readbin (fun _ => none)
        (t_pd.netreceive_class datagram_receiver_sample) 4 recv_zero_sample none
      = some (t_pd.netreceive_class datagram_receiver_sample,
          [Event.sys_rmpollfn 4, Event.sys_closesocket 4,
           Event.outlet_float none 0]) := by
  decide

/-- Growing a full array by one slot and storing into the new slot appends. -/
theorem resize_set_append {α : Type} (zero v : α) (a : List α) (n : Nat)
    (hlen : a.length = n) :
    (t_resizebytes zero a n (n + 1)).set n v = a ++ [v] := by
  unfold t_resizebytes
  rw [List.take_of_length_le (by omega)]
  have h1 : n + 1 - n = 1 := by omega
  rw [h1]
  subst hlen
  simp

/-- C17: for a receiver whose registry holds `x_nconnections` descriptors and
that has a connection-status outlet, an accept that returns `fd >= 0` makes
the registry the old one followed by `fd`, raises the count by one, registers
a read callback for `fd` and sends the new count, and nothing else, to the
connection-status outlet; an accept that fails leaves the object as it was and
sends nothing to that outlet. -/
theorem netreceive_connectpoll_appends (x : t_netreceive) (fd : Int)
    (y : t_socketreceiver)
    (hlen : x.x_connections.length = x.x_nconnections)
    (hout : x.x_ns.x_connectout = some t_outlet.x_connectout) :
    if 0 ≤ fd then
      (netreceive_connectpoll x fd y).1.x_connections = x.x_connections ++ [fd] ∧
      (netreceive_connectpoll x fd y).1.x_nconnections = x.x_nconnections + 1 ∧
      (∃ fn, Event.sys_addpollfn fd fn ∈ (netreceive_connectpoll x fd y).2) ∧
      (netreceive_connectpoll x fd y).2.filter (Event.on t_outlet.x_connectout)
        = [Event.outlet_float (some t_outlet.x_connectout)
            ((x.x_nconnections + 1 : Nat) : t_float)]
    else
      (netreceive_connectpoll x fd y).1 = x ∧
      (netreceive_connectpoll x fd y).2.filter (Event.on t_outlet.x_connectout)
        = [] := by
  by_cases hfd : 0 ≤ fd
  · rw [if_pos hfd]
    have hconns := resize_set_append (0 : Int) fd x.x_connections x.x_nconnections hlen
    unfold netreceive_connectpoll
    rw [if_neg (by omega)]
    cases hb : x.x_ns.x_bin
    · simp only [Bool.false_eq_true, if_false, hconns, hout]
      refine ⟨trivial, trivial, ⟨_, List.mem_cons_self _ _⟩, ?_⟩
      simp [Event.on]
    · simp only [if_true, hconns, hout]
      refine ⟨trivial, trivial, ⟨_, List.mem_cons_self _ _⟩, ?_⟩
      simp [Event.on]
  · rw [if_neg hfd]
    unfold netreceive_connectpoll
    rw [if_pos (by omega)]
    exact ⟨rfl, by simp [Event.on]⟩

/-- The witness for C17: the registry 10, 11, 12 accepts descriptor 13. -/
theorem netreceive_connectpoll_appends_witness :
    if (0 : Int) ≤ 13 then
      (netreceive_connectpoll registry_sample 13 4).1.x_connections
        = registry_sample.x_connections ++ [13] ∧
      (netreceive_connectpoll registry_sample 13 4).1.x_nconnections
        = registry_sample.x_nconnections + 1 ∧
      (∃ fn, Event.sys_addpollfn 13 fn ∈ (netreceive_connectpoll registry_sample 13 4).2) ∧
      (netreceive_connectpoll registry_sample 13 4).2.filter
          (Event.on t_outlet.x_connectout)
        = [Event.outlet_float (some t_outlet.x_connectout)
            ((registry_sample.x_nconnections + 1 : Nat) : t_float)]
    else
      (netreceive_connectpoll registry_sample 13 4).1 = registry_sample ∧
      (netreceive_connectpoll registry_sample 13 4).2.filter
          (Event.on t_outlet.x_connectout) = [] :=
  netreceive_connectpoll_appends registry_sample 13 4 (by decide) (by decide)

/-! ## Broadcast (`netreceive_send`) -/

/-- The addressed write calls of two traces put together. -/
theorem writes_to_append : ∀ (a b : List Event),
    writes_to (a ++ b) = writes_to a ++ writes_to b := by
  intro a b
  induction a with
  | nil => rfl
  | cons e a ih =>
    cases e <;> simp [writes_to, ih]

/-- The transmissions of two traces put together. -/
theorem transmissions_append (buf : List t_byte) (a b : List Event) :
    transmissions buf (a ++ b) = transmissions buf a ++ transmissions buf b := by
  simp [transmissions, writes_to_append]

/-- The blocked-time bookkeeping begins no transmission. -/
theorem writes_to_warn (w : t_warn) (o : t_write) :
    writes_to (netsend_dosend_warn w o).2 = [] := by
  unfold netsend_dosend_warn
  simp only
  split
  · split
    · rfl
    · split <;> rfl
  · rfl

/-- The transmissions of one round of the send loop followed by the rest. -/
theorem transmissions_round (buf : List t_byte) (x : t_netsend) (sockfd : Int)
    (offered : List t_byte) (res : Int) (warn rest : List Event)
    (hwarn : writes_to warn = []) :
    transmissions buf ((if x.x_protocol = t_socktype.SOCK_DGRAM then
        Event.sendto sockfd offered x.x_server res
      else Event.send sockfd offered res) :: warn ++ rest)
      = (if offered = buf then [sockfd] else []) ++ transmissions buf rest := by
  have h : ∀ e : Event, writes_to [e] = [(sockfd, offered)] →
      transmissions buf (e :: warn ++ rest)
        = (if offered = buf then [sockfd] else []) ++ transmissions buf rest := by
    intro e he
    have hsplit : e :: warn ++ rest = [e] ++ (warn ++ rest) := rfl
    rw [hsplit, transmissions_append, transmissions_append]
    simp only [transmissions, he, hwarn]
    by_cases hb : offered = buf <;> simp [hb]
  split
  · exact h _ rfl
  · exact h _ rfl

/-- The send loop on a buffer: it returns, fails exactly when a write returned
a value that is not positive, and offers the whole buffer exactly once, at the
start, if the buffer is not empty. -/
theorem dosend_loop_transmits (x : t_netsend) (sockfd : Int)
    (io : Nat → List t_byte → t_write) (buf : List t_byte) :
    ∀ (fuel k sent : Nat) (w : t_warn), buf.length - sent ≤ fuel →
      ∃ fail w2 ev, netsend_dosend_loop x sockfd io buf buf.length fuel k sent w
          = some (fail, w2, ev) ∧
        (fail = true ↔ ∃ c ∈ writes ev, c.2 ≤ 0) ∧
        (0 < sent → transmissions buf ev = []) ∧
        (sent = 0 → buf ≠ [] → transmissions buf ev = [sockfd]) ∧
        (buf.length ≤ sent → ev = []) := by
  intro fuel
  induction fuel with
  | zero =>
    intro k sent w hf
    unfold netsend_dosend_loop
    rw [if_neg (by omega)]
    refine ⟨false, w, [], rfl, by simp [writes], fun _ => rfl, ?_, fun _ => rfl⟩
    intro hs hne
    have : 0 < buf.length := List.length_pos.mpr hne
    omega
  | succ fuel ih =>
    intro k sent w hf
    unfold netsend_dosend_loop
    by_cases hlt : sent < buf.length
    · rw [if_pos hlt]
      simp only
      have hoff : (buf.drop sent).take (buf.length - sent) = buf.drop sent := by
        apply List.take_of_length_le
        simp
      rw [hoff]
      have hcmp : (buf.drop sent = buf) ↔ sent = 0 := by
        constructor
        · intro h
          have := congrArg List.length h
          simp at this
          omega
        · intro h
          rw [h, List.drop_zero]
      by_cases hres : (io k (buf.drop sent)).res ≤ 0
      · rw [if_pos hres]
        refine ⟨true, _, _, rfl, ?_, ?_, ?_, fun h => absurd h (by omega)⟩
        · rw [writes_round x sockfd _ _ _ _ (writes_warn _ _)]
          simp [writes, hres]
        · intro hs
          rw [transmissions_round buf x sockfd _ _ _ _ (writes_to_warn _ _),
            if_neg (by rw [hcmp]; omega)]
          rfl
        · intro hs _
          rw [transmissions_round buf x sockfd _ _ _ _ (writes_to_warn _ _),
            if_pos (hcmp.mpr hs)]
          rfl
      · rw [if_neg hres]
        obtain ⟨fail, w2, ev, hloop, hfail, hlater, _, _⟩ := ih (k + 1)
          (sent + (io k (buf.drop sent)).res.toNat)
          (netsend_dosend_warn w (io k (buf.drop sent))).1 (by omega)
        have hrest : transmissions buf ev = [] := hlater (by omega)
        rw [hloop]
        refine ⟨fail, w2, _, rfl, ?_, ?_, ?_, fun h => absurd h (by omega)⟩
        · rw [writes_round x sockfd _ _ _ _ (writes_warn _ _), hfail]
          constructor
          · intro ⟨c, hc, hle⟩
            exact ⟨c, List.mem_cons_of_mem _ hc, hle⟩
          · intro ⟨c, hc, hle⟩
            rcases List.mem_cons.mp hc with h | h
            · subst h
              exact absurd hle hres
            · exact ⟨c, h, hle⟩
        · intro hs
          rw [transmissions_round buf x sockfd _ _ _ _ (writes_to_warn _ _),
            if_neg (by rw [hcmp]; omega), hrest]
          rfl
        · intro hs _
          rw [transmissions_round buf x sockfd _ _ _ _ (writes_to_warn _ _),
            if_pos (hcmp.mpr hs), hrest]
          rfl
    · rw [if_neg hlt]
      refine ⟨false, w, [], rfl, by simp [writes], fun _ => rfl, ?_, fun _ => rfl⟩
      intro hs hne
      have : 0 < buf.length := List.length_pos.mpr hne
      omega

/-- The loop of `netreceive_send` returns; it begins one transmission per
round, to the descriptor at the round's index, it makes no write at all when
the buffer is empty, and every round with a failed write is reported. -/
theorem receive_send_loop_trace (binbuf_gettext : List t_atom → List t_byte)
    (io : Nat → Nat → List t_byte → t_write) (x : t_netreceive) (s : String)
    (argv : List t_atom) :
    ∀ (n i : Nat) (w : t_warn), i + n ≤ x.x_connections.length →
      ∃ w2 ev, netreceive_send_loop binbuf_gettext io x s argv n i w = some (w2, ev) ∧
        (serialized binbuf_gettext x.x_ns argv ≠ [] →
          transmissions (serialized binbuf_gettext x.x_ns argv) ev
            = (x.x_connections.drop i).take n) ∧
        (serialized binbuf_gettext x.x_ns argv = [] → writes ev = []) ∧
        ((∃ c ∈ writes ev, c.2 ≤ 0) →
          Event.pd_error "netreceive: send message failed" ∈ ev) := by
  intro n
  induction n with
  | zero =>
    intro i w _
    exact ⟨w, [], rfl, by simp [transmissions, writes_to], fun _ => rfl,
      by simp [writes]⟩
  | succ n ih =>
    intro i w hi
    obtain ⟨fail, w2, ev, hdo, hfail, _, hfirst, hempty⟩ :=
      dosend_loop_transmits x.x_ns (x.x_connections.getD i 0) (io i)
        (serialized binbuf_gettext x.x_ns argv)
        (serialized binbuf_gettext x.x_ns argv).length 0 0 w (by omega)
    have hdo2 : netsend_dosend binbuf_gettext (io i) x.x_ns
        (x.x_connections.getD i 0) s argv w = some (fail, w2, ev) := hdo
    obtain ⟨w3, ev2, hloop, htrans, hnil, hrep⟩ := ih (i + 1) w2 (by omega)
    unfold netreceive_send_loop
    rw [hdo2]
    simp only [hloop]
    refine ⟨w3, _, rfl, ?_, ?_, ?_⟩
    · intro hne
      rw [transmissions_append, transmissions_append, hfirst rfl hne, htrans hne]
      have hpd : transmissions (serialized binbuf_gettext x.x_ns argv)
          (if fail = true then [Event.pd_error "netreceive: send message failed"]
            else []) = [] := by
        split <;> rfl
      rw [hpd, List.append_nil]
      have hlt : i < x.x_connections.length := by omega
      rw [List.getD_eq_getElem _ _ hlt]
      rw [List.drop_eq_getElem_cons hlt, List.take_succ_cons]
      rfl
    · intro hnil2
      have hev : ev = [] := hempty (by rw [hnil2]; simp)
      rw [writes_append, writes_append, hnil hnil2, hev]
      split <;> rfl
    · intro ⟨c, hc, hle⟩
      rw [writes_append, writes_append] at hc
      have hpd : writes (if fail = true then
          [Event.pd_error "netreceive: send message failed"] else []) = [] := by
        split <;> rfl
      rw [hpd, List.append_nil] at hc
      rcases List.mem_append.mp hc with h | h
      · have hf : fail = true := hfail.mpr ⟨c, h, hle⟩
        rw [hf]
        simp
      · have := hrep ⟨c, h, hle⟩
        exact List.mem_append_right _ this

/-- C15: for every receiver whose registry holds `x_nconnections` descriptors,
every message and whatever the transports answer, `netreceive_send` returns,
and if the serialized message is not empty it begins a transmission of it (a
write offered the whole buffer) exactly once per registered descriptor, in
registry order, whether or not earlier transmissions failed; an empty buffer
is written nowhere. -/
theorem netreceive_send_reaches_all (binbuf_gettext : List t_atom → List t_byte)
    (io : Nat → Nat → List t_byte → t_write) (x : t_netreceive) (s : String)
    (argv : List t_atom) (w : t_warn)
    (hlen : x.x_connections.length = x.x_nconnections) :
    ∃ w2 ev, netreceive_send binbuf_gettext io x s argv w = some (x, w2, ev) ∧
      (serialized binbuf_gettext x.x_ns argv ≠ [] →
        transmissions (serialized binbuf_gettext x.x_ns argv) ev
          = x.x_connections) ∧
      (serialized binbuf_gettext x.x_ns argv = [] → writes ev = []) := by
  obtain ⟨w2, ev, hloop, htrans, hnil, _⟩ :=
    receive_send_loop_trace binbuf_gettext io x s argv x.x_nconnections 0 w (by omega)
  refine ⟨w2, ev, ?_, ?_, hnil⟩
  · unfold netreceive_send
    rw [hloop]
  · intro hne
    rw [htrans hne, List.drop_zero, ← hlen, List.take_length]

/-- The witness for C15: a broadcast to the registry 10, 11, 12 in which the
write to descriptor 10 fails. -/
theorem netreceive_send_reaches_all_witness :
    ∃ w2 ev, netreceive_send gettext_sample first_fails_io registry_sample "send"
        [t_atom.A_FLOAT 1] ⟨0, 0⟩ = some (registry_sample, w2, ev) ∧
      (serialized gettext_sample registry_sample.x_ns [t_atom.A_FLOAT 1] ≠ [] →
        transmissions (serialized gettext_sample registry_sample.x_ns
            [t_atom.A_FLOAT 1]) ev
          = registry_sample.x_connections) ∧
      (serialized gettext_sample registry_sample.x_ns [t_atom.A_FLOAT 1] = [] →
        writes ev = []) :=
  netreceive_send_reaches_all gettext_sample first_fails_io registry_sample "send"
    [t_atom.A_FLOAT 1] ⟨0, 0⟩ (by decide)

/-- The three things the bookkeeping after a write can do: post the
diagnostic, add a slow write to the backlog, or nothing. -/
theorem warn_cases (w : t_warn) (o : t_write) :
    ((o.late = true ∨ w.pleasewarn ≠ 0) ∧ o.timeafter > w.lastwarntime + 2 ∧
      netsend_dosend_warn w o
        = ({ lastwarntime := o.timeafter, pleasewarn := 0 },
           [Event.post_blocked
             (float_to_int (1000 * (o.duration + w.pleasewarn)))])) ∨
    (o.late = true ∧ ¬ o.timeafter > w.lastwarntime + 2 ∧
      netsend_dosend_warn w o
        = ({ w with pleasewarn := w.pleasewarn + o.duration }, [])) ∨
    (o.late = false ∧ netsend_dosend_warn w o = (w, [])) := by
  unfold netsend_dosend_warn t_write.late t_write.duration
  simp only
  by_cases hlate : o.timeafter - o.timebefore > 5 / 1000
  · by_cases hwin : o.timeafter > w.lastwarntime + 2
    · left
      simp [hlate, hwin]
    · right; left
      simp [hlate, hwin]
  · by_cases hpw : w.pleasewarn = 0
    · right; right
      simp [hlate, hpw]
    · by_cases hwin : o.timeafter > w.lastwarntime + 2
      · left
        simp [hlate, hpw, hwin]
      · right; right
        simp [hlate, hpw, hwin]

/-- The diagnostics of two traces put together. -/
theorem blocked_append : ∀ (a b : List Event), blocked (a ++ b) = blocked a ++ blocked b := by
  intro a b
  induction a with
  | nil => rfl
  | cons e a ih =>
    cases e <;> simp [blocked, ih]

/-- The diagnostics of one round of the loop followed by the rest. -/
theorem blocked_round (x : t_netsend) (sockfd : Int) (offered : List t_byte)
    (res : Int) (warn rest : List Event) :
    blocked ((if x.x_protocol = t_socktype.SOCK_DGRAM then
        Event.sendto sockfd offered x.x_server res
      else Event.send sockfd offered res) :: warn ++ rest)
      = blocked warn ++ blocked rest := by
  split <;> simp [blocked, blocked_append]

/-- The statics after two sequences of writes in a row. -/
theorem warn_state_append : ∀ (a b : List t_write) (w : t_warn),
    warn_state w (a ++ b) = warn_state (warn_state w a) b := by
  intro a
  induction a with
  | nil => intro b w; rfl
  | cons o a ih =>
    intro b w
    simp only [List.cons_append, warn_state, List.append_eq, ih]

/-- The diagnostics of two sequences of writes in a row. -/
theorem warn_posts_append : ∀ (a b : List t_write) (w : t_warn),
    warn_posts w (a ++ b) = warn_posts w a ++ warn_posts (warn_state w a) b := by
  intro a
  induction a with
  | nil => intro b w; rfl
  | cons o a ih =>
    intro b w
    simp only [List.cons_append, warn_posts, warn_state, List.append_eq, ih,
      List.append_assoc]

/-- Every diagnostic of a sequence comes more than two seconds after the last
one before the sequence, and any two of the sequence are more than two seconds
apart. -/
theorem warn_posts_apart : ∀ (os : List t_write) (w : t_warn),
    (∀ p ∈ warn_posts w os, p.1 > w.lastwarntime + 2) ∧
    (warn_posts w os).Pairwise (fun p1 p2 => p2.1 > p1.1 + 2) := by
  intro os
  induction os with
  | nil => intro w; simp [warn_posts]
  | cons o os ih =>
    intro w
    rcases warn_cases w o with ⟨_, hwin, heq⟩ | ⟨_, _, heq⟩ | ⟨_, heq⟩
    · obtain ⟨h1, h2⟩ := ih { lastwarntime := o.timeafter, pleasewarn := 0 }
      simp only [warn_posts, heq, blocked, List.map_cons, List.map_nil,
        List.singleton_append]
      refine ⟨?_, List.pairwise_cons.mpr ⟨h1, h2⟩⟩
      intro p hp
      rcases List.mem_cons.mp hp with h | h
      · rw [h]; exact hwin
      · have := h1 p h
        simp only at this
        linarith
    · have := ih { w with pleasewarn := w.pleasewarn + o.duration }
      simp only [warn_posts, heq, blocked, List.map_nil, List.nil_append]
      exact this
    · have := ih w
      simp only [warn_posts, heq, blocked, List.map_nil, List.nil_append]
      exact this

/-- Over a stretch of writes without diagnostic the backlog grows by the
durations of the slow writes and the time of the last diagnostic stays. -/
theorem warn_state_backlog : ∀ (os : List t_write) (w : t_warn),
    warn_posts w os = [] →
    warn_state w os
      = { w with pleasewarn :=
            w.pleasewarn + ((os.filter t_write.late).map t_write.duration).sum } := by
  intro os
  induction os with
  | nil => intro w _; simp [warn_state]
  | cons o os ih =>
    intro w h
    rcases warn_cases w o with ⟨_, _, heq⟩ | ⟨hlate, _, heq⟩ | ⟨hlate, heq⟩
    · simp [warn_posts, heq, blocked] at h
    · simp only [warn_posts, heq, blocked, List.map_nil, List.nil_append] at h
      simp only [warn_state, heq]
      rw [ih _ h]
      simp only [List.filter_cons, hlate, if_true, List.map_cons, List.sum_cons]
      congr 1
      ring
    · simp only [warn_posts, heq, blocked, List.map_nil, List.nil_append] at h
      simp only [warn_state, heq]
      rw [ih _ h]
      simp [List.filter_cons, hlate]

/-- The bookkeeping is threaded through the send loop: whenever the loop
returns, its statics are those of the bookkeeping run over the answers to its
writes, in order, and the diagnostics of its trace are those the bookkeeping
posts on the way. -/
theorem dosend_loop_bookkeeping (x : t_netsend) (sockfd : Int)
    (io : Nat → List t_byte → t_write) (buf : List t_byte) (length : Nat) :
    ∀ (fuel k sent : Nat) (w : t_warn) (fail : Bool) (w2 : t_warn) (ev : List Event),
      netsend_dosend_loop x sockfd io buf length fuel k sent w = some (fail, w2, ev) →
      w2 = warn_state w (answers io k ev) ∧
      blocked ev = (warn_posts w (answers io k ev)).map Prod.snd := by
  intro fuel
  induction fuel with
  | zero =>
    intro k sent w fail w2 ev h
    unfold netsend_dosend_loop at h
    split at h
    · simp at h
    · simp only [Option.some.injEq, Prod.mk.injEq] at h
      obtain ⟨_, hw, hev⟩ := h
      subst hw hev
      exact ⟨rfl, rfl⟩
  | succ fuel ih =>
    intro k sent w fail w2 ev h
    unfold netsend_dosend_loop at h
    split at h
    · simp only at h
      split at h
      · simp only [Option.some.injEq, Prod.mk.injEq] at h
        obtain ⟨_, hw, hev⟩ := h
        subst hw hev
        have hwr := writes_round x sockfd ((buf.drop sent).take (length - sent))
          (io k ((buf.drop sent).take (length - sent))).res
          (netsend_dosend_warn w (io k ((buf.drop sent).take (length - sent)))).2
          [Event.sys_sockerror "send"] (writes_warn _ _)
        have hbl := blocked_round x sockfd ((buf.drop sent).take (length - sent))
          (io k ((buf.drop sent).take (length - sent))).res
          (netsend_dosend_warn w (io k ((buf.drop sent).take (length - sent)))).2
          [Event.sys_sockerror "send"]
        simp only [answers, hwr, hbl]
        simp [writes, blocked, warn_state, warn_posts]
      · split at h
        · rename_i fail2 w3 ev2 hrec
          simp only [Option.some.injEq, Prod.mk.injEq] at h
          obtain ⟨_, hw, hev⟩ := h
          subst hw hev
          obtain ⟨h1, h2⟩ := ih _ _ _ _ _ _ hrec
          have hwr := writes_round x sockfd ((buf.drop sent).take (length - sent))
            (io k ((buf.drop sent).take (length - sent))).res
            (netsend_dosend_warn w (io k ((buf.drop sent).take (length - sent)))).2
            ev2 (writes_warn _ _)
          have hbl := blocked_round x sockfd ((buf.drop sent).take (length - sent))
            (io k ((buf.drop sent).take (length - sent))).res
            (netsend_dosend_warn w (io k ((buf.drop sent).take (length - sent)))).2
            ev2
          simp only [answers, hwr, hbl, List.enumFrom_cons, List.map_cons, warn_state,
            warn_posts, List.map_append, List.map_map]
          simp only [answers] at h1 h2
          rw [← h1, h2]
          refine ⟨rfl, ?_⟩
          congr 1
          simp [Function.comp_def]
        · simp at h
    · simp only [Option.some.injEq, Prod.mk.injEq] at h
      obtain ⟨_, hw, hev⟩ := h
      subst hw hev
      exact ⟨rfl, rfl⟩

/-- The bookkeeping makes no write call. -/
theorem warn_not_write (w : t_warn) (o : t_write) :
    ∀ e ∈ (netsend_dosend_warn w o).2, e.is_write = false := by
  intro e he
  rcases warn_cases w o with ⟨_, _, heq⟩ | ⟨_, _, heq⟩ | ⟨_, heq⟩
  · rw [heq] at he
    simp at he
    subst he
    rfl
  · rw [heq] at he; simp at he
  · rw [heq] at he; simp at he

/-- Events that are no write calls, in front of a trace, open no round. -/
theorem blocked_rounds_quiet : ∀ (a b : List Event),
    (∀ e ∈ a, e.is_write = false) → blocked_rounds (a ++ b) = blocked_rounds b := by
  intro a
  induction a with
  | nil => intro b _; rfl
  | cons e a ih =>
    intro b h
    have he : e.is_write = false := h e (List.mem_cons_self _ _)
    simp only [List.cons_append, blocked_rounds, he, Bool.false_eq_true, if_false]
    exact ih b (fun e2 h2 => h e2 (List.mem_cons_of_mem _ h2))

/-- The trace of the send loop is empty or starts with a write call, so no
diagnostic stands before its first write. -/
theorem dosend_loop_head (x : t_netsend) (sockfd : Int)
    (io : Nat → List t_byte → t_write) (buf : List t_byte) (length : Nat)
    (fuel k sent : Nat) (w : t_warn) (fail : Bool) (w2 : t_warn) (ev : List Event)
    (h : netsend_dosend_loop x sockfd io buf length fuel k sent w = some (fail, w2, ev)) :
    blocked (ev.takeWhile (fun e2 => !e2.is_write)) = [] := by
  unfold netsend_dosend_loop at h
  split at h
  · cases fuel with
    | zero => simp at h
    | succ f =>
      simp only at h
      split at h
      · simp only [Option.some.injEq, Prod.mk.injEq] at h
        obtain ⟨_, _, hev⟩ := h
        subst hev
        split <;> simp [List.takeWhile_cons, Event.is_write, blocked]
      · split at h
        · simp only [Option.some.injEq, Prod.mk.injEq] at h
          obtain ⟨_, _, hev⟩ := h
          subst hev
          split <;> simp [List.takeWhile_cons, Event.is_write, blocked]
        · simp at h
  · simp only [Option.some.injEq, Prod.mk.injEq] at h
    obtain ⟨_, _, hev⟩ := h
    subst hev
    rfl

/-- The rounds of a trace that starts with a write call followed by events
that are no write calls. -/
theorem blocked_rounds_round (call : Event) (warn rest : List Event)
    (hcall : call.is_write = true) (hq : ∀ e ∈ warn, e.is_write = false)
    (hhead : blocked (rest.takeWhile (fun e2 => !e2.is_write)) = []) :
    blocked_rounds (call :: warn ++ rest) = blocked warn :: blocked_rounds rest := by
  have hq2 : ∀ e ∈ warn, (fun e2 : Event => !e2.is_write) e = true := by
    intro e he
    simp [hq e he]
  simp only [List.cons_append, blocked_rounds, hcall, if_true, List.append_eq]
  rw [List.takeWhile_append_of_pos hq2, blocked_append, hhead, List.append_nil,
    blocked_rounds_quiet _ _ hq]

/-- The bookkeeping is done write by write: in the trace of the send loop the
diagnostics that follow each write are those the bookkeeping posts for the
answer to that write. -/
theorem dosend_loop_rounds (x : t_netsend) (sockfd : Int)
    (io : Nat → List t_byte → t_write) (buf : List t_byte) (length : Nat) :
    ∀ (fuel k sent : Nat) (w : t_warn) (fail : Bool) (w2 : t_warn) (ev : List Event),
      netsend_dosend_loop x sockfd io buf length fuel k sent w = some (fail, w2, ev) →
      blocked_rounds ev = warn_rounds w (answers io k ev) := by
  have hcall : ∀ (offered : List t_byte) (res : Int),
      (if x.x_protocol = t_socktype.SOCK_DGRAM then
        Event.sendto sockfd offered x.x_server res
      else Event.send sockfd offered res).is_write = true := by
    intro offered res
    split <;> rfl
  intro fuel
  induction fuel with
  | zero =>
    intro k sent w fail w2 ev h
    unfold netsend_dosend_loop at h
    split at h
    · simp at h
    · simp only [Option.some.injEq, Prod.mk.injEq] at h
      obtain ⟨_, _, hev⟩ := h
      subst hev
      rfl
  | succ fuel ih =>
    intro k sent w fail w2 ev h
    unfold netsend_dosend_loop at h
    split at h
    · simp only at h
      have hq := warn_not_write w (io k ((buf.drop sent).take (length - sent)))
      split at h
      · simp only [Option.some.injEq, Prod.mk.injEq] at h
        obtain ⟨_, _, hev⟩ := h
        subst hev
        have hwr := writes_round x sockfd ((buf.drop sent).take (length - sent))
          (io k ((buf.drop sent).take (length - sent))).res
          (netsend_dosend_warn w (io k ((buf.drop sent).take (length - sent)))).2
          [Event.sys_sockerror "send"] (writes_warn _ _)
        rw [blocked_rounds_round _ _ _ (hcall _ _) hq (by rfl)]
        simp only [answers, hwr]
        simp [writes, warn_rounds, blocked_rounds, Event.is_write]
      · split at h
        · rename_i fail2 w3 ev2 hrec
          simp only [Option.some.injEq, Prod.mk.injEq] at h
          obtain ⟨_, _, hev⟩ := h
          subst hev
          have h1 := ih _ _ _ _ _ _ hrec
          have hhead := dosend_loop_head x sockfd io buf length _ _ _ _ _ _ _ hrec
          have hwr := writes_round x sockfd ((buf.drop sent).take (length - sent))
            (io k ((buf.drop sent).take (length - sent))).res
            (netsend_dosend_warn w (io k ((buf.drop sent).take (length - sent)))).2
            ev2 (writes_warn _ _)
          rw [blocked_rounds_round _ _ _ (hcall _ _) hq hhead]
          simp only [answers, hwr, List.enumFrom_cons, List.map_cons, warn_rounds]
          simp only [answers] at h1
          rw [← h1]
        · simp at h
    · simp only [Option.some.injEq, Prod.mk.injEq] at h
      obtain ⟨_, _, hev⟩ := h
      subst hev
      rfl

/-- C19: every call of `netsend_dosend` returns, and with `os` the answers
(clock readings as exact rationals) to the writes of its trace, in order: the
statics end as the bookkeeping of `os` leaves them, the diagnostics of the
trace are those the bookkeeping posts, and each stands after the write that
posts it.  (1) A write posts a diagnostic only if
it took more than 5 ms or the backlog before it is not zero.  (2) Any two
diagnostics of the call are more than two seconds apart, and the first is more
than two seconds after the last one before the call.  (3) A write that took
more than 5 ms inside the two second window posts nothing and adds its
duration to the backlog.  (4) After a stretch `mid` of writes without
diagnostic, the next diagnostic of the trace reports, in msec, the duration of
the write `o` that posts it plus the backlog before `mid` plus the durations
of the slow writes of `mid`, and it leaves the backlog at zero and the window
restarted at `o`. -/
theorem netsend_dosend_warn_throttled (binbuf_gettext : List t_atom → List t_byte)
    (io : Nat → List t_byte → t_write) (x : t_netsend) (sockfd : Int) (s : String)
    (argv : List t_atom) (w : t_warn) :
    ∃ fail w2 ev,
      netsend_dosend binbuf_gettext io x sockfd s argv w = some (fail, w2, ev) ∧
      w2 = warn_state w (answers io 0 ev) ∧
      blocked ev = (warn_posts w (answers io 0 ev)).map Prod.snd ∧
      blocked_rounds ev = warn_rounds w (answers io 0 ev) ∧
      (∀ pre o post, answers io 0 ev = pre ++ o :: post →
        (netsend_dosend_warn (warn_state w pre) o).2 ≠ [] →
        o.duration > 5 / 1000 ∨ (warn_state w pre).pleasewarn ≠ 0) ∧
      ((∀ p ∈ warn_posts w (answers io 0 ev), p.1 > w.lastwarntime + 2) ∧
        (warn_posts w (answers io 0 ev)).Pairwise (fun p1 p2 => p2.1 > p1.1 + 2)) ∧
      (∀ pre o post, answers io 0 ev = pre ++ o :: post →
        o.duration > 5 / 1000 →
        ¬ o.timeafter > (warn_state w pre).lastwarntime + 2 →
        netsend_dosend_warn (warn_state w pre) o
          = ({ warn_state w pre with
                 pleasewarn := (warn_state w pre).pleasewarn + o.duration }, [])) ∧
      (∀ pre mid o post, answers io 0 ev = pre ++ mid ++ o :: post →
        warn_posts (warn_state w pre) mid = [] →
        (netsend_dosend_warn (warn_state w (pre ++ mid)) o).2 ≠ [] →
        warn_state w (pre ++ mid ++ [o])
          = { lastwarntime := o.timeafter, pleasewarn := 0 } ∧
        blocked ev = (warn_posts w pre).map Prod.snd ++
          float_to_int (1000 * (o.duration + ((warn_state w pre).pleasewarn
            + ((mid.filter t_write.late).map t_write.duration).sum))) ::
          (warn_posts { lastwarntime := o.timeafter, pleasewarn := 0 } post).map
            Prod.snd) := by
  obtain ⟨fail, w2, ev, hrun, _, _⟩ := dosend_loop_total x sockfd io
    (if x.x_bin then netsend_dosend_bytes argv
      else binbuf_gettext (netsend_dosend_binbuf argv))
    (if x.x_bin then netsend_dosend_bytes argv
      else binbuf_gettext (netsend_dosend_binbuf argv)).length
    (if x.x_bin then netsend_dosend_bytes argv
      else binbuf_gettext (netsend_dosend_binbuf argv)).length 0 0 w (by omega)
  obtain ⟨htie1, htie2⟩ := dosend_loop_bookkeeping x sockfd io _ _ _ _ _ _ _ _ _ hrun
  have htie3 := dosend_loop_rounds x sockfd io _ _ _ _ _ _ _ _ _ hrun
  have hlate : ∀ o : t_write, (o.late = true ↔ o.duration > 5 / 1000) := by
    intro o
    simp [t_write.late]
  refine ⟨fail, w2, ev, hrun, htie1, htie2, htie3, ?_, warn_posts_apart _ w, ?_, ?_⟩
  · intro pre o post _ h
    rcases warn_cases (warn_state w pre) o with ⟨hc, _, _⟩ | ⟨_, _, heq⟩ | ⟨_, heq⟩
    · rcases hc with hc | hc
      · exact Or.inl ((hlate o).mp hc)
      · exact Or.inr hc
    · rw [heq] at h; exact absurd rfl h
    · rw [heq] at h; exact absurd rfl h
  · intro pre o post _ hslow hwin
    rcases warn_cases (warn_state w pre) o with ⟨_, hw, _⟩ | ⟨_, _, heq⟩ | ⟨hl, _⟩
    · exact absurd hw hwin
    · exact heq
    · rw [(hlate o).mpr hslow] at hl; exact absurd hl (by decide)
  · intro pre mid o post hsplit hsilent hemit
    have hst : warn_state w (pre ++ mid)
        = { warn_state w pre with
            pleasewarn := (warn_state w pre).pleasewarn
              + ((mid.filter t_write.late).map t_write.duration).sum } := by
      rw [warn_state_append]
      exact warn_state_backlog mid _ hsilent
    have hstep : netsend_dosend_warn (warn_state w (pre ++ mid)) o
        = ({ lastwarntime := o.timeafter, pleasewarn := 0 },
           [Event.post_blocked (float_to_int (1000 * (o.duration +
             ((warn_state w pre).pleasewarn
               + ((mid.filter t_write.late).map t_write.duration).sum))))]) := by
      rcases warn_cases (warn_state w (pre ++ mid)) o with
        ⟨_, _, heq⟩ | ⟨_, _, heq⟩ | ⟨_, heq⟩
      · rw [heq, hst]
      · rw [heq] at hemit; exact absurd rfl hemit
      · rw [heq] at hemit; exact absurd rfl hemit
    constructor
    · rw [warn_state_append]
      simp only [warn_state, hstep]
    · rw [htie2, hsplit, warn_posts_append, warn_posts_append, hsilent]
      simp only [warn_posts, hstep, blocked, List.map_cons, List.map_nil,
        List.append_nil, List.map_append, List.singleton_append]

/-- The witness for C19: three one-byte writes.  The first, from time 10 to
11, posts a diagnostic; the second, from 11 to 12, is slow inside the window
and goes to the backlog; the third, at time 14, is fast and posts the
diagnostic that reports the backlog of 1000 msec. -/
theorem netsend_dosend_warn_throttled_witness :
    ∃ ev, netsend_dosend gettext_sample slow_io sender_sample 5 "send"
        [t_atom.A_FLOAT 1] ⟨0, 0⟩ = some (false, ⟨14, 0⟩, ev) ∧
      answers slow_io 0 ev = writes_sample ∧
      blocked ev = [1000, 1000] := by
  obtain ⟨fail, w2, ev, hrun, _, _, _, _, _, _, h4⟩ :=
    netsend_dosend_warn_throttled gettext_sample slow_io sender_sample 5 "send"
      [t_atom.A_FLOAT 1] ⟨0, 0⟩
  have hconc : netsend_dosend gettext_sample slow_io sender_sample 5 "send"
      [t_atom.A_FLOAT 1] ⟨0, 0⟩
      = some (false, ⟨14, 0⟩,
          [Event.send 5 [49, 59, 10] 1, Event.post_blocked 1000,
           Event.send 5 [59, 10] 1, Event.send 5 [10] 1, Event.post_blocked 1000]) := by
    simp [netsend_dosend, netsend_dosend_loop, netsend_dosend_warn, slow_io,
      writes_sample, sender_sample, gettext_sample, float_to_int]
    norm_num
  rw [hconc] at hrun
  simp only [Option.some.injEq, Prod.mk.injEq] at hrun
  obtain ⟨_, _, hev⟩ := hrun
  subst hev
  have hans : answers slow_io 0
      [Event.send 5 [49, 59, 10] 1, Event.post_blocked 1000,
       Event.send 5 [59, 10] 1, Event.send 5 [10] 1, Event.post_blocked 1000]
      = writes_sample := by
    simp [answers, writes, slow_io, writes_sample]
  obtain ⟨_, h5⟩ := h4 [{ timebefore := 10, res := 1, timeafter := 11 }]
    [{ timebefore := 11, res := 1, timeafter := 12 }]
    { timebefore := 14, res := 1, timeafter := 14 } []
    (by rw [hans]; rfl)
    (by norm_num [warn_posts, warn_state, netsend_dosend_warn, blocked])
    (by norm_num [warn_state, netsend_dosend_warn])
  refine ⟨_, hconc, hans, ?_⟩
  rw [h5]
  norm_num [warn_posts, warn_state, netsend_dosend_warn, blocked, float_to_int,
    t_write.late, t_write.duration]

/-! ## Listening (`netreceive_closeall`, `netreceive_listen`) -/

/-- The poll list after two traces in a row. -/
theorem reactor_append : ∀ (a b : List Event) (reg : List Int),
    reactor reg (a ++ b) = reactor (reactor reg a) b := by
  intro a b
  induction a with
  | nil => intro reg; rfl
  | cons e a ih =>
    intro reg
    cases e <;> simp [reactor, ih]

/-- A trace that neither adds nor removes leaves the poll list alone. -/
theorem reactor_inert : ∀ (ev : List Event) (reg : List Int),
    (∀ e ∈ ev, e.is_poll = false) → reactor reg ev = reg := by
  intro ev
  induction ev with
  | nil => intro reg _; rfl
  | cons e ev ih =>
    intro reg h
    have he := h e (List.mem_cons_self _ _)
    have hrest := ih reg (fun e2 h2 => h e2 (List.mem_cons_of_mem _ h2))
    cases e <;> simp [Event.is_poll] at he <;> simpa [reactor] using hrest

/-- After a trace that adds nothing, a descriptor is registered only if it
was before and the trace does not remove it. -/
theorem reactor_not_removed : ∀ (ev : List Event) (reg : List Int),
    (∀ e ∈ ev, e.is_addpoll = false) →
    ∀ fd ∈ reactor reg ev, fd ∈ reg ∧ Event.sys_rmpollfn fd ∉ ev := by
  intro ev
  induction ev with
  | nil => intro reg _ fd hfd; exact ⟨hfd, by simp⟩
  | cons e ev ih =>
    intro reg h fd hfd
    have he := h e (List.mem_cons_self _ _)
    have hrest := fun reg2 => ih reg2 (fun e2 h2 => h e2 (List.mem_cons_of_mem _ h2)) fd
    cases e with
    | sys_addpollfn fd2 fn => simp [Event.is_addpoll] at he
    | sys_rmpollfn fd2 =>
      simp only [reactor] at hfd
      obtain ⟨h1, h2⟩ := hrest _ hfd
      have h3 := List.mem_filter.mp h1
      have hne : fd ≠ fd2 := by simpa using h3.2
      refine ⟨h3.1, ?_⟩
      intro hmem
      rcases List.mem_cons.mp hmem with h4 | h4
      · exact hne (by injection h4)
      · exact h2 h4
    | outlet_float _ _ | outlet_list _ _ | outlet_anything _ _ _ | pd_error _ | post _
    | error _ | postatom _ | post_blocked _ | bug _ | sys_sockerror _ | sys_closesocket _
    | socketreceiver_free _ | send _ _ _ | sendto _ _ _ _ =>
      simp only [reactor] at hfd
      obtain ⟨h1, h2⟩ := hrest _ hfd
      refine ⟨h1, ?_⟩
      intro hmem
      rcases List.mem_cons.mp hmem with h4 | h4
      · cases h4
      · exact h2 h4

/-- The loop of `netreceive_closeall` takes every connection from index `i`
on off the poll list and closes it, and adds nothing to the poll list. -/
theorem closeall_loop_events (conns : List Int) :
    ∀ (n i : Nat) (recvs : List (Option t_socketreceiver)),
      i + n ≤ conns.length →
      (∀ fd ∈ (conns.drop i).take n,
        Event.sys_rmpollfn fd ∈ (netreceive_closeall_loop conns n i recvs).2 ∧
        Event.sys_closesocket fd ∈ (netreceive_closeall_loop conns n i recvs).2) ∧
      (∀ e ∈ (netreceive_closeall_loop conns n i recvs).2, e.is_addpoll = false) := by
  intro n
  induction n with
  | zero =>
    intro i recvs _
    simp [netreceive_closeall_loop]
  | succ n ih =>
    intro i recvs hi
    have hlt : i < conns.length := by omega
    have hdrop : (conns.drop i).take (n + 1)
        = conns.getD i 0 :: (conns.drop (i + 1)).take n := by
      rw [List.drop_eq_getElem_cons hlt, List.take_succ_cons,
        List.getD_eq_getElem _ _ hlt]
    rw [hdrop]
    unfold netreceive_closeall_loop
    cases hr : recvs.getD i none with
    | none =>
      simp only
      obtain ⟨h1, h2⟩ := ih (i + 1) recvs (by omega)
      constructor
      · intro fd hfd
        rcases List.mem_cons.mp hfd with h | h
        · subst h
          simp
        · have := h1 fd h
          exact ⟨List.mem_append_right _ this.1, List.mem_append_right _ this.2⟩
      · intro e he
        rcases List.mem_append.mp he with h | h
        · simp at h
          rcases h with h | h <;> subst h <;> rfl
        · exact h2 e h
    | some y =>
      simp only
      obtain ⟨h1, h2⟩ := ih (i + 1) (recvs.set i none) (by omega)
      constructor
      · intro fd hfd
        rcases List.mem_cons.mp hfd with h | h
        · subst h
          simp
        · have := h1 fd h
          exact ⟨List.mem_append_right _ this.1, List.mem_append_right _ this.2⟩
      · intro e he
        rcases List.mem_append.mp he with h | h
        · simp at h
          rcases h with h | h | h <;> subst h <;> rfl
        · exact h2 e h

/-- What `netreceive_closeall` leaves: no socket, no receiver, an empty
registry. -/
theorem closeall_state (x : t_netreceive) :
    (netreceive_closeall x).1.x_connections = [] ∧
    (netreceive_closeall x).1.x_receivers = [] ∧
    (netreceive_closeall x).1.x_nconnections = 0 ∧
    (netreceive_closeall x).1.x_ns.x_sockfd = -1 ∧
    (netreceive_closeall x).1.x_ns.x_protocol = x.x_ns.x_protocol := by
  simp [netreceive_closeall, t_resizebytes]

/-- The trace of `netreceive_closeall` takes every descriptor the receiver
holds off the poll list and closes it, and adds nothing to the poll list. -/
theorem closeall_events (x : t_netreceive)
    (hlen : x.x_connections.length = x.x_nconnections) :
    (∀ fd ∈ registered x,
      Event.sys_rmpollfn fd ∈ (netreceive_closeall x).2 ∧
      Event.sys_closesocket fd ∈ (netreceive_closeall x).2) ∧
    (∀ e ∈ (netreceive_closeall x).2, e.is_addpoll = false) := by
  obtain ⟨h1, h2⟩ := closeall_loop_events x.x_connections x.x_nconnections 0
    x.x_receivers (by omega)
  rw [List.drop_zero, ← hlen, List.take_length] at h1
  have hev : (netreceive_closeall x).2
      = (netreceive_closeall_loop x.x_connections x.x_connections.length 0
          x.x_receivers).2 ++
        (if x.x_ns.x_sockfd ≥ 0 then
          [Event.sys_rmpollfn x.x_ns.x_sockfd, Event.sys_closesocket x.x_ns.x_sockfd]
        else []) ++
        (match x.x_ns.x_receiver with
          | some y => [Event.socketreceiver_free y]
          | none => []) ++
        (if x.x_ns.x_connectout ≠ none then
          [Event.outlet_float x.x_ns.x_connectout ((0 : Nat) : t_float)]
        else []) := by
    simp [netreceive_closeall, hlen]
  rw [← hlen] at h2
  rw [hev]
  constructor
  · intro fd hfd
    unfold registered at hfd
    rcases List.mem_append.mp hfd with h | h
    · by_cases hs : x.x_ns.x_sockfd ≥ 0
      · rw [if_pos hs] at h
        simp at h
        subst h
        simp [hs]
      · rw [if_neg hs] at h
        simp at h
    · have := h1 fd h
      simp only [List.mem_append]
      exact ⟨Or.inl (Or.inl (Or.inl this.1)), Or.inl (Or.inl (Or.inl this.2))⟩
  · intro e he
    simp only [List.mem_append] at he
    rcases he with ((h | h) | h) | h
    · exact h2 e h
    · split at h
      · simp at h
        rcases h with h | h <;> subst h <;> rfl
      · simp at h
    · split at h
      · simp at h
        subst h
        rfl
      · simp at h
    · split at h
      · simp at h
        subst h
        rfl
      · simp at h

/-- After `netreceive_closeall` none of the descriptors the receiver held is
on the poll list. -/
theorem closeall_reactor (x : t_netreceive) (reg : List Int)
    (hlen : x.x_connections.length = x.x_nconnections)
    (hreg : ∀ fd ∈ reg, fd ∈ registered x) :
    reactor reg (netreceive_closeall x).2 = [] := by
  obtain ⟨h1, h2⟩ := closeall_events x hlen
  apply List.eq_nil_iff_forall_not_mem.mpr
  intro fd hfd
  obtain ⟨h3, h4⟩ := reactor_not_removed _ reg h2 fd hfd
  exact h4 (h1 fd (hreg fd h3)).1

/-- The result of `socket` is a descriptor or -1. -/
theorem socket_result_cases (s : Option Nat) :
    socket_result s = -1 ∨ 0 ≤ socket_result s := by
  cases s with
  | none => left; rfl
  | some fd => right; simp [socket_result]

/-- Setting the socket options touches the poll list nowhere. -/
theorem listen_sockopt_inert (c : t_bind_try) :
    ∀ e ∈ netreceive_listen_sockopt c, e.is_poll = false := by
  intro e he
  unfold netreceive_listen_sockopt at he
  rcases List.mem_append.mp he with h | h
  · split at h <;> simp at h
    subst h; rfl
  · split at h
    · split at h <;> simp at h
      subst h; rfl
    · split at h
      · split at h <;> simp at h
        subst h; rfl
      · simp at h

/-- The candidate loop of `netreceive_listen` touches the poll list nowhere. -/
theorem listen_bind_inert : ∀ (l : List t_bind_try) (s : Int),
    ∀ e ∈ (netreceive_listen_bind s l).2.2, e.is_poll = false := by
  intro l
  induction l with
  | nil => intro s e he; simp [netreceive_listen_bind] at he
  | cons c rest ih =>
    intro s e he
    unfold netreceive_listen_bind at he
    split at he
    · exact ih _ e he
    · split at he
      · simp only at he
        rcases List.mem_append.mp he with h | h
        · rcases List.mem_append.mp h with h2 | h2
          · exact listen_sockopt_inert c e h2
          · simp at h2
            subst h2; rfl
        · exact ih _ e h
      · exact listen_sockopt_inert c e he

/-- Entered with no socket, the candidate loop ends with no socket or with a
descriptor. -/
theorem listen_bind_result : ∀ (l : List t_bind_try),
    (netreceive_listen_bind (-1) l).1 = -1 ∨ 0 ≤ (netreceive_listen_bind (-1) l).1 := by
  intro l
  induction l with
  | nil => left; rfl
  | cons c rest ih =>
    unfold netreceive_listen_bind
    split
    · rename_i hneg
      rcases socket_result_cases c.socket with h | h
      · rw [h]; exact ih
      · omega
    · rename_i hpos
      split
      · exact ih
      · right
        simp only
        omega

/-- If the socket and the bind of some candidate succeed, the loop ends with
the descriptor of such a candidate. -/
theorem listen_bind_success : ∀ (l : List t_bind_try),
    (∃ c ∈ l, c.socket.isSome = true ∧ 0 ≤ c.bind) →
    ∃ c ∈ l, ∃ fd : Nat, c.socket = some fd ∧ 0 ≤ c.bind ∧
      (netreceive_listen_bind (-1) l).1 = (fd : Int) := by
  intro l
  induction l with
  | nil => intro ⟨c, hc, _⟩; simp at hc
  | cons c rest ih =>
    intro ⟨c2, hc2, hsock, hbind⟩
    unfold netreceive_listen_bind
    have hrest : (c.socket.isSome = true ∧ 0 ≤ c.bind) ∨
        ∃ c3 ∈ rest, c3.socket.isSome = true ∧ 0 ≤ c3.bind := by
      rcases List.mem_cons.mp hc2 with h | h
      · left; rw [← h]; exact ⟨hsock, hbind⟩
      · right; exact ⟨c2, h, hsock, hbind⟩
    split
    · rename_i hneg
      have hnone : c.socket = none := by
        cases hs : c.socket with
        | none => rfl
        | some fd => rw [hs] at hneg; simp [socket_result] at hneg; omega
      rcases hrest with h | h
      · rw [hnone] at h; simp at h
      · obtain ⟨c3, hc3, fd, h1, h2, h3⟩ := ih h
        rw [hnone]
        exact ⟨c3, List.mem_cons_of_mem _ hc3, fd, h1, h2, h3⟩
    · rename_i hpos
      obtain ⟨fd, hfd⟩ : ∃ fd : Nat, c.socket = some fd := by
        cases hs : c.socket with
        | none => rw [hs] at hpos; simp [socket_result] at hpos
        | some fd => exact ⟨fd, rfl⟩
      split
      · rename_i hb
        rcases hrest with h | h
        · omega
        · obtain ⟨c3, hc3, fd3, h1, h2, h3⟩ := ih h
          exact ⟨c3, List.mem_cons_of_mem _ hc3, fd3, h1, h2, h3⟩
      · rename_i hb
        refine ⟨c, List.mem_cons_self _ _, fd, hfd, by omega, ?_⟩
        simp [hfd, socket_result]

/-- One `netreceive_listen` from a receiver whose registry is well formed and
whose descriptors are the only ones on the poll list: the registry ends
empty, every old descriptor is taken off the poll list and closed, and the
poll list ends empty, with the receiver holding no socket, or holding exactly
the new socket of the receiver.  If the port is positive, the resolution, the
socket and bind of some candidate and, for the stream protocol, `listen`
succeed, it is the latter, with the descriptor of such a candidate. -/
theorem listen_step (x : t_netreceive) (p : t_float) (env : t_listen_env)
    (reg : List Int)
    (hlen : x.x_connections.length = x.x_nconnections)
    (hreg : ∀ fd ∈ reg, fd ∈ registered x) :
    (netreceive_listen x p env).1.x_connections = [] ∧
    (netreceive_listen x p env).1.x_nconnections = 0 ∧
    (netreceive_listen x p env).1.x_ns.x_protocol = x.x_ns.x_protocol ∧
    (∀ fd ∈ registered x,
      Event.sys_rmpollfn fd ∈ (netreceive_listen x p env).2 ∧
      Event.sys_closesocket fd ∈ (netreceive_listen x p env).2) ∧
    (((netreceive_listen x p env).1.x_ns.x_sockfd = -1 ∧
        reactor reg (netreceive_listen x p env).2 = []) ∨
      (0 ≤ (netreceive_listen x p env).1.x_ns.x_sockfd ∧
        reactor reg (netreceive_listen x p env).2
          = [(netreceive_listen x p env).1.x_ns.x_sockfd])) ∧
    (0 < float_to_int p → env.status = 0 →
      (∃ c ∈ env.ailist, c.socket.isSome = true ∧ 0 ≤ c.bind) →
      (x.x_ns.x_protocol = t_socktype.SOCK_STREAM → 0 ≤ env.listen) →
      reactor reg (netreceive_listen x p env).2
        = [(netreceive_listen x p env).1.x_ns.x_sockfd] ∧
      ∃ c ∈ env.ailist, ∃ fd : Nat, c.socket = some fd ∧ 0 ≤ c.bind ∧
        (netreceive_listen x p env).1.x_ns.x_sockfd = (fd : Int)) := by
  obtain ⟨hc1, _, hc3, hc4, hc5⟩ := closeall_state x
  obtain ⟨hrm, _⟩ := closeall_events x hlen
  have hreact := closeall_reactor x reg hlen hreg
  have hbres := listen_bind_result env.ailist
  have hbinert := listen_bind_inert env.ailist (-1)
  have hmem : ∀ (tail : List Event), ∀ fd ∈ registered x,
      Event.sys_rmpollfn fd ∈ (netreceive_closeall x).2 ++ tail ∧
      Event.sys_closesocket fd ∈ (netreceive_closeall x).2 ++ tail := by
    intro tail fd hfd
    exact ⟨List.mem_append_left _ (hrm fd hfd).1, List.mem_append_left _ (hrm fd hfd).2⟩
  have hinert : ∀ (extra : List Event), (∀ e ∈ extra, e.is_poll = false) →
      reactor reg ((netreceive_closeall x).2
        ++ (netreceive_listen_bind (-1) env.ailist).2.2 ++ extra) = [] := by
    intro extra hex
    rw [List.append_assoc, reactor_append, hreact, reactor_inert]
    intro e he
    rcases List.mem_append.mp he with h | h
    · exact hbinert e h
    · exact hex e h
  have hadd : ∀ (extra : List Event) (fd : Int) (fn : t_fdpollfn),
      (∀ e ∈ extra, e.is_poll = false) →
      reactor reg ((netreceive_closeall x).2
        ++ (netreceive_listen_bind (-1) env.ailist).2.2 ++ extra
        ++ [Event.sys_addpollfn fd fn]) = [fd] := by
    intro extra fd fn hex
    rw [reactor_append, hinert extra hex]
    rfl
  unfold netreceive_listen
  simp only [hc4]
  by_cases hp : float_to_int p ≤ 0
  · rw [if_pos hp]
    refine ⟨hc1, hc3, hc5, hrm, Or.inl ⟨hc4, hreact⟩, fun h => absurd hp (by omega)⟩
  · rw [if_neg hp]
    by_cases hst : env.status ≠ 0
    · rw [if_pos hst]
      refine ⟨hc1, hc3, hc5, hmem _, Or.inl ⟨hc4, ?_⟩, fun _ h => absurd h hst⟩
      rw [reactor_append, hreact]
      rfl
    · rw [if_neg hst]
      by_cases hb : (netreceive_listen_bind (-1) env.ailist).1 = -1
      · rw [if_pos hb]
        refine ⟨hc1, hc3, hc5, ?_, Or.inl ⟨hb, ?_⟩, ?_⟩
        · intro fd hfd
          have := hmem ((netreceive_listen_bind (-1) env.ailist).2.2 ++
            [Event.pd_error "netreceive: listen failed"]) fd hfd
          simpa [List.append_assoc] using this
        · exact hinert _ (by simp [Event.is_poll])
        · intro _ _ hbind _
          obtain ⟨c, _, fd, _, _, h3⟩ := listen_bind_success env.ailist hbind
          rw [h3] at hb
          omega
      · rw [if_neg hb]
        have hpos : 0 ≤ (netreceive_listen_bind (-1) env.ailist).1 := by
          rcases hbres with h | h
          · exact absurd h hb
          · exact h
        have hcand : (∃ c ∈ env.ailist, c.socket.isSome = true ∧ 0 ≤ c.bind) →
            ∃ c ∈ env.ailist, ∃ fd : Nat, c.socket = some fd ∧ 0 ≤ c.bind ∧
              (netreceive_listen_bind (-1) env.ailist).1 = (fd : Int) :=
          listen_bind_success env.ailist
        by_cases hproto : x.x_ns.x_protocol = t_socktype.SOCK_DGRAM
        · simp only [hc5, hproto, if_true]
          have hjoin : ∀ e ∈ (if env.is_multicast = true then
              (if env.join < 0 then
                [Event.pd_error "netreceive: joining multicast group failed"]
              else [Event.post "netreceive: joined multicast group"])
              else []), e.is_poll = false := by
            intro e he
            split at he
            · split at he <;> simp at he <;> subst he <;> rfl
            · simp at he
          cases hbin : (netreceive_closeall x).1.x_ns.x_bin
          · simp only [Bool.false_eq_true, if_false]
            refine ⟨hc1, hc3, trivial, ?_, Or.inr ⟨hpos, hadd _ _ _ hjoin⟩,
              fun _ _ hbind _ => ⟨hadd _ _ _ hjoin, hcand hbind⟩⟩
            intro fd hfd
            have := hmem ((netreceive_listen_bind (-1) env.ailist).2.2 ++
              (if env.is_multicast = true then
                (if env.join < 0 then
                  [Event.pd_error "netreceive: joining multicast group failed"]
                else [Event.post "netreceive: joined multicast group"])
                else []) ++
              [Event.sys_addpollfn (netreceive_listen_bind (-1) env.ailist).1
                (t_fdpollfn.socketreceiver_read env.y)]) fd hfd
            simpa [List.append_assoc] using this
          · simp only [if_true]
            refine ⟨hc1, hc3, trivial, ?_, Or.inr ⟨hpos, hadd _ _ _ hjoin⟩,
              fun _ _ hbind _ => ⟨hadd _ _ _ hjoin, hcand hbind⟩⟩
            intro fd hfd
            have := hmem ((netreceive_listen_bind (-1) env.ailist).2.2 ++
              (if env.is_multicast = true then
                (if env.join < 0 then
                  [Event.pd_error "netreceive: joining multicast group failed"]
                else [Event.post "netreceive: joined multicast group"])
                else []) ++
              [Event.sys_addpollfn (netreceive_listen_bind (-1) env.ailist).1
                t_fdpollfn.netsend_readbin]) fd hfd
            simpa [List.append_assoc] using this
        · have hstream : x.x_ns.x_protocol = t_socktype.SOCK_STREAM := by
            cases hx : x.x_ns.x_protocol with
            | SOCK_STREAM => rfl
            | SOCK_DGRAM => exact absurd hx hproto
          simp only [hc5, hproto, if_false]
          by_cases hl : env.listen < 0
          · rw [if_pos hl]
            refine ⟨hc1, hc3, hc5, ?_, Or.inl ⟨rfl, ?_⟩, ?_⟩
            · intro fd hfd
              have := hmem ((netreceive_listen_bind (-1) env.ailist).2.2 ++
                [Event.sys_sockerror "listen",
                 Event.sys_closesocket (netreceive_listen_bind (-1) env.ailist).1])
                fd hfd
              simpa [List.append_assoc] using this
            · exact hinert _ (by simp [Event.is_poll])
            · intro _ _ _ hlisten
              have := hlisten hstream
              omega
          · rw [if_neg hl]
            have hadd0 := hadd [] (netreceive_listen_bind (-1) env.ailist).1
              t_fdpollfn.netreceive_connectpoll (by simp)
            rw [List.append_nil] at hadd0
            refine ⟨hc1, hc3, hc5, ?_, Or.inr ⟨hpos, hadd0⟩,
              fun _ _ hbind _ => ⟨hadd0, hcand hbind⟩⟩
            intro fd hfd
            have := hmem ((netreceive_listen_bind (-1) env.ailist).2.2 ++
              [Event.sys_addpollfn (netreceive_listen_bind (-1) env.ailist).1
                t_fdpollfn.netreceive_connectpoll]) fd hfd
            simpa [List.append_assoc] using this

/-- A run of accepts keeps the registry well formed and the protocol, and
puts on the poll list only descriptors the receiver holds. -/
theorem accepts_step : ∀ (l : List (Int × t_socketreceiver)) (x : t_netreceive)
    (reg : List Int),
    x.x_connections.length = x.x_nconnections →
    (∀ fd ∈ reg, fd ∈ registered x) →
    (netreceive_accepts x l).1.x_connections.length
      = (netreceive_accepts x l).1.x_nconnections ∧
    (netreceive_accepts x l).1.x_ns.x_protocol = x.x_ns.x_protocol ∧
    (∀ fd ∈ reactor reg (netreceive_accepts x l).2,
      fd ∈ registered (netreceive_accepts x l).1) := by
  intro l
  induction l with
  | nil => intro x reg hlen hreg; exact ⟨hlen, rfl, hreg⟩
  | cons a rest ih =>
    intro x reg hlen hreg
    simp only [netreceive_accepts]
    rw [reactor_append]
    by_cases hfd : a.1 < 0
    · have hstep : netreceive_connectpoll x a.1 a.2
          = (x, [Event.post "netreceive: accept failed"]) := by
        unfold netreceive_connectpoll
        rw [if_pos hfd]
      rw [hstep]
      exact ih x _ hlen hreg
    · have hconns := resize_set_append (0 : Int) a.1 x.x_connections
        x.x_nconnections hlen
      have hstate : (netreceive_connectpoll x a.1 a.2).1.x_connections
            = x.x_connections ++ [a.1] ∧
          (netreceive_connectpoll x a.1 a.2).1.x_nconnections = x.x_nconnections + 1 ∧
          (netreceive_connectpoll x a.1 a.2).1.x_ns = x.x_ns ∧
          reactor reg (netreceive_connectpoll x a.1 a.2).2 = reg ++ [a.1] := by
        unfold netreceive_connectpoll
        rw [if_neg hfd]
        cases hb : x.x_ns.x_bin
        · simp only [Bool.false_eq_true, if_false, hconns]
          exact ⟨trivial, trivial, trivial, rfl⟩
        · simp only [if_true, hconns]
          exact ⟨trivial, trivial, trivial, rfl⟩
      obtain ⟨h1, h2, h3, h4⟩ := hstate
      have hlen2 : (netreceive_connectpoll x a.1 a.2).1.x_connections.length
          = (netreceive_connectpoll x a.1 a.2).1.x_nconnections := by
        rw [h1, h2, List.length_append, hlen]
        rfl
      have hreg2 : ∀ fd ∈ reactor reg (netreceive_connectpoll x a.1 a.2).2,
          fd ∈ registered (netreceive_connectpoll x a.1 a.2).1 := by
        intro fd hmem
        rw [h4] at hmem
        unfold registered
        rw [h1, h3]
        rcases List.mem_append.mp hmem with h | h
        · have := hreg fd h
          unfold registered at this
          rcases List.mem_append.mp this with h5 | h5
          · exact List.mem_append_left _ h5
          · exact List.mem_append_right _ (List.mem_append_left _ h5)
        · exact List.mem_append_right _ (List.mem_append_right _ h)
      obtain ⟨r1, r2, r3⟩ := ih _ _ hlen2 hreg2
      exact ⟨r1, by rw [r2, h3], r3⟩

/-- A port argument beyond the range of `int` is not a positive port: the
conversion `int portno = fportno` does not give a positive number for the
float 3000000000, and `netreceive_listen` returns after closing what was open,
with no socket and nothing on the poll list. -/
theorem listen_port_out_of_range :
    float_to_int 3000000000 ≤ 0 ∧
    (netreceive_listen idle_receiver_sample 3000000000 listen_ok_sample).1
      = idle_receiver_sample ∧
    reactor (registered idle_receiver_sample)
      (netreceive_listen idle_receiver_sample 3000000000 listen_ok_sample).2 = [] := by
  decide

/-- C12 (a bind that succeeds is not enough): a stream receiver listens on a
port, then listens again with the socket and the bind succeeding but `listen`
refusing; afterwards no descriptor at all is on the poll list. -/
theorem netreceive_listen_refused_registers_nothing :
    ¬ ∃ fd, reactor (registered idle_receiver_sample)
        ((netreceive_listen idle_receiver_sample 3000 listen_ok_sample).2 ++
          (netreceive_listen
            (netreceive_listen idle_receiver_sample 3000 listen_ok_sample).1
            3000 listen_refused_sample).2) = [fd] := by
  intro ⟨fd, h⟩
  have h0 : reactor (registered idle_receiver_sample)
      ((netreceive_listen idle_receiver_sample 3000 listen_ok_sample).2 ++
        (netreceive_listen
          (netreceive_listen idle_receiver_sample 3000 listen_ok_sample).1
          3000 listen_refused_sample).2) = [] := by
    decide
  rw [h0] at h
  exact absurd h (by simp)

/-- A second failure point after the bind: on a stream receiver whose
`listen` call fails, `netreceive_listen` closes the socket it has just bound
and leaves the receiver without socket. -/
theorem listen_refused (x : t_netreceive) (p : t_float) (env : t_listen_env)
    (hp : 0 < float_to_int p) (hstatus : env.status = 0)
    (hbind : ∃ c ∈ env.ailist, c.socket.isSome = true ∧ 0 ≤ c.bind)
    (hstream : x.x_ns.x_protocol = t_socktype.SOCK_STREAM)
    (hl : env.listen < 0) :
    (netreceive_listen x p env).1.x_ns.x_sockfd = -1 ∧
    ∃ c ∈ env.ailist, ∃ fd : Nat, c.socket = some fd ∧ 0 ≤ c.bind ∧
      Event.sys_closesocket (fd : Int) ∈ (netreceive_listen x p env).2 := by
  obtain ⟨_, _, _, hc4, hc5⟩ := closeall_state x
  obtain ⟨c, hc, fd, h1, h2, h3⟩ := listen_bind_success env.ailist hbind
  have hproto : ¬ (netreceive_closeall x).1.x_ns.x_protocol = t_socktype.SOCK_DGRAM := by
    rw [hc5, hstream]
    simp
  unfold netreceive_listen
  simp only [hc4]
  rw [if_neg (by omega), if_neg (by simp [hstatus]), if_neg (by rw [h3]; omega)]
  simp only [hproto, if_false]
  rw [if_pos hl]
  refine ⟨rfl, c, hc, fd, h1, h2, ?_⟩
  rw [h3]
  simp

/-- C12 (amended): take any receiver with a well formed registry whose
descriptors are those on the poll list, let it listen on a first port, accept
any number of connections, and listen on a second port that is positive as an
`int` and for which the resolution and the socket and bind of some candidate
succeed.  Then the registry is empty with `x_nconnections = 0` and every
descriptor of the first configuration (its socket and every accepted
connection) has been taken off the poll list and closed.  If, for the stream
protocol, `listen` succeeds as well, exactly one descriptor is on the poll
list: the socket the second call bound, which is the receiver's `x_sockfd`.
If on a stream receiver `listen` fails, the socket that was bound is closed
again, the receiver holds no socket and the poll list is empty. -/
theorem netreceive_listen_twice (x : t_netreceive) (p1 p2 : t_float)
    (env1 env2 : t_listen_env) (accepted : List (Int × t_socketreceiver))
    (hlen : x.x_connections.length = x.x_nconnections)
    (hp2 : 0 < float_to_int p2)
    (hstatus : env2.status = 0)
    (hbind : ∃ c ∈ env2.ailist, c.socket.isSome = true ∧ 0 ≤ c.bind) :
    let first := netreceive_listen x p1 env1
    let mid := netreceive_accepts first.1 accepted
    let second := netreceive_listen mid.1 p2 env2
    second.1.x_connections = [] ∧ second.1.x_nconnections = 0 ∧
    (∀ fd ∈ registered mid.1,
      Event.sys_rmpollfn fd ∈ second.2 ∧ Event.sys_closesocket fd ∈ second.2) ∧
    ((x.x_ns.x_protocol = t_socktype.SOCK_STREAM → 0 ≤ env2.listen) →
      (∃ c ∈ env2.ailist, ∃ fd : Nat, c.socket = some fd ∧ 0 ≤ c.bind ∧
        second.1.x_ns.x_sockfd = (fd : Int)) ∧
      reactor (registered x) (first.2 ++ mid.2 ++ second.2)
        = [second.1.x_ns.x_sockfd]) ∧
    (x.x_ns.x_protocol = t_socktype.SOCK_STREAM → env2.listen < 0 →
      second.1.x_ns.x_sockfd = -1 ∧
      reactor (registered x) (first.2 ++ mid.2 ++ second.2) = [] ∧
      ∃ c ∈ env2.ailist, ∃ fd : Nat, c.socket = some fd ∧ 0 ≤ c.bind ∧
        Event.sys_closesocket (fd : Int) ∈ second.2) := by
  intro first mid second
  obtain ⟨f1, f2, f3, _, f5, _⟩ := listen_step x p1 env1 (registered x) hlen
    (fun fd h => h)
  have hreg1 : ∀ fd ∈ reactor (registered x) first.2, fd ∈ registered first.1 := by
    intro fd hfd
    rcases f5 with ⟨_, h⟩ | ⟨hpos, h⟩
    · rw [h] at hfd; simp at hfd
    · rw [h] at hfd
      simp only [List.mem_singleton] at hfd
      subst hfd
      unfold registered
      rw [if_pos hpos]
      simp
  obtain ⟨m1, m2, m3⟩ := accepts_step accepted first.1 (reactor (registered x) first.2)
    (by rw [f1, f2]; rfl) hreg1
  obtain ⟨s1, s2, _, s4, s5, s6⟩ := listen_step mid.1 p2 env2
    (reactor (reactor (registered x) first.2) mid.2) m1 m3
  refine ⟨s1, s2, s4, ?_, ?_⟩
  · intro hlisten
    obtain ⟨s7, s8⟩ := s6 hp2 hstatus hbind (by rw [m2, f3]; exact hlisten)
    refine ⟨s8, ?_⟩
    rw [reactor_append, reactor_append]
    exact s7
  · intro hstream hl
    obtain ⟨r1, r2⟩ := listen_refused mid.1 p2 env2 hp2 hstatus hbind
      (by rw [m2, f3]; exact hstream) hl
    refine ⟨r1, ?_, r2⟩
    rw [reactor_append, reactor_append]
    rcases s5 with ⟨_, h⟩ | ⟨hpos, _⟩
    · exact h
    · have hneg : second.1.x_ns.x_sockfd = -1 := r1
      have hpos2 : 0 ≤ second.1.x_ns.x_sockfd := hpos
      omega

/-- The witness for C12: the registry 10, 11, 12 listens, accepts descriptor
13, and listens again, once with `listen` succeeding and once with `listen`
refusing. -/
theorem netreceive_listen_twice_witness :
    (let first := netreceive_listen registry_sample 3000 listen_ok_sample
     let mid := netreceive_accepts first.1 [(13, 4)]
     let second := netreceive_listen mid.1 3001 listen_ok_sample
     second.1.x_connections = [] ∧ second.1.x_nconnections = 0 ∧
     (∀ fd ∈ registered mid.1,
       Event.sys_rmpollfn fd ∈ second.2 ∧ Event.sys_closesocket fd ∈ second.2) ∧
     (∃ c ∈ listen_ok_sample.ailist, ∃ fd : Nat, c.socket = some fd ∧ 0 ≤ c.bind ∧
       second.1.x_ns.x_sockfd = (fd : Int)) ∧
     reactor (registered registry_sample) (first.2 ++ mid.2 ++ second.2)
       = [second.1.x_ns.x_sockfd]) ∧
    (let first := netreceive_listen registry_sample 3000 listen_ok_sample
     let mid := netreceive_accepts first.1 [(13, 4)]
     let second := netreceive_listen mid.1 3001 listen_refused_sample
     second.1.x_ns.x_sockfd = -1 ∧
     reactor (registered registry_sample) (first.2 ++ mid.2 ++ second.2) = [] ∧
     ∃ c ∈ listen_refused_sample.ailist, ∃ fd : Nat, c.socket = some fd ∧ 0 ≤ c.bind ∧
       Event.sys_closesocket (fd : Int) ∈ second.2) := by
  have h1 := netreceive_listen_twice registry_sample 3000 3001 listen_ok_sample
    listen_ok_sample [(13, 4)] (by decide) (by decide) (by decide) (by decide)
  have h2 := netreceive_listen_twice registry_sample 3000 3001 listen_ok_sample
    listen_refused_sample [(13, 4)] (by decide) (by decide) (by decide) (by decide)
  exact ⟨⟨h1.1, h1.2.1, h1.2.2.1, h1.2.2.2.1 (by decide)⟩,
    h2.2.2.2.2 (by decide) (by decide)⟩

/-! ## Connecting (`netsend_connect`) -/

/-- C13: a stream sender is given two candidates; the connect to the first is
refused, the second alone would connect (the last conjunct).  `netsend_connect`
returns after the first: the sender is left as it was, disconnected, and the
second candidate is never tried. -/
theorem netsend_connect_stops_at_refused_candidate :
    netsend_connect idle_sender_sample connect_args_sample connect_second_sample
      = (idle_sender_sample,
         [Event.post "connecting to port 3000",
          Event.sys_sockerror "connecting stream socket",
          Event.sys_closesocket 7]) ∧
    (netsend_connect idle_sender_sample connect_args_sample
        { connect_second_sample with
            ailist := connect_second_sample.ailist.drop 1 }).1.x_sockfd = 8 := by
  decide

/-- One round of the candidate loop sends nothing to an outlet and adds
nothing to the poll list. -/
theorem connect_round_quiet (x : t_netsend) (portno sportno : Int) (m : Bool)
    (c : t_connect_try) :
    ∀ e ∈ (netsend_connect_round x portno sportno m c).1,
      e.is_output = false ∧ e.is_addpoll = false := by
  have hopt : ∀ e ∈ (if x.x_protocol = t_socktype.SOCK_STREAM then
        (if c.boolopt < 0 then [Event.post "netsend: setsockopt (TCP_NODELAY) failed"]
          else [])
      else
        (if c.boolopt < 0 then [Event.post "netsend: setsockopt (SO_BROADCAST) failed"]
          else [])), e.is_output = false ∧ e.is_addpoll = false := by
    intro e he
    split_ifs at he <;> simp at he <;> subst he <;> exact ⟨rfl, rfl⟩
  have hport : ∀ e ∈ (if sportno ≠ 0 then
        [Event.post ("connecting to dest port " ++ toString portno ++ ", src port "
          ++ toString sportno)]
      else if (if x.x_protocol = t_socktype.SOCK_STREAM then m else c.is_multicast)
          = true then
        [Event.post ("connecting to port " ++ toString portno ++ ", multicast")]
      else [Event.post ("connecting to port " ++ toString portno)]),
      e.is_output = false ∧ e.is_addpoll = false := by
    intro e he
    split_ifs at he <;> simp at he <;> subst he <;> exact ⟨rfl, rfl⟩
  intro e he
  unfold netsend_connect_round at he
  simp only at he
  split at he
  · simp only [List.mem_append, List.mem_singleton] at he
    rcases he with (h | h) | h
    · exact hopt e h
    · exact hport e h
    · subst h; exact ⟨rfl, rfl⟩
  · split at he
    · simp only [List.mem_append, List.mem_cons, List.mem_singleton] at he
      rcases he with (h | h) | h
      · exact hopt e h
      · exact hport e h
      · rcases h with h | h | h
        · subst h; exact ⟨rfl, rfl⟩
        · subst h; exact ⟨rfl, rfl⟩
        · simp at h
    · split at he
      · simp only [List.mem_append, List.mem_cons, List.mem_singleton] at he
        rcases he with (h | h) | h
        · exact hopt e h
        · exact hport e h
        · rcases h with h | h | h
          · subst h; exact ⟨rfl, rfl⟩
          · subst h; exact ⟨rfl, rfl⟩
          · simp at h
      · simp only [List.mem_append] at he
        rcases he with h | h
        · exact hopt e h
        · exact hport e h

/-- A round on a stream sender whose connect is refused ends with a `return`. -/
theorem connect_round_refused (x : t_netsend) (portno sportno : Int) (m : Bool)
    (c : t_connect_try) (hstream : x.x_protocol = t_socktype.SOCK_STREAM)
    (hconn : c.connect < 0) :
    (netsend_connect_round x portno sportno m c).2 = false := by
  unfold netsend_connect_round
  simp only
  split
  · rfl
  · split
    · rfl
    · rw [if_pos ⟨hstream, hconn⟩]

/-- When no candidate of a list that is not empty succeeds, the candidate
loop ends with a `return` after a round, or is left with `sockfd = -1`. -/
theorem connect_try_fails (x : t_netsend) (portno sportno : Int) :
    ∀ (l : List t_connect_try) (s : Int) (m : Bool), l ≠ [] →
      (∀ c ∈ l, c.socket = none ∨
        (x.x_protocol = t_socktype.SOCK_STREAM ∧ c.connect < 0)) →
      (∃ ev, netsend_connect_try x portno sportno s m l = t_connect_loop.returned ev ∧
        ∀ e ∈ ev, e.is_output = false ∧ e.is_addpoll = false) ∨
      netsend_connect_try x portno sportno s m l = t_connect_loop.left (-1) none [] := by
  intro l
  induction l with
  | nil => intro s m h; exact absurd rfl h
  | cons c rest ih =>
    intro s m _ hall
    unfold netsend_connect_try
    cases hs : c.socket with
    | none =>
      simp only [socket_result]
      rw [if_pos (by decide)]
      cases rest with
      | nil => right; rfl
      | cons c2 rest2 =>
        exact ih (-1) m (by simp) (fun c3 h3 => hall c3 (List.mem_cons_of_mem _ h3))
    | some fd =>
      rw [if_neg (by simp [socket_result])]
      rcases hall c (List.mem_cons_self _ _) with h | ⟨hstream, hconn⟩
      · rw [hs] at h; simp at h
      · left
        have hr := connect_round_refused x portno sportno m c hstream hconn
        simp only [hr]
        exact ⟨_, rfl, connect_round_quiet x portno sportno m c⟩

/-- The part of `netsend_connect` after the arguments are read, for a
disconnected sender and candidates of which none succeeds: the sender is
returned as it was and the calls made touch no outlet and add nothing to the
poll list. -/
theorem connect_body_fails (x : t_netsend) (env : t_connect_env)
    (portno sportno : Int)
    (hidle : x.x_sockfd < 0)
    (hres : env.status = 0 → env.ailist ≠ [])
    (hfail : ∀ c ∈ env.ailist, c.socket = none ∨
      (x.x_protocol = t_socktype.SOCK_STREAM ∧ c.connect < 0)) :
    (if x.x_sockfd ≥ 0 then (x, [Event.error "netsend: already connected"])
      else if env.status ≠ 0 then
        (x, [Event.pd_error "netsend: bad host or port?"])
      else
        match netsend_connect_try x portno sportno env.sockfd false env.ailist with
        | t_connect_loop.returned ev => (x, ev)
        | t_connect_loop.left sockfd server ev =>
          ((netsend_connect_finish (match server with
              | some sa => { x with x_server := sa }
              | none => x) sockfd env.y).1,
           ev ++ (netsend_connect_finish (match server with
              | some sa => { x with x_server := sa }
              | none => x) sockfd env.y).2)).1 = x ∧
    ∀ e ∈ (if x.x_sockfd ≥ 0 then (x, [Event.error "netsend: already connected"])
      else if env.status ≠ 0 then
        (x, [Event.pd_error "netsend: bad host or port?"])
      else
        match netsend_connect_try x portno sportno env.sockfd false env.ailist with
        | t_connect_loop.returned ev => (x, ev)
        | t_connect_loop.left sockfd server ev =>
          ((netsend_connect_finish (match server with
              | some sa => { x with x_server := sa }
              | none => x) sockfd env.y).1,
           ev ++ (netsend_connect_finish (match server with
              | some sa => { x with x_server := sa }
              | none => x) sockfd env.y).2)).2,
      e.is_output = false ∧ e.is_addpoll = false := by
  rw [if_neg (by omega)]
  by_cases hst : env.status = 0
  · rw [if_neg (by simp [hst])]
    rcases connect_try_fails x portno sportno env.ailist env.sockfd false (hres hst)
        hfail with ⟨ev, htry, hquiet⟩ | htry
    · rw [htry]
      exact ⟨rfl, hquiet⟩
    · rw [htry]
      simp only [netsend_connect_finish, if_true, List.nil_append]
      refine ⟨trivial, ?_⟩
      intro e he
      simp at he; subst he; exact ⟨rfl, rfl⟩
  · rw [if_pos hst]
    refine ⟨rfl, ?_⟩
    intro e he
    simp at he; subst he; exact ⟨rfl, rfl⟩

/-- C14: take a disconnected sender and a `connect` in which no candidate
succeeds: the resolution fails (there is no candidate), or for every
candidate of the list, which a successful resolution never leaves empty, the
socket creation fails or, on a stream sender, the connect fails.  Then
`netsend_connect` leaves the sender exactly as it was (so `x_sockfd` stays
negative and no receiver is owned), adds no descriptor to the poll list and
sends nothing to an outlet, so never 1 to the connection-status outlet.  This
holds whatever the arguments of the message and whatever value the local
`sockfd` holds on entry. -/
theorem netsend_connect_failure_stays_disconnected (x : t_netsend)
    (argv : List t_atom) (env : t_connect_env)
    (hidle : x.x_sockfd < 0)
    (hres : env.status = 0 → env.ailist ≠ [])
    (hfail : ∀ c ∈ env.ailist, c.socket = none ∨
      (x.x_protocol = t_socktype.SOCK_STREAM ∧ c.connect < 0)) :
    (netsend_connect x argv env).1 = x ∧
    ∀ e ∈ (netsend_connect x argv env).2,
      e.is_output = false ∧ e.is_addpoll = false := by
  unfold netsend_connect
  split
  · simp only
    split
    · refine ⟨rfl, ?_⟩
      intro e he
      simp at he; subst he; exact ⟨rfl, rfl⟩
    · exact connect_body_fails x env _ _ hidle hres hfail
  · refine ⟨rfl, ?_⟩
    intro e he
    simp at he; subst he; exact ⟨rfl, rfl⟩

/-- The witness for C14: no socket for the first candidate, the connect to the
second refused. -/
theorem netsend_connect_failure_stays_disconnected_witness :
    (netsend_connect idle_sender_sample connect_args_sample connect_failing_sample).1
      = idle_sender_sample ∧
    ∀ e ∈ (netsend_connect idle_sender_sample connect_args_sample
        connect_failing_sample).2,
      e.is_output = false ∧ e.is_addpoll = false :=
  netsend_connect_failure_stays_disconnected idle_sender_sample connect_args_sample
    connect_failing_sample (by decide) (by decide) (by decide)

/-! ## Construction flags (`netsend_new`, `netreceive_new`) -/

/-- The flag loop of `netsend_new` on a run of flags followed by arguments
that do not start with a flag: binary mode is on if it was or `-b` occurs, the
protocol is datagram if `-u` occurs and else what it was, and the arguments
after the flags are left. -/
theorem netsend_flags_spec (rest : List t_atom)
    (hrest : ∀ a ∈ rest.head?, a.is_flag = false) :
    ∀ (flags : List t_atom) (bin : Bool) (proto : t_socktype),
      (∀ a ∈ flags, a.is_flag = true) →
      (netsend_new_flags bin proto (flags ++ rest)).1
        = (bin || decide (t_atom.A_SYMBOL "-b" ∈ flags)) ∧
      (netsend_new_flags bin proto (flags ++ rest)).2.1
        = (if t_atom.A_SYMBOL "-u" ∈ flags then t_socktype.SOCK_DGRAM else proto) ∧
      (netsend_new_flags bin proto (flags ++ rest)).2.2.1 = rest := by
  intro flags
  induction flags with
  | nil =>
    intro bin proto _
    simp only [List.nil_append, List.not_mem_nil, decide_False, Bool.or_false, if_false]
    cases rest with
    | nil => simp [netsend_new_flags]
    | cons a rest2 =>
      have ha : a.is_flag = false := hrest a (by simp)
      cases a with
      | A_SYMBOL s =>
        have hs : is_dash s = false := ha
        simp [netsend_new_flags, hs]
      | A_FLOAT f => simp [netsend_new_flags]
      | A_SEMI => simp [netsend_new_flags]
      | A_COMMA => simp [netsend_new_flags]
      | A_DOLLAR n => simp [netsend_new_flags]
      | A_DOLLSYM s => simp [netsend_new_flags]
  | cons a flags ih =>
    intro bin proto hflags
    have ha : a.is_flag = true := hflags a (List.mem_cons_self _ _)
    have hrec := fun b p => ih b p (fun c hc => hflags c (List.mem_cons_of_mem _ hc))
    cases a with
    | A_SYMBOL s =>
      have hs : is_dash s = true := ha
      simp only [List.cons_append, netsend_new_flags, hs, if_true, List.mem_cons,
        t_atom.A_SYMBOL.injEq, List.append_eq]
      by_cases hb : s = "-b"
      · obtain ⟨h1, h2, h3⟩ := hrec true proto
        subst hb
        simp only [if_true, h1, h2, h3]
        simp
      · rw [if_neg hb]
        by_cases hu : s = "-u"
        · obtain ⟨h1, h2, h3⟩ := hrec bin t_socktype.SOCK_DGRAM
          subst hu
          simp only [if_true, h1, h2, h3]
          simp
        · obtain ⟨h1, h2, h3⟩ := hrec bin proto
          rw [if_neg hu]
          simp only [h1, h2, h3]
          have e1 : ("-b" = s) = False := by
            simp only [eq_iff_iff, iff_false]; exact fun h => hb h.symm
          have e2 : ("-u" = s) = False := by
            simp only [eq_iff_iff, iff_false]; exact fun h => hu h.symm
          simp [e1, e2]
    | A_FLOAT f => simp [t_atom.is_flag] at ha
    | A_SEMI => simp [t_atom.is_flag] at ha
    | A_COMMA => simp [t_atom.is_flag] at ha
    | A_DOLLAR n => simp [t_atom.is_flag] at ha
    | A_DOLLSYM s => simp [t_atom.is_flag] at ha

/-- The flag loop of `netreceive_new` on a run of flags followed by arguments
that do not start with a flag. -/
theorem netreceive_flags_spec (rest : List t_atom)
    (hrest : ∀ a ∈ rest.head?, a.is_flag = false) :
    ∀ (flags : List t_atom) (a : t_newargs),
      (∀ c ∈ flags, c.is_flag = true) →
      (netreceive_new_flags a (flags ++ rest)).bin
        = (a.bin || decide (t_atom.A_SYMBOL "-b" ∈ flags)) ∧
      (netreceive_new_flags a (flags ++ rest)).protocol
        = (if t_atom.A_SYMBOL "-u" ∈ flags then t_socktype.SOCK_DGRAM
            else a.protocol) ∧
      (netreceive_new_flags a (flags ++ rest)).from_flag
        = (a.from_flag || decide (t_atom.A_SYMBOL "-f" ∈ flags)) ∧
      (netreceive_new_flags a (flags ++ rest)).argv = rest ∧
      (netreceive_new_flags a (flags ++ rest)).portno = a.portno ∧
      (netreceive_new_flags a (flags ++ rest)).old = a.old := by
  intro flags
  induction flags with
  | nil =>
    intro a _
    simp only [List.nil_append, List.not_mem_nil, decide_False, Bool.or_false, if_false]
    cases rest with
    | nil => simp [netreceive_new_flags]
    | cons c rest2 =>
      have hc : c.is_flag = false := hrest c (by simp)
      cases c with
      | A_SYMBOL s =>
        have hs : is_dash s = false := hc
        simp [netreceive_new_flags, hs]
      | A_FLOAT f => simp [netreceive_new_flags]
      | A_SEMI => simp [netreceive_new_flags]
      | A_COMMA => simp [netreceive_new_flags]
      | A_DOLLAR n => simp [netreceive_new_flags]
      | A_DOLLSYM s => simp [netreceive_new_flags]
  | cons c flags ih =>
    intro a hflags
    have hc : c.is_flag = true := hflags c (List.mem_cons_self _ _)
    have hrec := fun a2 => ih a2 (fun c2 hc2 => hflags c2 (List.mem_cons_of_mem _ hc2))
    cases c with
    | A_SYMBOL s =>
      have hs : is_dash s = true := hc
      simp only [List.cons_append, netreceive_new_flags, hs, if_true, List.mem_cons,
        t_atom.A_SYMBOL.injEq, List.append_eq]
      by_cases hb : s = "-b"
      · obtain ⟨h1, h2, h3, h4, h5, h6⟩ := hrec { a with bin := true }
        subst hb
        simp only [if_true, h1, h2, h3, h4, h5, h6]
        simp
      · rw [if_neg hb]
        have e1 : ("-b" = s) = False := by
          simp only [eq_iff_iff, iff_false]; exact fun h => hb h.symm
        by_cases hu : s = "-u"
        · obtain ⟨h1, h2, h3, h4, h5, h6⟩ :=
            hrec { a with protocol := t_socktype.SOCK_DGRAM }
          subst hu
          simp only [if_true, h1, h2, h3, h4, h5, h6]
          simp
        · rw [if_neg hu]
          have e2 : ("-u" = s) = False := by
            simp only [eq_iff_iff, iff_false]; exact fun h => hu h.symm
          by_cases hf : s = "-f"
          · obtain ⟨h1, h2, h3, h4, h5, h6⟩ := hrec { a with from_flag := true }
            subst hf
            simp only [if_true, h1, h2, h3, h4, h5, h6]
            simp
          · rw [if_neg hf]
            have e3 : ("-f" = s) = False := by
              simp only [eq_iff_iff, iff_false]; exact fun h => hf h.symm
            obtain ⟨h1, h2, h3, h4, h5, h6⟩ := hrec
              { a with ev := a.ev ++
                  [Event.pd_error "netreceive: unknown flag ...",
                   Event.postatom (t_atom.A_SYMBOL s :: (flags ++ rest))] }
            simp only [h1, h2, h3, h4, h5, h6]
            simp [e1, e2, e3]
    | A_FLOAT f => simp [t_atom.is_flag] at hc
    | A_SEMI => simp [t_atom.is_flag] at hc
    | A_COMMA => simp [t_atom.is_flag] at hc
    | A_DOLLAR n => simp [t_atom.is_flag] at hc
    | A_DOLLSYM s => simp [t_atom.is_flag] at hc

/-- `netreceive_closeall` and `netreceive_listen` keep the mode, the protocol
and the peer-address outlet. -/
theorem listen_keeps_config (x : t_netreceive) (p : t_float) (env : t_listen_env) :
    (netreceive_listen x p env).1.x_ns.x_bin = x.x_ns.x_bin ∧
    (netreceive_listen x p env).1.x_ns.x_protocol = x.x_ns.x_protocol ∧
    (netreceive_listen x p env).1.x_ns.x_fromout = x.x_ns.x_fromout := by
  unfold netreceive_listen
  simp only
  split_ifs <;> simp [netreceive_closeall]

/-- The object `netreceive_new` builds does not depend on the calls made
while the arguments were read. -/
theorem new_finish_state (a1 a2 : t_newargs) (env : t_listen_env)
    (h1 : a1.portno = a2.portno) (h2 : a1.protocol = a2.protocol)
    (h3 : a1.old = a2.old) (h4 : a1.bin = a2.bin)
    (h5 : a1.from_flag = a2.from_flag) (h6 : a1.argv = a2.argv) :
    (netreceive_new_finish a1 env).1 = (netreceive_new_finish a2 env).1 := by
  cases a1
  cases a2
  simp only at h1 h2 h3 h4 h5 h6
  subst h1 h2 h3 h4 h5 h6
  unfold netreceive_new_finish
  simp only
  split <;> rfl

/-- The mode, the protocol and the peer-address outlet of the object
`netreceive_new` builds are those the flags selected. -/
theorem new_finish_config (a : t_newargs) (env : t_listen_env) :
    (netreceive_new_finish a env).1.x_ns.x_bin = a.bin ∧
    (netreceive_new_finish a env).1.x_ns.x_protocol = a.protocol ∧
    ((netreceive_new_finish a env).1.x_ns.x_fromout ≠ none ↔ a.from_flag = true) := by
  unfold netreceive_new_finish
  simp only
  split
  · refine ⟨(listen_keeps_config _ _ _).1.trans rfl,
      (listen_keeps_config _ _ _).2.1.trans rfl, ?_⟩
    rw [(listen_keeps_config _ _ _).2.2]
    cases a.from_flag <;> simp
  · cases a.from_flag <;> simp

/-- Arguments that start with a flag or with nothing numeric take the flag
branch of `netsend_new`. -/
theorem netsend_new_flag_form (argv : List t_atom)
    (hform : ∀ f, argv.head? ≠ some (t_atom.A_FLOAT f)) :
    (netsend_new argv).1.x_bin
      = (netsend_new_flags false t_socktype.SOCK_STREAM argv).1 ∧
    (netsend_new argv).1.x_protocol
      = (netsend_new_flags false t_socktype.SOCK_STREAM argv).2.1 := by
  unfold netsend_new
  cases argv with
  | nil => simp
  | cons a rest =>
    cases a with
    | A_FLOAT f => exact absurd rfl (hform f)
    | A_SYMBOL s => simp
    | A_SEMI => simp
    | A_COMMA => simp
    | A_DOLLAR n => simp
    | A_DOLLSYM s => simp

/-- Arguments that start with a flag or with nothing numeric take the flag
branch of `netreceive_new`. -/
theorem netreceive_new_flag_form (argv : List t_atom)
    (hform : ∀ f, argv.head? ≠ some (t_atom.A_FLOAT f)) :
    netreceive_new_parse argv
      = netreceive_new_flags
          { portno := 0, protocol := t_socktype.SOCK_STREAM, old := false,
            bin := false, from_flag := false, argv := [], ev := [] } argv := by
  unfold netreceive_new_parse
  cases argv with
  | nil => simp
  | cons a rest =>
    cases a with
    | A_FLOAT f => exact absurd rfl (hform f)
    | A_SYMBOL s => simp
    | A_SEMI => simp
    | A_COMMA => simp
    | A_DOLLAR n => simp
    | A_DOLLSYM s => simp

/-- The state of a sender is its mode and protocol; all else is fixed by
`netsend_new`. -/
theorem netsend_new_state (argv1 argv2 : List t_atom)
    (hb : (netsend_new argv1).1.x_bin = (netsend_new argv2).1.x_bin)
    (hp : (netsend_new argv1).1.x_protocol = (netsend_new argv2).1.x_protocol) :
    (netsend_new argv1).1 = (netsend_new argv2).1 := by
  unfold netsend_new at hb hp ⊢
  simp only at hb hp ⊢
  rw [hb, hp]

/-- A permutation of a run of flags that starts a flag-form argument list
starts a flag-form argument list too. -/
theorem flag_form_perm (flags1 flags2 rest : List t_atom)
    (hperm : flags1.Perm flags2)
    (hflags : ∀ a ∈ flags1, a.is_flag = true)
    (hform : ∀ f, (flags1 ++ rest).head? ≠ some (t_atom.A_FLOAT f)) :
    ∀ f, (flags2 ++ rest).head? ≠ some (t_atom.A_FLOAT f) := by
  intro f
  cases flags2 with
  | nil =>
    have h1 : flags1 = [] := hperm.eq_nil
    subst h1
    exact hform f
  | cons c t =>
    intro hc
    simp only [List.cons_append, List.head?_cons, Option.some.injEq] at hc
    have hmem : c ∈ flags1 := hperm.mem_iff.mpr (List.mem_cons_self c t)
    have hfl := hflags c hmem
    rw [hc] at hfl
    simp [t_atom.is_flag] at hfl

/-- C18 (counterexample): with no flag at all the protocol can still be
datagram.  `netsend_new` on the single argument `1` and `netreceive_new` on
`3000 1` take the numeric form of the arguments, where a number selects the
protocol: both objects are datagram objects although `-u` does not occur. -/
theorem construction_numeric_form_selects_datagram :
    ¬ ((netsend_new (([] : List t_atom) ++ [t_atom.A_FLOAT 1])).1.x_protocol
          = t_socktype.SOCK_DGRAM ↔ t_atom.A_SYMBOL "-u" ∈ ([] : List t_atom)) ∧
    ¬ ((netreceive_new (([] : List t_atom) ++ [t_atom.A_FLOAT 3000, t_atom.A_FLOAT 1])
          listen_ok_sample).1.x_ns.x_protocol
          = t_socktype.SOCK_DGRAM ↔ t_atom.A_SYMBOL "-u" ∈ ([] : List t_atom)) := by
  decide

/-- C18 (amended): construction flags are order-independent when the
arguments do not begin with a number.  For arguments `flags1 ++ rest` whose
leading run of dash-prefixed symbols is `flags1`, and every permutation
`flags2` of that run, `netsend_new` builds the same object for both orders and
so does `netreceive_new` (under the same answers of the system to its first
listen); binary mode is on iff `-b` occurs, the protocol is datagram iff `-u`
occurs, and the receiver has its peer-address outlet iff `-f` occurs. -/
theorem construction_flags_order_independent
    (flags1 flags2 rest : List t_atom) (env : t_listen_env)
    (hperm : flags1.Perm flags2)
    (hflags : ∀ a ∈ flags1, a.is_flag = true)
    (hrest : ∀ a ∈ rest.head?, a.is_flag = false)
    (hform : ∀ f, (flags1 ++ rest).head? ≠ some (t_atom.A_FLOAT f)) :
    (netsend_new (flags1 ++ rest)).1 = (netsend_new (flags2 ++ rest)).1 ∧
    (netreceive_new (flags1 ++ rest) env).1 = (netreceive_new (flags2 ++ rest) env).1 ∧
    ((netsend_new (flags1 ++ rest)).1.x_bin = true ↔ t_atom.A_SYMBOL "-b" ∈ flags1) ∧
    ((netsend_new (flags1 ++ rest)).1.x_protocol = t_socktype.SOCK_DGRAM
      ↔ t_atom.A_SYMBOL "-u" ∈ flags1) ∧
    ((netreceive_new (flags1 ++ rest) env).1.x_ns.x_bin = true
      ↔ t_atom.A_SYMBOL "-b" ∈ flags1) ∧
    ((netreceive_new (flags1 ++ rest) env).1.x_ns.x_protocol = t_socktype.SOCK_DGRAM
      ↔ t_atom.A_SYMBOL "-u" ∈ flags1) ∧
    ((netreceive_new (flags1 ++ rest) env).1.x_ns.x_fromout ≠ none
      ↔ t_atom.A_SYMBOL "-f" ∈ flags1) := by
  have hform2 := flag_form_perm flags1 flags2 rest hperm hflags hform
  have hflags2 : ∀ a ∈ flags2, a.is_flag = true :=
    fun a ha => hflags a (hperm.mem_iff.mpr ha)
  have hmem : ∀ a : t_atom, decide (a ∈ flags1) = decide (a ∈ flags2) := by
    intro a
    simp only [hperm.mem_iff]
  have hmemu : (t_atom.A_SYMBOL "-u" ∈ flags1) ↔ (t_atom.A_SYMBOL "-u" ∈ flags2) :=
    hperm.mem_iff
  obtain ⟨sb1, sp1⟩ := netsend_new_flag_form (flags1 ++ rest) hform
  obtain ⟨sb2, sp2⟩ := netsend_new_flag_form (flags2 ++ rest) hform2
  obtain ⟨fb1, fp1, _⟩ :=
    netsend_flags_spec rest hrest flags1 false t_socktype.SOCK_STREAM hflags
  obtain ⟨fb2, fp2, _⟩ :=
    netsend_flags_spec rest hrest flags2 false t_socktype.SOCK_STREAM hflags2
  have hr1 := netreceive_new_flag_form (flags1 ++ rest) hform
  have hr2 := netreceive_new_flag_form (flags2 ++ rest) hform2
  obtain ⟨rb1, rp1, rf1, ra1, rn1, ro1⟩ :=
    netreceive_flags_spec rest hrest flags1
      { portno := 0, protocol := t_socktype.SOCK_STREAM, old := false,
        bin := false, from_flag := false, argv := [], ev := [] } hflags
  obtain ⟨rb2, rp2, rf2, ra2, rn2, ro2⟩ :=
    netreceive_flags_spec rest hrest flags2
      { portno := 0, protocol := t_socktype.SOCK_STREAM, old := false,
        bin := false, from_flag := false, argv := [], ev := [] } hflags2
  obtain ⟨cb, cp, cf⟩ := new_finish_config (netreceive_new_parse (flags1 ++ rest)) env
  refine ⟨?_, ?_, ?_, ?_, ?_, ?_, ?_⟩
  · apply netsend_new_state
    · rw [sb1, sb2, fb1, fb2, hmem]
    · rw [sp1, sp2, fp1, fp2]
      simp only [hmemu]
  · unfold netreceive_new
    apply new_finish_state
    · rw [hr1, hr2, rn1, rn2]
    · rw [hr1, hr2, rp1, rp2]
      simp only [hmemu]
    · rw [hr1, hr2, ro1, ro2]
    · rw [hr1, hr2, rb1, rb2, hmem]
    · rw [hr1, hr2, rf1, rf2, hmem]
    · rw [hr1, hr2, ra1, ra2]
  · rw [sb1, fb1]
    simp
  · rw [sp1, fp1]
    by_cases h : t_atom.A_SYMBOL "-u" ∈ flags1 <;> simp [h]
  · unfold netreceive_new
    rw [cb, hr1, rb1]
    simp
  · unfold netreceive_new
    rw [cp, hr1, rp1]
    by_cases h : t_atom.A_SYMBOL "-u" ∈ flags1 <;> simp [h]
  · unfold netreceive_new
    rw [cf, hr1, rf1]
    simp

/-- C18 (witness): the flags `-u -b -f` before the port `3000`, against the
order `-f -u -b`. -/
theorem construction_flags_order_independent_witness :
    (netsend_new ([t_atom.A_SYMBOL "-u", t_atom.A_SYMBOL "-b", t_atom.A_SYMBOL "-f"]
        ++ [t_atom.A_FLOAT 3000])).1
      = (netsend_new ([t_atom.A_SYMBOL "-f", t_atom.A_SYMBOL "-u", t_atom.A_SYMBOL "-b"]
        ++ [t_atom.A_FLOAT 3000])).1 ∧
    (netreceive_new ([t_atom.A_SYMBOL "-u", t_atom.A_SYMBOL "-b", t_atom.A_SYMBOL "-f"]
        ++ [t_atom.A_FLOAT 3000]) listen_ok_sample).1
      = (netreceive_new ([t_atom.A_SYMBOL "-f", t_atom.A_SYMBOL "-u", t_atom.A_SYMBOL "-b"]
        ++ [t_atom.A_FLOAT 3000]) listen_ok_sample).1 ∧
    ((netsend_new ([t_atom.A_SYMBOL "-u", t_atom.A_SYMBOL "-b", t_atom.A_SYMBOL "-f"]
        ++ [t_atom.A_FLOAT 3000])).1.x_bin = true
      ↔ t_atom.A_SYMBOL "-b"
        ∈ [t_atom.A_SYMBOL "-u", t_atom.A_SYMBOL "-b", t_atom.A_SYMBOL "-f"]) ∧
    ((netsend_new ([t_atom.A_SYMBOL "-u", t_atom.A_SYMBOL "-b", t_atom.A_SYMBOL "-f"]
        ++ [t_atom.A_FLOAT 3000])).1.x_protocol = t_socktype.SOCK_DGRAM
      ↔ t_atom.A_SYMBOL "-u"
        ∈ [t_atom.A_SYMBOL "-u", t_atom.A_SYMBOL "-b", t_atom.A_SYMBOL "-f"]) ∧
    ((netreceive_new ([t_atom.A_SYMBOL "-u", t_atom.A_SYMBOL "-b", t_atom.A_SYMBOL "-f"]
        ++ [t_atom.A_FLOAT 3000]) listen_ok_sample).1.x_ns.x_bin = true
      ↔ t_atom.A_SYMBOL "-b"
        ∈ [t_atom.A_SYMBOL "-u", t_atom.A_SYMBOL "-b", t_atom.A_SYMBOL "-f"]) ∧
    ((netreceive_new ([t_atom.A_SYMBOL "-u", t_atom.A_SYMBOL "-b", t_atom.A_SYMBOL "-f"]
        ++ [t_atom.A_FLOAT 3000]) listen_ok_sample).1.x_ns.x_protocol
        = t_socktype.SOCK_DGRAM
      ↔ t_atom.A_SYMBOL "-u"
        ∈ [t_atom.A_SYMBOL "-u", t_atom.A_SYMBOL "-b", t_atom.A_SYMBOL "-f"]) ∧
    ((netreceive_new ([t_atom.A_SYMBOL "-u", t_atom.A_SYMBOL "-b", t_atom.A_SYMBOL "-f"]
        ++ [t_atom.A_FLOAT 3000]) listen_ok_sample).1.x_ns.x_fromout ≠ none
      ↔ t_atom.A_SYMBOL "-f"
        ∈ [t_atom.A_SYMBOL "-u", t_atom.A_SYMBOL "-b", t_atom.A_SYMBOL "-f"]) :=
  construction_flags_order_independent
    [t_atom.A_SYMBOL "-u", t_atom.A_SYMBOL "-b", t_atom.A_SYMBOL "-f"]
    [t_atom.A_SYMBOL "-f", t_atom.A_SYMBOL "-u", t_atom.A_SYMBOL "-b"]
    [t_atom.A_FLOAT 3000] listen_ok_sample
    (by decide) (by decide) (by decide) (by intro f; simp)

end XNet

/-! # Theorems on the undo queue -/

namespace GUndo

/-! ## Memory -/

/-- A cell that was just written reads back. -/
theorem load_store_same (h : List (Option t_undo_action)) (p : Nat) (n : t_undo_action) :
    load (store h p n) p = some n := by
  unfold load store
  split_ifs with hp
  · simp [List.getElem?_set, hp]
  · have hp2 : h.length ≤ p := by omega
    rw [List.getElem?_append_right (by simp; omega)]
    simp
    have : p - (h.length + (p - h.length)) = 0 := by omega
    simp [this]

/-- Writing a cell leaves the other cells as they are. -/
theorem load_store_other (h : List (Option t_undo_action)) (p q : Nat)
    (n : t_undo_action) (hq : q ≠ p) :
    load (store h p n) q = load h q := by
  unfold load store
  split_ifs with hp
  · rw [List.getElem?_set_ne (Ne.symm hq)]
  · have hp2 : h.length ≤ p := by omega
    by_cases h1 : q < h.length
    · rw [List.append_assoc, List.getElem?_append_left h1]
    · have h3 : h[q]? = none := List.getElem?_eq_none (by omega)
      rw [h3]
      by_cases h2 : q < p
      · rw [List.getElem?_append_left (by simp; omega),
          List.getElem?_append_right (by omega)]
        rw [List.getElem?_replicate]
        split_ifs <;> rfl
      · rw [List.getElem?_eq_none (by simp; omega)]

/-- A released cell is not allocated. -/
theorem load_free_same (h : List (Option t_undo_action)) (p : Nat) :
    load (freebytes h p) p = none := by
  unfold load freebytes
  by_cases hp : p < h.length
  · simp [List.getElem?_set, hp]
  · simp [List.getElem?_set, hp]

/-- Releasing a cell leaves the other cells as they are. -/
theorem load_free_other (h : List (Option t_undo_action)) (p q : Nat) (hq : q ≠ p) :
    load (freebytes h p) q = load h q := by
  unfold load freebytes
  rw [List.getElem?_set_ne (Ne.symm hq)]

/-- An allocated cell lies inside the table. -/
theorem load_lt (h : List (Option t_undo_action)) (p : Nat) (n : t_undo_action)
    (hl : load h p = some n) : p < h.length := by
  unfold load at hl
  by_contra hp
  rw [List.getElem?_eq_none (by omega)] at hl
  simp at hl

/-! ## Chains -/

/-- What `linked` says about the first cell of a chain. -/
theorem linked_cons (h : List (Option t_undo_action)) (b a : Option Nat) (p : Nat)
    (rest : List Nat) (hl : linked h b (p :: rest) a = true) :
    ∃ n, load h p = some n ∧ n.prev = b ∧ n.next = first_or rest a ∧
      linked h (some p) rest a = true := by
  unfold linked at hl
  cases hp : load h p with
  | none => rw [hp] at hl; simp at hl
  | some n =>
    rw [hp] at hl
    simp only [Bool.and_eq_true, decide_eq_true_eq] at hl
    exact ⟨n, rfl, hl.1.1, hl.1.2, hl.2⟩

/-- A chain is built from its first cell and the chain of the rest. -/
theorem linked_of_cons (h : List (Option t_undo_action)) (b a : Option Nat) (p : Nat)
    (rest : List Nat) (n : t_undo_action) (hp : load h p = some n)
    (hprev : n.prev = b) (hnext : n.next = first_or rest a)
    (hrest : linked h (some p) rest a = true) :
    linked h b (p :: rest) a = true := by
  unfold linked
  rw [hp]
  simp only [Bool.and_eq_true, decide_eq_true_eq]
  exact ⟨⟨hprev, hnext⟩, hrest⟩

/-- The test `linked` makes on a first cell that is allocated. -/
theorem linked_cons_eq (h : List (Option t_undo_action)) (b a : Option Nat) (p : Nat)
    (rest : List Nat) (n : t_undo_action) (hp : load h p = some n) :
    linked h b (p :: rest) a
      = (decide (n.prev = b) && decide (n.next = first_or rest a) &&
          linked h (some p) rest a) := by
  conv_lhs => unfold linked
  rw [hp]

/-- A chain does not start in a cell that is not allocated. -/
theorem linked_cons_none (h : List (Option t_undo_action)) (b a : Option Nat) (p : Nat)
    (rest : List Nat) (hp : load h p = none) :
    linked h b (p :: rest) a = false := by
  conv_lhs => unfold linked
  rw [hp]

/-- With nothing to follow, `undo_chain` finds the empty sequence. -/
theorem undo_chain_none (h : List (Option t_undo_action)) (fuel : Nat) :
    undo_chain h fuel none = some [] := by
  cases fuel <;> rfl

/-- One step of `undo_chain` from an allocated cell. -/
theorem undo_chain_some (h : List (Option t_undo_action)) (fuel p : Nat)
    (n : t_undo_action) (hp : load h p = some n) :
    undo_chain h (fuel + 1) (some p)
      = (undo_chain h fuel n.next).map (fun l => p :: l) := by
  conv_lhs => unfold undo_chain
  rw [hp]

/-- Whether cells are linked depends on those cells only. -/
theorem linked_congr (h h2 : List (Option t_undo_action)) (a : Option Nat) :
    ∀ (l : List Nat) (b : Option Nat), (∀ p ∈ l, load h2 p = load h p) →
      linked h2 b l a = linked h b l a := by
  intro l
  induction l with
  | nil => intro b _; rfl
  | cons p rest ih =>
    intro b hsame
    unfold linked
    rw [hsame p (List.mem_cons_self _ _),
      ih (some p) (fun q hq => hsame q (List.mem_cons_of_mem _ hq))]

/-- The first address of a concatenation. -/
theorem first_or_append (l1 l2 : List Nat) (d : Option Nat) :
    first_or (l1 ++ l2) d = first_or l1 (first_or l2 d) := by
  cases l1 <;> rfl

/-- The last address of a list that starts with `p`. -/
theorem last_or_cons (p : Nat) (l : List Nat) (d : Option Nat) :
    last_or (p :: l) d = last_or l (some p) := by
  unfold last_or
  cases l with
  | nil => rfl
  | cons q rest =>
    rw [List.getLast?_cons_cons]
    cases hg : (q :: rest).getLast? with
    | none => exact absurd (List.getLast?_eq_none_iff.mp hg) (by simp)
    | some r => rfl

/-- A chain splits into two chains that point at each other. -/
theorem linked_append (h : List (Option t_undo_action)) (a : Option Nat) :
    ∀ (l1 l2 : List Nat) (b : Option Nat),
      linked h b (l1 ++ l2) a
        = (linked h b l1 (first_or l2 a) && linked h (last_or l1 b) l2 a) := by
  intro l1
  induction l1 with
  | nil => intro l2 b; simp [linked, last_or]
  | cons p rest ih =>
    intro l2 b
    rw [List.cons_append, last_or_cons]
    cases hp : load h p with
    | none => rw [linked_cons_none h _ _ _ _ hp, linked_cons_none h _ _ _ _ hp]; rfl
    | some n =>
      rw [linked_cons_eq h _ _ _ _ n hp, linked_cons_eq h _ _ _ _ n hp,
        ih l2 (some p), first_or_append]
      simp only [Bool.and_assoc]

/-- Every cell of a chain is allocated. -/
theorem linked_mem (h : List (Option t_undo_action)) (a : Option Nat) :
    ∀ (l : List Nat) (b : Option Nat), linked h b l a = true →
      ∀ p ∈ l, ∃ n, load h p = some n := by
  intro l
  induction l with
  | nil => intro b _ p hp; simp at hp
  | cons q rest ih =>
    intro b hl p hp
    obtain ⟨n, hq, _, _, hrest⟩ := linked_cons h b a q rest hl
    rcases List.mem_cons.mp hp with rfl | hmem
    · exact ⟨n, hq⟩
    · exact ih (some q) hrest p hmem

/-- More fuel does not change the sequence `undo_chain` finds. -/
theorem undo_chain_mono (h : List (Option t_undo_action)) :
    ∀ (fuel k : Nat) (p : Option Nat) (l : List Nat),
      undo_chain h fuel p = some l → undo_chain h (fuel + k) p = some l := by
  intro fuel
  induction fuel with
  | zero =>
    intro k p l hc
    cases p with
    | none => rw [undo_chain_none] at hc ⊢; exact hc
    | some q => simp [undo_chain] at hc
  | succ f ih =>
    intro k p l hc
    cases p with
    | none => rw [undo_chain_none] at hc ⊢; exact hc
    | some q =>
      have hk : f + 1 + k = (f + k) + 1 := by omega
      rw [hk]
      cases hq : load h q with
      | none => simp [undo_chain, hq] at hc
      | some n =>
        rw [undo_chain_some h _ _ n hq] at hc ⊢
        cases hr : undo_chain h f n.next with
        | none => rw [hr] at hc; simp at hc
        | some r =>
          rw [hr] at hc
          rw [ih k n.next r hr]
          exact hc

/-- Following `next` from the first cell of a chain that ends in `NULL` finds
the chain. -/
theorem linked_chain (h : List (Option t_undo_action)) :
    ∀ (l : List Nat) (b : Option Nat), linked h b l none = true →
      undo_chain h l.length (first_or l none) = some l := by
  intro l
  induction l with
  | nil => intro b _; rfl
  | cons p rest ih =>
    intro b hl
    obtain ⟨n, hp, _, hnext, hrest⟩ := linked_cons h b none p rest hl
    simp only [first_or, List.length_cons]
    rw [undo_chain_some h _ _ n hp, hnext, ih (some p) hrest]
    rfl

/-- The first address of a list, with `NULL` for the empty list, is its head. -/
theorem first_or_none (l : List Nat) : first_or l none = l.head? := by
  cases l <;> rfl

/-- The last address of a list that ends with `p`. -/
theorem last_or_concat (l : List Nat) (p : Nat) (d : Option Nat) :
    last_or (l ++ [p]) d = some p := by
  unfold last_or
  rw [List.getLast?_append, List.getLast?_singleton]
  rfl

/-- The cells of a chain that ends in `NULL` are pairwise distinct. -/
theorem linked_nodup (h : List (Option t_undo_action)) :
    ∀ (l : List Nat) (b : Option Nat), linked h b l none = true → l.Nodup := by
  intro l
  induction l with
  | nil => intro b _; exact List.nodup_nil
  | cons p rest ih =>
    intro b hl
    obtain ⟨n, _, _, _, hrest⟩ := linked_cons h b none p rest hl
    refine List.nodup_cons.mpr ⟨?_, ih (some p) hrest⟩
    intro hmem
    obtain ⟨r1, r2, hr⟩ := List.append_of_mem hmem
    have hc1 := linked_chain h (p :: rest) b hl
    have hl2 : linked h b ((p :: r1) ++ (p :: r2)) none = true := by
      rw [List.cons_append, ← hr]
      exact hl
    rw [linked_append, Bool.and_eq_true] at hl2
    have hc2 := linked_chain h (p :: r2) _ hl2.2
    have hc3 := undo_chain_mono h _ (r1.length + 1) _ _ hc2
    have hlen : (p :: r2).length + (r1.length + 1) = (p :: rest).length := by
      rw [hr]
      simp only [List.length_cons, List.length_append]
      omega
    rw [hlen] at hc3
    simp only [first_or] at hc1 hc3
    rw [hc1] at hc3
    have hlen2 := congrArg List.length (Option.some.inj hc3)
    rw [hr] at hlen2
    simp only [List.length_cons, List.length_append] at hlen2
    omega

/-- Distinct numbers below `n` are at most `n` many. -/
theorem nodup_bounded (l : List Nat) (n : Nat) (hn : l.Nodup) (hb : ∀ q ∈ l, q < n) :
    l.length ≤ n := by
  have hsub : l.toFinset ⊆ Finset.range n := by
    intro q hq
    rw [List.mem_toFinset] at hq
    exact Finset.mem_range.mpr (hb q hq)
  calc l.length = l.toFinset.card := (List.toFinset_card_of_nodup hn).symm
    _ ≤ (Finset.range n).card := Finset.card_le_card hsub
    _ = n := Finset.card_range n

/-- A chain from `NULL` to `NULL` that starts at the head of the queue is the
sequence of actions of the queue. -/
theorem linked_queue_actions (s : t_mem) (l : List Nat)
    (hqueue : s.undo.u_queue = l.head?)
    (hlinked : linked s.cells none l none = true) :
    queue_actions s = some l := by
  have hlen : l.length ≤ s.cells.length := by
    apply nodup_bounded l _ (linked_nodup s.cells l none hlinked)
    intro q hq
    obtain ⟨n, hn⟩ := linked_mem s.cells none l none hlinked q hq
    exact load_lt s.cells q n hn
  have hc := undo_chain_mono s.cells _ (s.cells.length - l.length) _ _
    (linked_chain s.cells l none hlinked)
  have hfuel : l.length + (s.cells.length - l.length) = s.cells.length := by omega
  rw [hfuel, first_or_none] at hc
  unfold queue_actions
  rw [hqueue]
  exact hc

/-- The two cells around a link inside a chain: the cursor `c` and the action
`p` before it point at each other. -/
theorem linked_around (h : List (Option t_undo_action)) (l1 post : List Nat)
    (p c : Nat) (b a : Option Nat)
    (hl : linked h b (l1 ++ [p] ++ c :: post) a = true) :
    ∃ pn cn, load h p = some pn ∧ pn.next = some c ∧ pn.prev = last_or l1 b ∧
      load h c = some cn ∧ cn.prev = some p ∧ cn.next = first_or post a := by
  rw [linked_append, Bool.and_eq_true, last_or_concat] at hl
  obtain ⟨h1, h2⟩ := hl
  rw [linked_append, Bool.and_eq_true] at h1
  obtain ⟨pn, hp, hpprev, hpnext, _⟩ := linked_cons h _ _ p [] h1.2
  obtain ⟨cn, hc, hcprev, hcnext, _⟩ := linked_cons h _ _ c post h2
  exact ⟨pn, cn, hp, hpnext, hpprev, hc, hcprev, hcnext⟩

/-! ## Undo and redo (`canvas_undo_undo`, `canvas_undo_redo`) -/

/-- With the cursor on the head of the queue, or with no queue at all,
`canvas_undo_undo` only suspends and resumes the DSP. -/
theorem undo_at_head (vis : Bool) (dspwas : Int) (x : Nat) (s : t_mem)
    (h : s.undo.u_last = s.undo.u_queue) :
    canvas_undo_undo vis dspwas x s
      = some (s, [Event.canvas_suspend_dsp, Event.canvas_resume_dsp dspwas]) := by
  unfold canvas_undo_undo
  rw [if_neg]
  intro hc
  exact hc.2 h

/-- One undo from a cursor `c` whose `prev` is the action `p`: the cursor
moves to `p` and no cell is written. -/
theorem undo_step (vis : Bool) (dspwas : Int) (x : Nat) (s : t_mem) (p c q : Nat)
    (pn cn qn : t_undo_action)
    (hqueue : s.undo.u_queue ≠ none) (hne : s.undo.u_last ≠ s.undo.u_queue)
    (hlast : s.undo.u_last = some c) (hc : load s.cells c = some cn)
    (hcprev : cn.prev = some p) (hp : load s.cells p = some pn)
    (hpnext : pn.next = some q) (hq : load s.cells q = some qn) :
    ∃ ev, canvas_undo_undo vis dspwas x s
      = some ({ s with
                undo := { s.undo with u_last := some p },
                we_are_undoing := 0,
                canvas_undo_name := cn.name }, ev) := by
  unfold canvas_undo_undo
  rw [if_pos ⟨hqueue, hne⟩]
  simp only [hlast, hc, hcprev, hp, hpnext, hq]
  exact ⟨_, rfl⟩

/-- One redo from a cursor `p` whose `next` is the action `c`: the cursor
moves to `c` and no cell is written. -/
theorem redo_step (vis : Bool) (dspwas : Int) (x : Nat) (s : t_mem) (p c : Nat)
    (pn cn : t_undo_action)
    (hqueue : s.undo.u_queue ≠ none)
    (hlast : s.undo.u_last = some p) (hp : load s.cells p = some pn)
    (hpnext : pn.next = some c) (hc : load s.cells c = some cn)
    (hnext : ∀ r, cn.next = some r → ∃ rn, load s.cells r = some rn) :
    ∃ ev, canvas_undo_redo vis dspwas x s
      = some ({ s with
                undo := { s.undo with u_last := some c },
                we_are_undoing := 0,
                canvas_undo_name := cn.name }, ev) := by
  unfold canvas_undo_redo
  cases hq : s.undo.u_queue with
  | none => exact absurd hq hqueue
  | some q0 =>
    simp only [hlast, hp, hpnext, hc]
    cases hr : cn.next with
    | none => exact ⟨_, rfl⟩
    | some r =>
      obtain ⟨rn, hrn⟩ := hnext r hr
      simp only [hrn, Option.map_some']
      exact ⟨_, rfl⟩

/-- C21: take a queue, that is a chain of actions from `NULL` to `NULL` that
starts at `u_queue`, with the cursor `u_last` on an action `c` that is not
the head (`pre`, the actions before `c`, is not empty).  Then
`canvas_undo_undo` returns with the cursor on the action before `c` and
`canvas_undo_redo` after it returns with the cursor on `c` again; the head,
every cell (so every `next` and `prev` link) and the sequence of actions of
the queue are what they were.  And in every state with the cursor on the head
of the queue `canvas_undo_undo` returns the state as it was: the cursor does
not move. -/
theorem canvas_undo_undo_redo_restores (vis1 vis2 : Bool) (dsp1 dsp2 : Int) (x : Nat)
    (s : t_mem) (pre post : List Nat) (c : Nat)
    (hqueue : s.undo.u_queue = (pre ++ c :: post).head?)
    (hlast : s.undo.u_last = some c)
    (hlinked : linked s.cells none (pre ++ c :: post) none = true)
    (hpre : pre ≠ []) :
    (∃ s1 ev1 s2 ev2,
      canvas_undo_undo vis1 dsp1 x s = some (s1, ev1) ∧
      canvas_undo_redo vis2 dsp2 x s1 = some (s2, ev2) ∧
      s1.undo.u_last = pre.getLast? ∧ s1.undo.u_queue = s.undo.u_queue ∧
      s1.cells = s.cells ∧
      s2.undo = s.undo ∧ s2.cells = s.cells ∧
      queue_actions s = some (pre ++ c :: post) ∧
      queue_actions s2 = some (pre ++ c :: post)) ∧
    (∀ t : t_mem, t.undo.u_last = t.undo.u_queue →
      canvas_undo_undo vis1 dsp1 x t
        = some (t, [Event.canvas_suspend_dsp, Event.canvas_resume_dsp dsp1])) := by
  refine ⟨?_, fun t ht => undo_at_head vis1 dsp1 x t ht⟩
  have hactions := linked_queue_actions s _ hqueue hlinked
  have hsplit := List.dropLast_append_getLast hpre
  generalize pre.getLast hpre = p at hsplit
  generalize pre.dropLast = l1 at hsplit
  subst hsplit
  obtain ⟨pn, cn, hp, hpnext, _, hc, hcprev, hcnext⟩ :=
    linked_around s.cells l1 post p c none none hlinked
  have hq : s.undo.u_queue ≠ none := by
    rw [hqueue]
    cases l1 <;> simp
  have hne : s.undo.u_last ≠ s.undo.u_queue := by
    rw [hlast, hqueue]
    intro heq
    cases hl : l1 ++ [p] ++ c :: post with
    | nil => simp at hl
    | cons q rest =>
      rw [hl] at hlinked heq
      obtain ⟨n, hn, hnprev, _, _⟩ := linked_cons s.cells none none q rest hlinked
      simp only [List.head?_cons, Option.some.injEq] at heq
      subst heq
      rw [hc] at hn
      rw [Option.some.inj hn, hnprev] at hcprev
      exact absurd hcprev (by simp)
  obtain ⟨ev1, h1⟩ := undo_step vis1 dsp1 x s p c c pn cn cn hq hne hlast hc hcprev hp
    hpnext hc
  have hnext : ∀ r, cn.next = some r → ∃ rn, load s.cells r = some rn := by
    intro r hr
    rw [hcnext] at hr
    apply linked_mem s.cells none _ none hlinked r
    cases post with
    | nil => simp [first_or] at hr
    | cons r2 post2 =>
      simp only [first_or, Option.some.injEq] at hr
      subst hr
      simp
  obtain ⟨ev2, h2⟩ := redo_step vis2 dsp2 x
    { s with
      undo := { s.undo with u_last := some p },
      we_are_undoing := 0,
      canvas_undo_name := cn.name } p c pn cn hq rfl hp hpnext hc hnext
  refine ⟨_, ev1, _, ev2, h1, h2, ?_, rfl, rfl, ?_, rfl, hactions, ?_⟩
  · simp
  · simp only
    rw [← hlast]
  · unfold queue_actions
    unfold queue_actions at hactions
    exact hactions

/-- The sample queues are those the functions build: `queue_sample` by
`canvas_undo_init` on a canvas without queue and three calls of
`canvas_undo_add`, `undone_sample` by one `canvas_undo_undo` after that. -/
theorem queue_sample_built :
    ((canvas_undo_init false 0 0 1 empty_sample).bind fun r0 =>
      (canvas_undo_add false 0 1 1 4 (some "motion") 40 r0.1).bind fun r1 =>
      (canvas_undo_add false 0 2 1 1 (some "connect") 41 r1.1).bind fun r2 =>
      (canvas_undo_add false 0 3 1 11 (some "font") 42 r2.1).map fun r3 => r3.1)
      = some queue_sample ∧
    (canvas_undo_undo false 0 1 queue_sample).map (fun r => r.1)
      = some undone_sample := by
  decide

/-- The witness for C21: the queue 0, 1, 2, 3 with the cursor on action 2. -/
theorem canvas_undo_undo_redo_restores_witness :
    (∃ s1 ev1 s2 ev2,
      canvas_undo_undo true 0 1 undone_sample = some (s1, ev1) ∧
      canvas_undo_redo true 0 1 s1 = some (s2, ev2) ∧
      s1.undo.u_last = [0, 1].getLast? ∧ s1.undo.u_queue = undone_sample.undo.u_queue ∧
      s1.cells = undone_sample.cells ∧
      s2.undo = undone_sample.undo ∧ s2.cells = undone_sample.cells ∧
      queue_actions undone_sample = some ([0, 1] ++ 2 :: [3]) ∧
      queue_actions s2 = some ([0, 1] ++ 2 :: [3])) ∧
    (∀ t : t_mem, t.undo.u_last = t.undo.u_queue →
      canvas_undo_undo true 0 1 t
        = some (t, [Event.canvas_suspend_dsp, Event.canvas_resume_dsp 0])) :=
  canvas_undo_undo_redo_restores true true 0 0 1 undone_sample [0, 1] [3] 2
    (by decide) (by decide) (by decide) (by decide)

/-! ## Adding an action (`canvas_undo_add`) -/

/-- A `switch` statement releases nothing. -/
theorem released_switch (msg : String) (x : Nat) (n : t_undo_action)
    (mode : t_undo_mode) : released (undo_switch msg x n mode) = [] := by
  unfold undo_switch released
  cases undo_handler n.type <;> rfl

/-- The addresses released in two traces, one after the other. -/
theorem released_append (ev1 ev2 : List Event) :
    released (ev1 ++ ev2) = released ev1 ++ released ev2 := by
  unfold released
  exact List.filterMap_append _ _ _

/-- After the cells `post` are released they are not allocated, and the other
cells are as they were. -/
theorem load_free_all (q : Nat) :
    ∀ (post : List Nat) (h : List (Option t_undo_action)),
      load (post.foldl freebytes h) q = if q ∈ post then none else load h q := by
  intro post
  induction post with
  | nil => intro h; simp
  | cons r rest ih =>
    intro h
    rw [List.foldl_cons, ih]
    by_cases hr : q ∈ rest
    · simp [hr]
    · by_cases hq : q = r
      · subst hq
        simp [hr, load_free_same]
      · simp [hr, hq, load_free_other h r q hq]

/-- With nothing left, the loop of `canvas_undo_rebranch` is over. -/
theorem rebranch_loop_none (x fuel : Nat) (h : List (Option t_undo_action)) :
    canvas_undo_rebranch_loop x fuel h none = some (h, []) := by
  cases fuel <;> rfl

/-- The loop of `canvas_undo_rebranch` on a chain that ends in `NULL`: it
returns, and it releases the cells of the chain, each once, in order. -/
theorem rebranch_loop_releases (x : Nat) :
    ∀ (post : List Nat) (h : List (Option t_undo_action)) (b : Option Nat)
      (fuel : Nat), linked h b post none = true → post.length ≤ fuel →
      ∃ ev, canvas_undo_rebranch_loop x fuel h (first_or post none)
          = some (post.foldl freebytes h, ev) ∧ released ev = post := by
  intro post
  induction post with
  | nil =>
    intro h b fuel _ _
    exact ⟨[], rebranch_loop_none x fuel h, rfl⟩
  | cons q rest ih =>
    intro h b fuel hl hfuel
    obtain ⟨n, hq, _, hnext, hrest⟩ := linked_cons h b none q rest hl
    have hnodup := linked_nodup h (q :: rest) b hl
    have hq2 : q ∉ rest := (List.nodup_cons.mp hnodup).1
    have hrest2 : linked (freebytes h q) (some q) rest none = true := by
      rw [linked_congr h (freebytes h q) none rest (some q)]
      · exact hrest
      · intro r hr
        exact load_free_other h q r (fun heq => hq2 (heq ▸ hr))
    cases fuel with
    | zero => simp at hfuel
    | succ f =>
      obtain ⟨ev, hloop, hrel⟩ := ih (freebytes h q) (some q) f hrest2
        (by simp only [List.length_cons] at hfuel; omega)
      refine ⟨undo_switch "canvas_undo_rebranch: unsupported undo command" x n
        t_undo_mode.UNDO_FREE ++ [Event.freebytes q] ++ ev, ?_, ?_⟩
      · simp only [first_or]
        conv_lhs => unfold canvas_undo_rebranch_loop
        simp only [hq, hnext, hloop]
        rfl
      · rw [released_append, released_append, released_switch, hrel]
        rfl

/-- The function `canvas_undo_rebranch` with the cursor on an action `c` that
is followed by the chain `post`: it returns, the cells of `post` are released
and nothing else is written. -/
theorem rebranch_releases (dspwas : Int) (x : Nat) (s : t_mem) (c : Nat)
    (cn : t_undo_action) (post : List Nat)
    (hlast : s.undo.u_last = some c) (hc : load s.cells c = some cn)
    (hnext : cn.next = first_or post none)
    (hpost : linked s.cells (some c) post none = true) :
    ∃ ev, canvas_undo_rebranch dspwas x s
        = some ({ s with cells := post.foldl freebytes s.cells }, ev) ∧
      released ev = post := by
  unfold canvas_undo_rebranch
  simp only [hlast, hc]
  cases post with
  | nil =>
    simp only [first_or] at hnext
    simp only [hnext]
    exact ⟨_, rfl, rfl⟩
  | cons q rest =>
    have hlen : (q :: rest).length ≤ s.cells.length := by
      apply nodup_bounded _ _ (linked_nodup s.cells _ _ hpost)
      intro r hr
      obtain ⟨n, hn⟩ := linked_mem s.cells none _ _ hpost r hr
      exact load_lt s.cells r n hn
    obtain ⟨ev, hloop, hrel⟩ :=
      rebranch_loop_releases x (q :: rest) s.cells (some c) s.cells.length hpost hlen
    simp only [first_or] at hnext hloop
    simp only [hnext, hloop]
    refine ⟨_, rfl, ?_⟩
    rw [released_append, released_append, hrel]
    simp [released, Event.freed]

/-- Two queues with the same actions up to the cursor have the same head. -/
theorem head_upto_cursor (pre post post2 : List Nat) (c : Nat) :
    (pre ++ c :: post).head? = (pre ++ c :: post2).head? := by
  cases pre <;> rfl

/-- C22: take a queue, that is a chain of actions from `NULL` to `NULL` that
starts at `u_queue`, with the cursor `u_last` on any action `c` of it (`pre`
are the actions before `c`, `post` those after it, which undos have left
behind), and let `getbytes` hand out an address `a` that is not allocated.
Then `canvas_undo_add` returns `a`; the head is as before and the cursor is
`a`; the cell `a` holds the given canvas, type, data and name with `prev` the
old cursor and `next` `NULL`; the old cursor is as it was but for `next`,
which is `a`; the cells of `pre` are as they were; the cells of `post` are no
longer allocated, and they are what the call released, each once and in
order; the sequence of actions of the queue is `pre`, `c`, `a`, linked from
`NULL` to `NULL`, and no action of `post` is in it. -/
theorem canvas_undo_add_rebranches (vis : Bool) (dspwas : Int) (a x : Nat) (type : Int)
    (name : Option String) (data : Nat) (s : t_mem) (pre post : List Nat) (c : Nat)
    (hqueue : s.undo.u_queue = (pre ++ c :: post).head?)
    (hlast : s.undo.u_last = some c)
    (hlinked : linked s.cells none (pre ++ c :: post) none = true)
    (hfresh : load s.cells a = none) :
    ∃ s2 ev cn, canvas_undo_add vis dspwas a x type name data s = some (s2, a, ev) ∧
      s2.undo.u_queue = s.undo.u_queue ∧ s2.undo.u_last = some a ∧
      load s2.cells a
        = some { x := x, type := type, data := data, name := name, prev := some c,
                 next := none } ∧
      load s.cells c = some cn ∧ load s2.cells c = some { cn with next := some a } ∧
      (∀ q ∈ pre, load s2.cells q = load s.cells q) ∧
      (∀ q ∈ post, load s2.cells q = none) ∧
      released ev = post ∧
      queue_actions s2 = some (pre ++ [c, a]) ∧
      linked s2.cells none (pre ++ [c, a]) none = true ∧
      (∀ q ∈ post, q ∉ pre ++ [c, a]) := by
  have hlive := linked_mem s.cells none _ none hlinked
  have hnodup := linked_nodup s.cells _ none hlinked
  have hne : ∀ q ∈ pre ++ c :: post, q ≠ a := by
    intro q hq heq
    obtain ⟨n, hn⟩ := hlive q hq
    rw [heq, hfresh] at hn
    exact absurd hn (by simp)
  have hl := hlinked
  rw [linked_append, Bool.and_eq_true] at hl
  obtain ⟨hprel, hcpost⟩ := hl
  obtain ⟨cn, hc, hcprev, hcnext, hpost⟩ := linked_cons s.cells _ none c post hcpost
  have hca : c ≠ a := hne c (by simp)
  have hac : a ≠ c := Ne.symm hca
  obtain ⟨hnpre, hncpost, hdisj⟩ := List.nodup_append.mp hnodup
  have hcpost2 : c ∉ post := (List.nodup_cons.mp hncpost).1
  have hcpre : c ∉ pre := fun hmem => hdisj hmem (List.mem_cons_self _ _)
  have hprepost : ∀ q ∈ pre, q ∉ post :=
    fun q hq hmem => hdisj hq (List.mem_cons_of_mem _ hmem)
  have hapost : a ∉ post := fun hmem => hne a (by simp [hmem]) rfl
  have hapre : a ∉ pre := fun hmem => hne a (by simp [hmem]) rfl
  obtain ⟨q0, hq0⟩ : ∃ q0, s.undo.u_queue = some q0 := by
    rw [hqueue]
    cases pre <;> simp
  unfold canvas_undo_add canvas_undo_init
  simp only [getbytes, load_store_same, hq0, hlast, load_store_other _ a c _ hca, hc]
  have e1a : load (store (store s.cells a
      { x := 0, type := 0, data := 0, name := none, prev := none, next := none }) a
      { x := x, type := 0, data := 0, name := none, prev := none, next := none }) a
      = some { x := x, type := 0, data := 0, name := none, prev := none, next := none } :=
    load_store_same _ _ _
  have e1o : ∀ q, q ≠ a → load (store (store s.cells a
      { x := 0, type := 0, data := 0, name := none, prev := none, next := none }) a
      { x := x, type := 0, data := 0, name := none, prev := none, next := none }) q
      = load s.cells q := by
    intro q hq
    rw [load_store_other _ _ _ _ hq, load_store_other _ _ _ _ hq]
  generalize store (store s.cells a
      { x := 0, type := 0, data := 0, name := none, prev := none, next := none }) a
      { x := x, type := 0, data := 0, name := none, prev := none, next := none } = h1
    at e1a e1o ⊢
  have hpost1 : linked h1 (some c) post none = true := by
    rw [linked_congr s.cells h1 none post (some c)]
    · exact hpost
    · intro q hq
      exact e1o q (hne q (by simp [hq]))
  obtain ⟨ev0, hreb, hrel⟩ := rebranch_releases dspwas x
    { cells := h1, undo := s.undo, we_are_undoing := s.we_are_undoing,
      canvas_undo_name := s.canvas_undo_name } c cn post hlast
    ((e1o c hca).trans hc) hcnext hpost1
  have hbr : (if cn.next ≠ none then
        canvas_undo_rebranch dspwas x
          { cells := h1, undo := s.undo, we_are_undoing := s.we_are_undoing,
            canvas_undo_name := s.canvas_undo_name }
      else
        some (({ cells := h1, undo := s.undo, we_are_undoing := s.we_are_undoing,
                 canvas_undo_name := s.canvas_undo_name } : t_mem), []))
      = some (({ cells := post.foldl freebytes h1, undo := s.undo,
                 we_are_undoing := s.we_are_undoing,
                 canvas_undo_name := s.canvas_undo_name } : t_mem),
              if cn.next ≠ none then ev0 else []) := by
    by_cases hn : cn.next = none
    · have hp0 : post = [] := by
        cases post with
        | nil => rfl
        | cons q rest => rw [hcnext] at hn; simp [first_or] at hn
      subst hp0
      simp [hn]
    · rw [if_pos hn, if_pos hn]
      exact hreb
  have hrel2 : released (if cn.next ≠ none then ev0 else []) = post := by
    by_cases hn : cn.next = none
    · have hp0 : post = [] := by
        cases post with
        | nil => rfl
        | cons q rest => rw [hcnext] at hn; simp [first_or] at hn
      subst hp0
      simp [hn, released]
    · rw [if_pos hn]
      exact hrel
  generalize (if cn.next ≠ none then ev0 else []) = ev1 at hbr hrel2
  simp only [hbr, load_free_all, hcpost2, hapost, if_false, e1o c hca, hc,
    load_store_other _ c a _ hac, e1a, load_store_same]
  have hstored : ∀ q, q ≠ a → q ≠ c →
      load (store (store (store (List.foldl freebytes h1 post) c
          { x := cn.x, type := cn.type, data := cn.data, name := cn.name,
            prev := cn.prev, next := some a }) a
          { x := x, type := 0, data := 0, name := none, prev := some c, next := none }) a
          { x := x, type := type, data := data, name := name, prev := some c,
            next := none }) q
        = if q ∈ post then none else load s.cells q := by
    intro q hqa hqc
    rw [load_store_other _ _ _ _ hqa, load_store_other _ _ _ _ hqa,
      load_store_other _ _ _ _ hqc, load_free_all, e1o q hqa]
  have hpre2 : ∀ q ∈ pre,
      load (store (store (store (List.foldl freebytes h1 post) c
          { x := cn.x, type := cn.type, data := cn.data, name := cn.name,
            prev := cn.prev, next := some a }) a
          { x := x, type := 0, data := 0, name := none, prev := some c, next := none }) a
          { x := x, type := type, data := data, name := name, prev := some c,
            next := none }) q
        = load s.cells q := by
    intro q hq
    rw [hstored q (hne q (by simp [hq])) (fun heq => hcpre (heq ▸ hq)),
      if_neg (hprepost q hq)]
  have hc2 : load (store (store (store (List.foldl freebytes h1 post) c
          { x := cn.x, type := cn.type, data := cn.data, name := cn.name,
            prev := cn.prev, next := some a }) a
          { x := x, type := 0, data := 0, name := none, prev := some c, next := none }) a
          { x := x, type := type, data := data, name := name, prev := some c,
            next := none }) c
        = some { cn with next := some a } := by
    rw [load_store_other _ _ _ _ hca, load_store_other _ _ _ _ hca, load_store_same]
  have hlinked2 : linked (store (store (store (List.foldl freebytes h1 post) c
          { x := cn.x, type := cn.type, data := cn.data, name := cn.name,
            prev := cn.prev, next := some a }) a
          { x := x, type := 0, data := 0, name := none, prev := some c, next := none }) a
          { x := x, type := type, data := data, name := name, prev := some c,
            next := none }) none (pre ++ [c, a]) none = true := by
    rw [linked_append, Bool.and_eq_true]
    constructor
    · rw [linked_congr s.cells _ _ pre none hpre2]
      exact hprel
    · apply linked_of_cons _ _ _ c [a] _ hc2 hcprev rfl
      exact linked_of_cons _ _ _ a [] _ (load_store_same _ _ _) rfl rfl rfl
  refine ⟨_, _, cn, rfl, hq0, rfl, load_store_same _ _ _, rfl, hc2, hpre2,
    ?_, ?_, ?_, hlinked2, ?_⟩
  · intro q hq
    rw [hstored q (hne q (by simp [hq])) (fun heq => hcpost2 (heq ▸ hq)), if_pos hq]
  · rw [released_append, released_append, hrel2]
    cases vis <;> simp [released, Event.freed]
  · apply linked_queue_actions _ _ _ hlinked2
    simp only []
    rw [hqueue]
    exact head_upto_cursor pre post [a] c
  · intro q hq hmem
    rcases List.mem_append.mp hmem with h | h
    · exact hprepost q h hq
    · rcases List.mem_cons.mp h with h | h
      · exact hcpost2 (h ▸ hq)
      · rw [List.mem_singleton] at h
        exact hapost (h ▸ hq)

/-- The witness for C22: a cut is added to the queue 0, 1, 2, 3 while the
cursor is on action 2; `getbytes` hands out the address 4. -/
theorem canvas_undo_add_rebranches_witness :
    ∃ s2 ev cn,
      canvas_undo_add true 0 4 1 3 (some "cut") 50 undone_sample = some (s2, 4, ev) ∧
      s2.undo.u_queue = undone_sample.undo.u_queue ∧ s2.undo.u_last = some 4 ∧
      load s2.cells 4
        = some { x := 1, type := 3, data := 50, name := some "cut", prev := some 2,
                 next := none } ∧
      load undone_sample.cells 2 = some cn ∧
      load s2.cells 2 = some { cn with next := some 4 } ∧
      (∀ q ∈ [0, 1], load s2.cells q = load undone_sample.cells q) ∧
      (∀ q ∈ [3], load s2.cells q = none) ∧
      released ev = [3] ∧
      queue_actions s2 = some ([0, 1] ++ [2, 4]) ∧
      linked s2.cells none ([0, 1] ++ [2, 4]) none = true ∧
      (∀ q ∈ [3], q ∉ [0, 1] ++ [2, 4]) :=
  canvas_undo_add_rebranches true 0 4 1 3 (some "cut") 50 undone_sample [0, 1] [3] 2
    (by decide) (by decide) (by decide) (by decide)

end GUndo
